import Mathlib

/-!
# torforwarder: a shallow embedding of `torforwarder.c`

The C program is a single-threaded SOCKS5 forwarder.  This file embeds its
session table, its I/O handlers, both handshake parsers, the address writer,
the circuit generator and one round of `main_loop` as Lean functions, and
proves properties of them.

Conventions of the embedding.

* `uint8_t` is `Fin 256`; a cast to `uint8_t` is `Fin.ofNat`.
* `int` fields (`client_s`, `tor_s`, `inlen`, `outlen`) are `Int`.
* A buffer `uint8_t buf[BufSize]` is a total map `Nat → Byte` from index to
  byte; only indices below `BufSize` exist in C.
* Pointers into a buffer are `Int` offsets from its base, so the pointer
  comparisons of the parsers become comparisons of offsets.
* Every system call takes its result from an oracle `Env`, indexed by the
  number of oracle queries made so far (`Sys.tick`), and externally visible
  effects are appended to `Sys.log` (newest first).
* `err(1, ...)` (process exit) sets `Sys.exited`; nothing runs afterwards.
-/

namespace TorForwarder

/-! ## Constants and the data model -/

/-- The type `uint8_t`. -/
abbrev Byte := Fin 256

/-- Number of session slots, `MaxPeers`. -/
def MaxPeers : Nat := 9

/-- Descriptor ceiling, `MaxFD = 2 * MaxPeers + 2`. -/
def MaxFD : Int := 2 * 9 + 2

/-- Buffer capacity, `BufSize`. -/
def BufSize : Nat := 4096

/-- The value of `(size_t)-1` on a 64-bit target. -/
def SIZE_MAX : Nat := 2 ^ 64 - 1

/-- Conversion of an `int` or `ptrdiff_t` to `size_t`. -/
def toSize (x : Int) : Nat := (x % 2 ^ 64).toNat

/-- A buffer: index to byte. -/
abbrev Buf := Nat → Byte

/-- The record `struct peer`. -/
structure peer where
  client_s : Int
  tor_s : Int
  inlen : Int
  outlen : Int
  inend : Bool
  outend : Bool
  init : Bool
  inbuf : Buf
  outbuf : Buf

/-- The bytes `buf[0 .. n)`. -/
def bytes (buf : Buf) (n : Nat) : List Byte := (List.range n).map buf

/-- The bytes `buf[off .. off + n)`. -/
def slice (buf : Buf) (off n : Nat) : List Byte := (List.range n).map fun i => buf (off + i)

/-- The effect of `memmove(buf + dst, buf + src, n)` inside one buffer. -/
def memmove (buf : Buf) (dst src n : Nat) : Buf :=
  fun i => if dst ≤ i ∧ i < dst + n then buf (i - dst + src) else buf i

/-- The effect of storing the list `data` at `buf + off`. -/
def store (buf : Buf) (off : Nat) (data : List Byte) : Buf :=
  fun i => if h : off ≤ i ∧ i - off < data.length then data.get ⟨i - off, h.2⟩ else buf i

/-- A buffer whose first bytes are `data`, zero elsewhere. -/
def bufOf (data : List Byte) : Buf := fun i => data.getD i 0

/-- The bytes of a C string literal, without the terminating NUL. -/
def cstr (s : String) : List Byte := s.toList.map fun c => Fin.ofNat c.toNat

/-! ## The environment -/

/-- The values of `errno` the program distinguishes. -/
inductive Errno where
  | EAGAIN
  | EINTR
  | other
  deriving DecidableEq, Repr

/-- Result of `send`: bytes accepted, or `-1` with `errno`. -/
inductive SendRet where
  | ok (n : Nat)
  | err (e : Errno)
  deriving DecidableEq, Repr

/-- Result of `recv`: the bytes delivered (none = end of file), or `-1` with `errno`. -/
inductive RecvRet where
  | ok (data : List Byte)
  | err (e : Errno)
  deriving DecidableEq, Repr

/-- The second argument of `shutdown`. -/
inductive How where
  | SHUT_WR
  | SHUT_RDWR
  deriving DecidableEq, Repr

/-- Externally visible effects, in the order the program performs them. -/
inductive Event where
  | send (fd : Int) (data : List Byte) (ret : SendRet)
  | shutdown (fd : Int) (how : How)
  | close (fd : Int)
  | socket (ret : Int)
  | connect (fd : Int) (ok : Bool)
  | accept (ret : Int)
  | warn (msg : String)
  deriving DecidableEq, Repr

/-- The oracle: what each system call answers, by query number. -/
structure Env where
  recv : Nat → RecvRet
  send : Nat → SendRet
  socket : Nat → Int
  connect : Nat → Bool
  accept : Nat → Int
  clock : Nat → Option Int
  arc4random : Nat → Nat
  select : Nat → Option ((Int → Bool) × (Int → Bool))

/-- Everything outside the session table: the effect log (newest first), the
number of oracle queries made, the two statics of `tor_circuit`, and whether
`err` has ended the process. -/
structure Sys where
  log : List Event
  tick : Nat
  rand : Nat
  time : Int
  exited : Bool

/-- Append an effect to the log. -/
def Sys.emit (s : Sys) (e : Event) : Sys := { s with log := e :: s.log }

/-- The world outside the table before anything has happened. -/
def Sys.start : Sys := { log := [], tick := 0, rand := 0, time := 0, exited := false }

/-- Consume one oracle query. -/
def Sys.next (s : Sys) : Sys := { s with tick := s.tick + 1 }

/-- The call `send(fd, data, len, MSG_DONTWAIT)`: the kernel accepts at most
`len` bytes.  Returns the value converted to `size_t`, and `errno`. -/
def sys_send (env : Env) (fd : Int) (data : List Byte) (s : Sys) : Nat × Errno × Sys :=
  match env.send s.tick with
  | .ok n => (min n data.length, .other, (s.emit (.send fd data (.ok (min n data.length)))).next)
  | .err e => (SIZE_MAX, e, (s.emit (.send fd data (.err e))).next)

/-- The call `recv(fd, buf, size, MSG_DONTWAIT)`: the kernel delivers at most
`size` bytes.  Returns the value converted to `size_t`, `errno`, and the
bytes stored at `buf`. -/
def sys_recv (env : Env) (size : Nat) (s : Sys) : Nat × Errno × List Byte × Sys :=
  match env.recv s.tick with
  | .ok data => ((data.take size).length, .other, data.take size, s.next)
  | .err e => (SIZE_MAX, e, [], s.next)

/-- The call `shutdown(fd, how)`. -/
def sys_shutdown (fd : Int) (how : How) (s : Sys) : Sys := s.emit (.shutdown fd how)

/-- The call `close(fd)`. -/
def sys_close (fd : Int) (s : Sys) : Sys := s.emit (.close fd)

/-- The calls `warn` and `warnx`. -/
def warnx (msg : String) (s : Sys) : Sys := s.emit (.warn msg)

/-! ## The shutdown coordinator -/

/-- The function `shutdown_all`: hard-close both sockets. -/
def shutdown_all (p : peer) (s : Sys) : peer × Sys :=
  let s := if p.client_s ≠ -1 then sys_close p.client_s (sys_shutdown p.client_s .SHUT_RDWR s) else s
  let s := if p.tor_s ≠ -1 then sys_close p.tor_s (sys_shutdown p.tor_s .SHUT_RDWR s) else s
  ({ p with client_s := -1, tor_s := -1 }, s)

/-- The function `shutdown_in`. -/
def shutdown_in (p : peer) (s : Sys) : peer × Sys :=
  let p := { p with inend := true }
  if p.inlen = 0 then
    let s := if p.client_s ≠ -1 then sys_shutdown p.client_s .SHUT_WR s else s
    if (p.outlen = 0 ∧ p.outend = true) ∨ p.init = true then shutdown_all p s else (p, s)
  else (p, s)

/-- The function `shutdown_out`. -/
def shutdown_out (p : peer) (s : Sys) : peer × Sys :=
  let p := { p with outend := true }
  if p.outlen = 0 then
    let s := if p.tor_s ≠ -1 then sys_shutdown p.tor_s .SHUT_WR s else s
    if p.inlen = 0 ∧ p.inend = true then shutdown_all p s else (p, s)
  else (p, s)

/-! ## The translation table and the address writer -/

/-- The record `struct translation_item`; both fields are C strings. -/
structure translation_item where
  name : List Byte
  newname : List Byte
  deriving DecidableEq

/-- The array `translation_table` as written in the source. -/
def translation_table : List translation_item :=
  [ ⟨cstr "pop.riseup.net", cstr "5gdvpfoh6kb2iqbizb37lzk2ddzrwa47m6rpdueg2m656fovmbhoptqd.onion"⟩,
    ⟨cstr "smtp.riseup.net", cstr "5gdvpfoh6kb2iqbizb37lzk2ddzrwa47m6rpdueg2m656fovmbhoptqd.onion"⟩ ]

/-- The constant `default_address`. -/
def default_address : List Byte :=
  cstr "5gdvpfoh6kb2iqbizb37lzk2ddzrwa47m6rpdueg2m656fovmbhoptqd.onion"

/-- The constant `default_port`. -/
def default_port : Nat := 465

/-- The library function `strcmp` on two character arrays.  A zero byte ends
a string, and so does the end of the list (the terminator the array holds
there).  Bytes compare as `unsigned char`. -/
def strcmp : List Byte → List Byte → Int
  | [], [] => 0
  | [], b :: _ => - (b.val : Int)
  | a :: _, [] => (a.val : Int)
  | a :: as, b :: bs =>
    if a = b then (if a = 0 then 0 else strcmp as bs) else (a.val : Int) - (b.val : Int)

/-- The function `translation_item_cmp`, as the order `qsort` sorts by. -/
def translation_item_cmp (x y : translation_item) : Bool := decide (strcmp x.name y.name ≤ 0)

/-- The table after `main` has sorted it with `qsort`. -/
def sorted_table : List translation_item :=
  translation_table.insertionSort fun x y => translation_item_cmp x y = true

/-- The binary search loop of `write_address`; `fuel` bounds the number of
iterations (the interval `[low, high)` shrinks in each). -/
def search (table : List translation_item) (name : List Byte) :
    Nat → Nat → Nat → Option (List Byte)
  | 0, _, _ => none
  | fuel + 1, low, high =>
    if low < high then
      let mid := low + ((high - low) >>> 1)
      match table.get? mid with
      | none => none
      | some item =>
        let cmp := strcmp item.name name
        if cmp < 0 then search table name fuel (mid + 1) high
        else if cmp > 0 then search table name fuel low mid
        else some item.newname
    else none

/-- The function `write_address`: the bytes it stores at `out`. -/
def write_address (p : peer) (tran : Bool) : List Byte :=
  if p.outbuf 0 ≠ 5 then
    let len : Byte := Fin.ofNat default_address.length
    [len] ++ default_address.take len.val ++
      [Fin.ofNat (default_port >>> 8), Fin.ofNat (default_port &&& 0xff)]
  else
    let nauth : Nat := (p.outbuf 1).val
    let inp : Nat := nauth + 6
    let l : Nat := (p.outbuf inp).val
    let name := slice p.outbuf (inp + 1) l
    match (if tran then search sorted_table name sorted_table.length 0 sorted_table.length
           else none) with
    | some newname =>
      let len : Byte := Fin.ofNat newname.length
      [len] ++ newname.take len.val ++ slice p.outbuf (inp + l + 1) 2
    | none => slice p.outbuf inp (l + 3)

/-! ## The circuit generator -/

/-- The test of `tor_circuit` that decides whether to draw a fresh value. -/
def rotate (rand : Nat) (time now : Int) : Bool :=
  decide ((rand = 0 ∧ time = 0) ∨ now - time ≥ 60)

/-- One call of `tor_circuit` on its two statics `(rand, time)`, given the
clock reading `now` and the value `r` that `arc4random` would return.
Returns the result and the new statics. -/
def circuit_step (st : Nat × Int) (now : Int) (r : Nat) : Nat × (Nat × Int) :=
  let rand := if rotate st.1 st.2 now then r else st.1
  (rand, (rand, now))

/-- The function `tor_circuit`. -/
def tor_circuit (env : Env) (s : Sys) : Nat × Sys :=
  match env.clock s.tick with
  | none => (0, { s.next with exited := true })
  | some now =>
    let s := s.next
    let out := circuit_step (s.rand, s.time) now (env.arc4random s.tick % 2 ^ 32)
    let s := if rotate s.rand s.time now then s.next else s
    (out.1, { s with rand := out.2.1, time := out.2.2 })

/-! ## The handshake machine, upstream side -/

/-- The 11-byte user/password request built from a circuit number. -/
def auth_request (circuit : Nat) : List Byte :=
  [ 1, 4,
    Fin.ofNat (97 + (circuit &&& 15)),
    Fin.ofNat (97 + ((circuit >>> 4) &&& 15)),
    Fin.ofNat (97 + ((circuit >>> 8) &&& 15)),
    Fin.ofNat (97 + ((circuit >>> 12) &&& 15)),
    4,
    Fin.ofNat (97 + ((circuit >>> 16) &&& 15)),
    Fin.ofNat (97 + ((circuit >>> 20) &&& 15)),
    Fin.ofNat (97 + ((circuit >>> 24) &&& 15)),
    Fin.ofNat (97 + ((circuit >>> 28) &&& 15)) ]

/-- The synthetic reply stored at the head of `inbuf` on completion. -/
def reply : List Byte := [5, 0, 0, 1, 0, 0, 0, 0, 0, 0]

/-- The length `reslen` the code assigns to the response at `inbuf + 4`. -/
def reslen (inbuf : Buf) : Int :=
  if inbuf 7 = 1 then 10 else if inbuf 7 = 4 then 22
  else if inbuf 7 = 3 then ((inbuf 8).val : Int) + 7 else 4

/-- The part of `init_tor` from `const int reslen` to the end: the response
check and the splice. -/
def init_tor_response (p : peer) (s : Sys) : peer × Sys :=
  let e2 : Int := p.inlen
  let reslen := reslen p.inbuf
  if e2 < 4 + reslen then (p, s)
  else if p.inbuf 4 ≠ 5 ∨ p.inbuf 5 ≠ 0 ∨ p.inbuf 6 ≠ 0 ∨ reslen < 6 then
    shutdown_all p (warnx "bad req response" s)
  else
    let inp : Int := 4 + reslen
    let inlen : Nat := toSize (p.inlen - inp)
    let p := { p with init := false }
    if p.outbuf 0 = 5 then
      let p := { p with inbuf := store p.inbuf 0 reply }
      if inp < 10 then shutdown_all p (warnx "FATAL" s)
      else
        let p := { p with inbuf := memmove p.inbuf 10 inp.toNat inlen }
        let p := { p with inlen := (10 + inlen : Nat) }
        let nauth : Nat := (p.outbuf 1).val
        let len : Int := (nauth : Int) + ((p.outbuf (nauth + 6)).val : Int) + 9
        let p := { p with outbuf := memmove p.outbuf 0 len.toNat (toSize (p.outlen - len)) }
        ({ p with outlen := p.outlen - len }, s)
    else
      ({ p with inbuf := memmove p.inbuf 0 inp.toNat inlen, inlen := (inlen : Nat) }, s)

/-- The part of `init_tor` from the second `if (e2 < in + 2)` on: the
authentication response and the CONNECT request. -/
def init_tor_auth (env : Env) (p : peer) (nread : Nat) (s : Sys) : peer × Sys :=
  let e2 : Int := p.inlen
  let e1 : Int := e2 - nread
  if e2 < 4 then (p, s)
  else if e1 < 4 then
    if p.inbuf 2 ≠ 1 ∨ p.inbuf 3 ≠ 0 then shutdown_all p (warnx "bad auth response" s)
    else
      let buf : List Byte := [5, 1, 0, 3] ++ write_address p true
      let size : Nat := (buf.getD 4 0).val + 7
      let r := sys_send env p.tor_s (buf.take size) s
      if r.1 ≠ size then shutdown_all p (warnx "could not send request" r.2.2)
      else init_tor_response p r.2.2
  else init_tor_response p s

/-- The function `init_tor`. -/
def init_tor (env : Env) (p : peer) (nread : Nat) (s : Sys) : peer × Sys :=
  if p.tor_s = -1 then
    let fd := env.socket s.tick
    let s := (s.emit (.socket fd)).next
    let p := { p with tor_s := fd }
    if fd < 0 ∨ fd ≥ MaxFD then
      shutdown_all p (warnx (if fd = -1 then "socket" else "bad socket") s)
    else
      let ok := env.connect s.tick
      let s := (s.emit (.connect fd ok)).next
      if ok = false then shutdown_all p (warnx "connect" s)
      else
        let r := sys_send env p.tor_s [5, 1, 2] s
        if r.1 ≠ 3 then shutdown_all p (warnx "could not send auth type" r.2.2)
        else (p, r.2.2)
  else
    let e2 : Int := p.inlen
    let e1 : Int := e2 - nread
    if e2 < 2 then (p, s)
    else if e1 < 2 then
      if p.inbuf 0 ≠ 5 ∨ p.inbuf 1 ≠ 2 then shutdown_all p (warnx "bad greeting or auth" s)
      else
        let c := tor_circuit env s
        if c.2.exited = true then (p, c.2)
        else
          let r := sys_send env p.tor_s (auth_request c.1) c.2
          if r.1 ≠ 11 then shutdown_all p (warnx "could not send auth" r.2.2)
          else init_tor_auth env p nread r.2.2
    else init_tor_auth env p nread s

/-! ## The handshake machine, client side -/

/-- The length `reqlen` the code assigns to the request at `outbuf + off`. -/
def reqlen (outbuf : Buf) (off : Nat) : Int :=
  if outbuf (off + 3) = 3 then ((outbuf (off + 4)).val : Int) + 7 else 4

/-- The part of `init_client` from `in += nauth + 2` on: the request. -/
def init_client_request (env : Env) (p : peer) (nread : Nat) (s : Sys) : peer × Sys :=
  let e2 : Int := p.outlen
  let e1 : Int := e2 - nread
  let nauth : Nat := (p.outbuf 1).val
  let off : Nat := nauth + 2
  let reqlen := reqlen p.outbuf off
  if e2 < (off : Int) + reqlen then (p, s)
  else if e1 < (off : Int) + reqlen then
    if p.outbuf off ≠ 5 ∨ p.outbuf (off + 1) ≠ 1 ∨ p.outbuf (off + 2) ≠ 0 ∨ reqlen < 6 then
      shutdown_all p (warnx "bad request" s)
    else init_tor env p 0 s
  else (p, s)

/-- The function `init_client`. -/
def init_client (env : Env) (p : peer) (nread : Nat) (s : Sys) : peer × Sys :=
  let e2 : Int := p.outlen
  let e1 : Int := e2 - nread
  if 0 < e2 ∧ p.outbuf 0 ≠ 5 then
    if 0 ≥ e1 then init_tor env p 0 s else (p, s)
  else
    let nauth : Nat := (p.outbuf 1).val
    if e2 < (nauth : Int) + 2 then (p, s)
    else if e1 < (nauth : Int) + 2 then
      if (List.range nauth).any (fun i => decide (p.outbuf (i + 2) = 0)) = false then
        shutdown_all p (warnx "bad auth" s)
      else
        let r := sys_send env p.client_s [5, 0] s
        if r.1 ≠ 2 then shutdown_all p (warnx "could not send auth accept" r.2.2)
        else init_client_request env p nread r.2.2
    else init_client_request env p nread s

/-! ## The I/O handlers -/

/-- The function `read_client`. -/
def read_client (env : Env) (p : peer) (s : Sys) : peer × Sys :=
  let size : Nat := toSize ((BufSize : Int) - p.outlen)
  let r := sys_recv env size s
  let nread : Nat := r.1
  let errno := r.2.1
  let p := { p with outbuf := store p.outbuf p.outlen.toNat r.2.2.1 }
  let s := r.2.2.2
  if size < nread then
    if nread = SIZE_MAX ∧ (errno = .EAGAIN ∨ errno = .EINTR) then (p, s)
    else shutdown_out p (warnx "read_client: recv" s)
  else if nread = 0 then shutdown_out p s
  else
    let p := { p with outlen := p.outlen + (nread : Int) }
    if p.init = true then init_client env p nread s else (p, s)

/-- The function `read_tor`. -/
def read_tor (env : Env) (p : peer) (s : Sys) : peer × Sys :=
  let size : Nat := toSize ((BufSize : Int) - p.inlen)
  let r := sys_recv env size s
  let nread : Nat := r.1
  let errno := r.2.1
  let p := { p with inbuf := store p.inbuf p.inlen.toNat r.2.2.1 }
  let s := r.2.2.2
  if size < nread then
    if nread = SIZE_MAX ∧ (errno = .EAGAIN ∨ errno = .EINTR) then (p, s)
    else shutdown_in p (warnx "read_tor: recv" s)
  else if nread = 0 then shutdown_in p s
  else
    let p := { p with inlen := p.inlen + (nread : Int) }
    if p.init = true then init_tor env p nread s else (p, s)

/-- The function `write_client`. -/
def write_client (env : Env) (p : peer) (s : Sys) : peer × Sys :=
  if p.inlen ≠ 0 then
    let r := sys_send env p.client_s (bytes p.inbuf (toSize p.inlen)) s
    let nwrite : Nat := r.1
    let errno := r.2.1
    let s := r.2.2
    if toSize p.inlen < nwrite then
      if nwrite = SIZE_MAX ∧ (errno = .EAGAIN ∨ errno = .EINTR) then (p, s)
      else shutdown_in { p with inlen := 0 } (warnx "write_client: send" s)
    else
      let p := { p with inlen := p.inlen - (nwrite : Int) }
      let p := { p with inbuf := memmove p.inbuf 0 nwrite (toSize p.inlen) }
      if p.inend = true then shutdown_in p s else (p, s)
  else if p.inend = true then shutdown_in p s else (p, s)

/-- The function `write_tor`. -/
def write_tor (env : Env) (p : peer) (s : Sys) : peer × Sys :=
  if p.outlen ≠ 0 then
    let r := sys_send env p.tor_s (bytes p.outbuf (toSize p.outlen)) s
    let nwrite : Nat := r.1
    let errno := r.2.1
    let s := r.2.2
    if toSize p.outlen < nwrite then
      if nwrite = SIZE_MAX ∧ (errno = .EAGAIN ∨ errno = .EINTR) then (p, s)
      else shutdown_out { p with outlen := 0 } (warnx "write_tor: send" s)
    else
      let p := { p with outlen := p.outlen - (nwrite : Int) }
      let p := { p with outbuf := memmove p.outbuf 0 nwrite (toSize p.outlen) }
      if p.outend = true then shutdown_out p s else (p, s)
  else if p.outend = true then shutdown_out p s else (p, s)

/-! ## The readiness loop -/

/-- The session table `peers` together with the rest of the world. -/
structure World where
  peers : List peer
  sys : Sys

/-- The table as `main` leaves it before the first round: every slot free. -/
def free_slot : peer :=
  { client_s := -1, tor_s := -1, inlen := 0, outlen := 0, inend := false, outend := false,
    init := false, inbuf := fun _ => 0, outbuf := fun _ => 0 }

/-- The world when `main` enters its loop. -/
def World.start : World :=
  { peers := List.replicate MaxPeers free_slot,
    sys := Sys.start }

/-- The read set `rfds` that `main_loop` hands to `select`. -/
def read_interest (listen_s : Int) (peers : List peer) : List Int :=
  (if peers.any (fun p => decide (p.client_s < 0)) then [listen_s] else []) ++
  peers.flatMap fun p =>
    (if p.client_s ≥ 0 ∧ p.outlen < (BufSize : Int) ∧ p.outend = false then [p.client_s] else []) ++
    (if p.tor_s ≥ 0 ∧ p.inlen < (BufSize : Int) ∧ p.inend = false then [p.tor_s] else [])

/-- The write set `wfds` that `main_loop` hands to `select`. -/
def write_interest (peers : List peer) : List Int :=
  peers.flatMap fun p =>
    (if p.client_s ≥ 0 ∧ p.inlen ≠ 0 ∧ p.init = false then [p.client_s] else []) ++
    (if p.tor_s ≥ 0 ∧ p.outlen ≠ 0 ∧ p.init = false then [p.tor_s] else [])

/-- The slot contents `main_loop` installs for an accepted client. -/
def accepted (p : peer) (client : Int) : peer :=
  { p with client_s := client, tor_s := -1, inlen := 0, outlen := 0, inend := false,
           outend := false, init := true }

/-- The install loop of `main_loop`: returns the table and the final value
of the local `client`. -/
def install : Int → List peer → List peer × Int
  | client, [] => ([], client)
  | client, p :: ps =>
    if client ≥ 0 ∧ p.client_s < 0 then
      let r := install (-1) ps
      (accepted p client :: r.1, r.2)
    else
      let r := install client ps
      (p :: r.1, r.2)

/-- The body of `if (FD_ISSET(listen_s, &rfds))` in `main_loop`. -/
def accept_step (env : Env) (peers : List peer) (s : Sys) : List peer × Sys :=
  let ret := env.accept s.tick
  let s := (s.emit (.accept ret)).next
  let c : Int × Sys :=
    if ret = -1 then (ret, warnx "accept" s)
    else if ret < 0 ∨ ret ≥ MaxFD then
      (-1, sys_close ret (sys_shutdown ret .SHUT_RDWR (warnx "bad socket" s)))
    else (ret, s)
  let r := install c.1 peers
  let s := if r.2 ≥ 0 then
      sys_close r.2 (sys_shutdown r.2 .SHUT_RDWR (warnx "no free slot to accept!" c.2))
    else c.2
  (r.1, s)

/-- Guard of `read_client` in the service loop. -/
def client_readable (rfds : List Int) (p : peer) : Bool := decide (p.client_s ≥ 0 ∧ p.client_s ∈ rfds)

/-- Guard of `read_tor`. -/
def tor_readable (rfds : List Int) (p : peer) : Bool := decide (p.tor_s ≥ 0 ∧ p.tor_s ∈ rfds)

/-- Guard of `write_client`. -/
def client_writable (wfds : List Int) (p : peer) : Bool := decide (p.client_s ≥ 0 ∧ p.client_s ∈ wfds)

/-- Guard of `write_tor`. -/
def tor_writable (wfds : List Int) (p : peer) : Bool := decide (p.tor_s ≥ 0 ∧ p.tor_s ∈ wfds)

/-- The two read handlers of one iteration of the service loop. -/
def service_reads (env : Env) (rfds : List Int) (p : peer) (s : Sys) : peer × Sys :=
  let r := if s.exited = false ∧ client_readable rfds p then read_client env p s else (p, s)
  if r.2.exited = false ∧ tor_readable rfds r.1 then read_tor env r.1 r.2 else r

/-- The two write handlers of one iteration of the service loop. -/
def service_writes (env : Env) (wfds : List Int) (p : peer) (s : Sys) : peer × Sys :=
  let r := if s.exited = false ∧ client_writable wfds p then write_client env p s else (p, s)
  if r.2.exited = false ∧ tor_writable wfds r.1 then write_tor env r.1 r.2 else r

/-- One iteration of the service loop of `main_loop`. -/
def service (env : Env) (rfds wfds : List Int) (p : peer) (s : Sys) : peer × Sys :=
  let r := service_reads env rfds p s
  service_writes env wfds r.1 r.2

/-- The service loop of `main_loop`, in slot order. -/
def service_all (env : Env) (rfds wfds : List Int) : List peer → Sys → List peer × Sys
  | [], s => ([], s)
  | p :: ps, s =>
    let r := service env rfds wfds p s
    let rs := service_all env rfds wfds ps r.2
    (r.1 :: rs.1, rs.2)

/-- The function `main_loop`: one round. -/
def main_loop (env : Env) (listen_s : Int) (w : World) : World :=
  if w.sys.exited = true then w
  else
    match env.select w.sys.tick with
    | none => { w with sys := { w.sys.next with exited := true } }
    | some ready =>
      let s := w.sys.next
      let rfds := (read_interest listen_s w.peers).filter ready.1
      let wfds := (write_interest w.peers).filter ready.2
      let a := if listen_s ∈ rfds then accept_step env w.peers s else (w.peers, s)
      let r := service_all env rfds wfds a.1 a.2
      { peers := r.1, sys := r.2 }

/-! ## Vocabulary of the statements -/

/-- The byte stream that descriptor `fd` has been given, according to a log:
the bytes of every `send` on `fd` that the kernel accepted, oldest first. -/
def sent (fd : Int) : List Event → List Byte
  | [] => []
  | .send f data (.ok n) :: log => if f = fd then sent fd log ++ data.take n else sent fd log
  | _ :: log => sent fd log

/-- The messages that the program has handed to `send` on descriptor `fd`,
according to a log, oldest first, whether or not the kernel accepted them. -/
def offered (fd : Int) : List Event → List (List Byte)
  | [] => []
  | .send f data _ :: log => if f = fd then offered fd log ++ [data] else offered fd log
  | _ :: log => offered fd log

/-- The descriptors that `socket` has returned, according to a log, oldest first. -/
def sockets : List Event → List Int
  | [] => []
  | .socket fd :: log => sockets log ++ [fd]
  | _ :: log => sockets log

/-- Every `send` is accepted in full. -/
def accepts_all (env : Env) : Prop := ∀ t, ∃ n, env.send t = SendRet.ok n ∧ BufSize ≤ n

/-- The monotonic clock can always be read. -/
def clock_works (env : Env) : Prop := ∀ t, env.clock t ≠ none

/-- A CONNECT response the upstream side accepts: header `5 0 0`, address
type 1, 3 or 4, and the length that goes with the type. -/
def valid_response (c : List Byte) : Prop :=
  c.getD 0 0 = 5 ∧ c.getD 1 0 = 0 ∧ c.getD 2 0 = 0 ∧
  ((c.getD 3 0 = 1 ∧ c.length = 10) ∨ (c.getD 3 0 = 4 ∧ c.length = 22) ∨
   (c.getD 3 0 = 3 ∧ c.length = (c.getD 4 0).val + 7))

instance (c : List Byte) : Decidable (valid_response c) := by
  unfold valid_response
  infer_instance

/-- A slot is free when its client socket is absent. -/
def torn_down (p : peer) : Prop := p.client_s = -1 ∧ p.tor_s = -1

instance (p : peer) : Decidable (torn_down p) := by
  unfold torn_down
  infer_instance

/-- The upstream byte stream delivered in the given chunks: `read_tor` runs
once per chunk, with `recv` delivering the chunk, as long as `main_loop`
would run it (the process runs, the slot has an upstream socket and is
read-interesting). -/
def feed_tor (env : Env) : List (List Byte) → peer → Sys → peer × Sys
  | [], p, s => (p, s)
  | c :: cs, p, s =>
    if s.exited = false ∧ p.tor_s ≥ 0 ∧ p.inlen < (BufSize : Int) ∧ p.inend = false then
      let r := read_tor { env with recv := fun _ => .ok c } p s
      feed_tor env cs r.1 r.2
    else (p, s)

/-- An upstream stream on which the handshake can complete: it begins with
`5 2`, `1 0` and a CONNECT response with header `5 0 0` whose address type
gives it a length of at least 6, and that response is fully present. -/
def complete_stream (σ : List Byte) : Prop :=
  σ.getD 0 0 = 5 ∧ σ.getD 1 0 = 2 ∧ σ.getD 2 0 = 1 ∧ σ.getD 3 0 = 0 ∧
  σ.getD 4 0 = 5 ∧ σ.getD 5 0 = 0 ∧ σ.getD 6 0 = 0 ∧
  6 ≤ reslen (bufOf σ) ∧ 4 + reslen (bufOf σ) ≤ (σ.length : Int)

/-- A handshaking slot that has received the upstream stream `σ` and is
waiting for more. -/
def waiting (σ : List Byte) (p : peer) : Prop :=
  p.init = true ∧ 0 ≤ p.tor_s ∧ p.inend = false ∧ p.inlen = (σ.length : Int) ∧
  (∀ i, i < σ.length → p.inbuf i = σ.getD i 0) ∧
  (2 ≤ σ.length → σ.getD 0 0 = 5 ∧ σ.getD 1 0 = 2) ∧
  (4 ≤ σ.length → σ.getD 2 0 = 1 ∧ σ.getD 3 0 = 0) ∧
  (σ.length : Int) < 4 + reslen p.inbuf

/-- The three conditions a slot can be in after the upstream stream `σ`:
torn down with `init` still set, completed on a stream that allows it, or
waiting. -/
def upstream_inv (σ : List Byte) (p : peer) : Prop :=
  (torn_down p ∧ p.init = true) ∨ (p.init = false ∧ complete_stream σ) ∨ waiting σ p

/-- An upstream stream that the handshake must reject: the method selection
is present and is not `5 2`, or the authentication response is present and
is not `1 0`, or the CONNECT response is fully present and its header is
not `5 0 0` or its address type is none of 1, 3 and 4. -/
def rejected_stream (σ : List Byte) : Prop :=
  (2 ≤ σ.length ∧ (σ.getD 0 0 ≠ 5 ∨ σ.getD 1 0 ≠ 2)) ∨
  (4 ≤ σ.length ∧ (σ.getD 2 0 ≠ 1 ∨ σ.getD 3 0 ≠ 0)) ∨
  (4 + reslen (bufOf σ) ≤ (σ.length : Int) ∧
    (σ.getD 4 0 ≠ 5 ∨ σ.getD 5 0 ≠ 0 ∨ σ.getD 6 0 ≠ 0 ∨
     (σ.getD 7 0 ≠ 1 ∧ σ.getD 7 0 ≠ 3 ∧ σ.getD 7 0 ≠ 4)))

/-- The table lookup of `write_address` as a function on host names: the
replacement when the binary search hits, the name itself when it misses. -/
def translate (d : List Byte) : List Byte :=
  match search sorted_table d sorted_table.length 0 sorted_table.length with
  | some newname => newname
  | none => d

/-- The number of residual bytes behind the CONNECT response in `inbuf`. -/
def residual (p : peer) : Nat := toSize (p.inlen - (4 + reslen p.inbuf))

/-- One event of the relay in one direction: a read that delivers `chunk`,
or a write of which the kernel accepts `n` bytes. -/
inductive Relay where
  | read (chunk : List Byte)
  | write (n : Nat)

/-- A run of `read_tor` and `write_client` on one slot, one call per event. -/
def relay_in (env : Env) : List Relay → peer → Sys → peer × Sys
  | [], p, s => (p, s)
  | .read c :: es, p, s =>
    let r := read_tor { env with recv := fun _ => .ok c } p s
    relay_in env es r.1 r.2
  | .write n :: es, p, s =>
    let r := write_client { env with send := fun _ => .ok n } p s
    relay_in env es r.1 r.2

/-- A run of `read_client` and `write_tor` on one slot, one call per event. -/
def relay_out (env : Env) : List Relay → peer → Sys → peer × Sys
  | [], p, s => (p, s)
  | .read c :: es, p, s =>
    let r := read_client { env with recv := fun _ => .ok c } p s
    relay_out env es r.1 r.2
  | .write n :: es, p, s =>
    let r := write_tor { env with send := fun _ => .ok n } p s
    relay_out env es r.1 r.2

/-- The events are successful for a buffer that holds `len` bytes: every
read delivers a non-empty chunk no longer than the free tail, every write
is accepted for at most the bytes the buffer holds. -/
def relay_ok : List Relay → Int → Prop
  | [], _ => True
  | .read c :: es, len =>
    c ≠ [] ∧ len + (c.length : Int) ≤ (BufSize : Int) ∧ relay_ok es (len + (c.length : Int))
  | .write n :: es, len => (n : Int) ≤ len ∧ relay_ok es (len - (n : Int))

/-- The bytes the reads of a run deliver, in order. -/
def received : List Relay → List Byte
  | [] => []
  | .read c :: es => c ++ received es
  | .write _ :: es => received es

/-- Every call of a run of `relay_in` is one the service loop of `main_loop`
makes: `read_tor` on a slot whose upstream socket is present,
`write_client` on a slot whose client socket is present. -/
def served_in (env : Env) : List Relay → peer → Sys → Prop
  | [], _, _ => True
  | .read c :: es, p, s =>
    p.tor_s ≥ 0 ∧
      served_in env es (read_tor { env with recv := fun _ => .ok c } p s).1
        (read_tor { env with recv := fun _ => .ok c } p s).2
  | .write n :: es, p, s =>
    p.client_s ≥ 0 ∧
      served_in env es (write_client { env with send := fun _ => .ok n } p s).1
        (write_client { env with send := fun _ => .ok n } p s).2

/-- Every call of a run of `relay_out` is one the service loop of
`main_loop` makes: `read_client` on a slot whose client socket is present,
`write_tor` on a slot whose upstream socket is present. -/
def served_out (env : Env) : List Relay → peer → Sys → Prop
  | [], _, _ => True
  | .read c :: es, p, s =>
    p.client_s ≥ 0 ∧
      served_out env es (read_client { env with recv := fun _ => .ok c } p s).1
        (read_client { env with recv := fun _ => .ok c } p s).2
  | .write n :: es, p, s =>
    p.tor_s ≥ 0 ∧
      served_out env es (write_tor { env with send := fun _ => .ok n } p s).1
        (write_tor { env with send := fun _ => .ok n } p s).2

/-! ## Concrete sessions used by the evaluations below -/

/-- A client greeting offering `methods`. -/
def greeting (methods : List Byte) : List Byte := [5, Fin.ofNat methods.length] ++ methods

/-- A CONNECT request for the domain name `d` and the port bytes `ph`, `pl`. -/
def connect_request (d : List Byte) (ph pl : Byte) : List Byte :=
  [5, 1, 0, 3, Fin.ofNat d.length] ++ d ++ [ph, pl]

/-- A handshaking slot (client 4, upstream 5) whose `outbuf` holds `out` and
whose `inbuf` holds `inp`. -/
def session (out inp : List Byte) : peer :=
  { client_s := 4, tor_s := 5, inlen := (inp.length : Nat), outlen := (out.length : Nat),
    inend := false, outend := false, init := true, inbuf := bufOf inp, outbuf := bufOf out }

/-- The name `pop.riseup.net`, a zero byte, and the letter A. -/
def nul_name : List Byte := cstr "pop.riseup.net" ++ [0, 65]

/-- An environment in which every call succeeds: sends are accepted in
full, the clock reads `now`, `arc4random` returns `r`, `socket` returns 5
and `accept` returns 4, every `recv` delivers `data`, and `select` reports
every descriptor ready. -/
def happy (now : Int) (r : Nat) (data : List Byte) : Env :=
  { recv := fun _ => .ok data, send := fun _ => .ok BufSize, socket := fun _ => 5,
    connect := fun _ => true, accept := fun _ => 4, clock := fun _ => some now,
    arc4random := fun _ => r, select := fun _ => some (fun _ => true, fun _ => true) }

/-- A SOCKS5 session at the point of completion: the client has sent its
greeting, a request for `example.com` port 80 and three more bytes; the
upstream has answered `5 2`, `1 0`, a ten-byte response and two more bytes. -/
def c2_peer : peer :=
  session (greeting [0] ++ connect_request (cstr "example.com") 0 80 ++ [71, 69, 84])
    ([5, 2, 1, 0] ++ reply ++ [72, 84])

/-- An environment for two calls of `tor_circuit` from the start of the
process: the clock reads second 0 and `arc4random` returns 0, then the clock
reads second 1 and `arc4random` returns 7. -/
def two_calls : Env :=
  { happy 0 0 [] with
    clock := fun t => if t < 2 then some 0 else some 1,
    arc4random := fun t => if t < 2 then 0 else 7 }

/-- A handshaking slot without upstream socket whose client has sent a
greeting offering method 0 and a CONNECT request for `example.com`, port 80. -/
def domain_client : peer :=
  { session (greeting [0] ++ connect_request (cstr "example.com") 0 80) [] with tor_s := -1 }

/-- A handshaking slot without upstream socket whose client has sent a
greeting offering method 0 and a CONNECT request for the IPv4 address
127.0.0.1, port 80 (address type 1, ten bytes). -/
def ipv4_client : peer :=
  { session (greeting [0] ++ [5, 1, 0, 1, 127, 0, 0, 1, 0, 80]) [] with tor_s := -1 }

/-- A handshaking slot without upstream socket whose client has sent, in
one read, a greeting offering method 0 and the request `5 2 0 3 0 0 0`
(command 2, an empty domain name, port 0). -/
def greeting_then_bad_request : peer :=
  { session ([5, 1, 0] ++ [5, 2, 0, 3, 0, 0, 0]) [] with tor_s := -1 }

/-- One entry of a scripted environment: the answer to the next system call. -/
inductive Answer where
  | select (r w : List Int)
  | accept (fd : Int)
  | recv (data : List Byte)
  | send
  | socket (fd : Int)
  | connect
  | clock (now : Int)
  | random (r : Nat)

/-- The environment that answers the system calls of a run from a script,
in order: `select` reports the listed descriptors ready, `recv` delivers the
listed bytes (none: end of file), `send` accepts everything.  A call that
does not find its own kind of answer fails. -/
def scripted (script : List Answer) : Env :=
  { recv := fun t => match script.get? t with
      | some (.recv data) => .ok data
      | _ => .err .other,
    send := fun t => match script.get? t with
      | some .send => .ok BufSize
      | _ => .err .other,
    socket := fun t => match script.get? t with
      | some (.socket fd) => fd
      | _ => -1,
    connect := fun t => match script.get? t with
      | some .connect => true
      | _ => false,
    accept := fun t => match script.get? t with
      | some (.accept fd) => fd
      | _ => -1,
    clock := fun t => match script.get? t with
      | some (.clock now) => some now
      | _ => none,
    arc4random := fun t => match script.get? t with
      | some (.random r) => r
      | _ => 0,
    select := fun t => match script.get? t with
      | some (.select r w) => some (fun fd => decide (fd ∈ r), fun fd => decide (fd ∈ w))
      | _ => none }

/-- Seven rounds of `main_loop` with listener 0.  Client A (descriptor 1)
connects and speaks raw TCP; its upstream socket is 3; the upstream
handshake completes with one byte of payload already behind the response.
Then both ends of A close while client B (descriptor 4) connects.  In the
last round the last byte for A is written, A is torn down, B sends its
first bytes, and `socket` returns 1, the lowest free descriptor. -/
def reuse_script : List Answer :=
  [ .select [0] [], .accept 1,
    .select [1] [], .recv [0x47], .socket 3, .connect, .send,
    .select [3] [], .recv [5, 2], .clock 100, .random 7, .send,
    .select [3] [], .recv [1, 0], .send,
    .select [3] [], .recv ([5, 0, 0, 1, 0, 0, 0, 0, 0, 0] ++ [0x58]),
    .select [0, 1, 3] [3], .accept 4, .recv [], .recv [], .send,
    .select [4] [1], .send, .recv [0x47, 0x45, 0x54], .socket 1, .connect, .send, .send ]

/-- The world after `n` rounds of `main_loop`. -/
def rounds (env : Env) (listen_s : Int) : Nat → World → World
  | 0, w => w
  | n + 1, w => rounds env listen_s n (main_loop env listen_s w)

/-- The environment of the seven rounds. -/
def reuse_env : Env := scripted reuse_script

/-- The world after the first six of the seven rounds. -/
def before_last : World := rounds reuse_env 0 6 World.start

/-- The last round, after `select` has returned with descriptor 4 readable
and descriptor 1 writable: slot 0 has been served. -/
def served_first : peer × Sys :=
  service reuse_env [4] [1] (before_last.peers.getD 0 free_slot) before_last.sys.next

/-- The last round: slot 1 after its two read handlers. -/
def read_second : peer × Sys :=
  service_reads reuse_env [4] (before_last.peers.getD 1 free_slot) served_first.2

/-- What every slot of a reachable table satisfies: it is active, or both
its sockets are absent. -/
def slot_inv (p : peer) : Prop := 0 ≤ p.client_s ∨ torn_down p

/-- A handler either leaves the client socket of the slot as it was or
tears the slot down. -/
def kept_or_freed (p r : peer) : Prop := r.client_s = p.client_s ∨ torn_down r

/-- Two rounds of `main_loop` with listener 0: a client connects
(descriptor 1) and sends a greeting that offers only method 2. -/
def bad_auth_script : List Answer :=
  [ .select [0] [], .accept 1, .select [1] [], .recv [5, 1, 2] ]


/-- Ten rounds of `main_loop` with listener 0 in which nine clients connect
one after the other and send nothing, and a tenth client connects when the
table is full: `select` is told that the listener is ready and `accept`
would return 11. -/
def full_script : List Answer :=
  [ .select [0] [], .accept 1, .select [0] [], .accept 3, .select [0] [], .accept 4,
    .select [0] [], .accept 5, .select [0] [], .accept 6, .select [0] [], .accept 7,
    .select [0] [], .accept 8, .select [0] [], .accept 9, .select [0] [], .accept 10,
    .select [0] [], .accept 11 ]

/-- The world after the nine clients of `full_script` have been accepted. -/
def full_world : World := rounds (scripted full_script) 0 9 World.start

/-- The length invariant of one slot: both lengths are within
`0 .. BufSize`. -/
def lengths_ok (p : peer) : Prop :=
  0 ≤ p.inlen ∧ p.inlen ≤ BufSize ∧ 0 ≤ p.outlen ∧ p.outlen ≤ BufSize

instance (p : peer) : Decidable (lengths_ok p) := by
  unfold lengths_ok
  infer_instance

/-- Eleven rounds of `main_loop` with listener 0: the seven rounds of
`reuse_script`, after which slot 1 is handshaking with an empty `outbuf`,
then client 4 sends the byte 5, and the upstream on descriptor 1 answers
`5 2`, `1 0` and a ten-byte CONNECT response in three reads. -/
def underflow_script : List Answer :=
  reuse_script ++
  [ .select [4] [], .recv [5],
    .select [1] [], .recv [5, 2], .clock 200, .random 9, .send,
    .select [1] [], .recv [1, 0], .send,
    .select [1] [], .recv [5, 0, 0, 1, 0, 0, 0, 0, 0, 0] ]

/-- The world after `n` rounds of `underflow_script`. -/
def underflow_world (n : Nat) : World := rounds (scripted underflow_script) 0 n World.start

/-- Two slot states agree: the same sockets, flags and lengths, and the
same buffer contents below the length counters.  The bytes at or beyond the
counters are free. -/
def agree (p q : peer) : Prop :=
  p.client_s = q.client_s ∧ p.tor_s = q.tor_s ∧ p.inlen = q.inlen ∧ p.outlen = q.outlen ∧
  p.inend = q.inend ∧ p.outend = q.outend ∧ p.init = q.init ∧
  bytes p.inbuf p.inlen.toNat = bytes q.inbuf q.inlen.toNat ∧
  bytes p.outbuf p.outlen.toNat = bytes q.outbuf q.outlen.toNat

instance (p q : peer) : Decidable (agree p q) := by
  unfold agree
  infer_instance

/-- Two outcomes of a handler are the same: the same effects and oracle
queries, and slot states that agree. -/
def same (r r2 : peer × Sys) : Prop := r.2 = r2.2 ∧ agree r.1 r2.1

/-- What `init_client` has established about `outbuf` when it starts the
upstream handshake: the first byte has been received and, for a SOCKS
client, so have the greeting and the request, `nauth + L + 9` bytes. -/
def out_ok (p : peer) : Prop :=
  1 ≤ p.outlen ∧
  (p.outbuf 0 = 5 →
    ((p.outbuf 1).val : Int) + ((p.outbuf ((p.outbuf 1).val + 6)).val : Int) + 9 ≤ p.outlen)

instance (p : peer) : Decidable (out_ok p) := by
  unfold out_ok
  infer_instance

/-- A handshaking SOCKS session: the greeting and a request for
`example.com` port 80 have been received from the client, `5 2 1 0` from
the upstream. -/
def stale_a : peer :=
  session (greeting [0] ++ connect_request (cstr "example.com") 0 80) [5, 2, 1, 0]

/-- The session `stale_a` with other bytes beyond both length counters. -/
def stale_b : peer :=
  { stale_a with
    outbuf := store stale_a.outbuf stale_a.outlen.toNat [5, 5, 5],
    inbuf := store stale_a.inbuf stale_a.inlen.toNat [5, 0, 0, 3, 200] }

/-- A handshaking session with an upstream socket and an empty `outbuf`
whose bytes are all zero; `5 2 1 0` and then `rest` have been received from
the upstream. -/
def empty_a (rest : List Byte) : peer := session [] ([5, 2, 1, 0] ++ rest)

/-- The session `empty_a` with the byte 5 left at `outbuf[0]`, beyond
`outlen = 0`. -/
def empty_b (rest : List Byte) : peer := { empty_a rest with outbuf := bufOf [5] }

/-- The same world with `d` more oracle queries made. -/
def Sys.shift (d : Nat) (s : Sys) : Sys := { s with tick := d + s.tick }

theorem slice_length (buf : Buf) (off n : Nat) : (slice buf off n).length = n := by
  simp [slice]

theorem slice_add (buf : Buf) (off a b : Nat) :
    slice buf off (a + b) = slice buf off a ++ slice buf (off + a) b := by
  simp only [slice, List.range_add, List.map_append, List.map_map]
  congr 1
  apply List.map_congr_left
  intro i _
  simp [Nat.add_assoc]

theorem slice_one (buf : Buf) (off : Nat) : slice buf off 1 = [buf off] := by
  simp [slice, List.range_succ]

theorem bytes_eq_slice (buf : Buf) (n : Nat) : bytes buf n = slice buf 0 n := by
  simp [bytes, slice]

theorem bytes_length (buf : Buf) (n : Nat) : (bytes buf n).length = n := by
  simp [bytes]

theorem slice_get (buf : Buf) (off n : Nat) (l : List Byte) (h : slice buf off n = l)
    (i : Nat) (hi : i < n) : buf (off + i) = l.getD i 0 := by
  subst h
  simp [slice, List.getD_eq_getElem?_getD, List.getElem?_map, List.getElem?_range hi]

theorem slice_ext (buf buf2 : Buf) (off off2 n : Nat)
    (h : ∀ i, i < n → buf (off + i) = buf2 (off2 + i)) : slice buf off n = slice buf2 off2 n := by
  simp only [slice]
  apply List.map_congr_left
  intro i hi
  exact h i (List.mem_range.mp hi)

theorem toSize_of_nat (n : Nat) (h : n < 2 ^ 64) : toSize (n : Int) = n := by
  unfold toSize
  have : ((n : Int) % 2 ^ 64) = (n : Int) := Int.emod_eq_of_lt (by omega) (by exact_mod_cast h)
  rw [this]
  simp

theorem bytes_memmove_zero (buf : Buf) (src n : Nat) :
    bytes (memmove buf 0 src n) n = slice buf src n := by
  rw [bytes_eq_slice]
  apply slice_ext
  intro i hi
  have e1 : 0 + i - 0 + src = src + i := by omega
  simp only [memmove]
  rw [if_pos (by omega), e1]

theorem bytes_splice (buf : Buf) (src n : Nat) (hsrc : 10 ≤ src) :
    bytes (memmove (store buf 0 reply) 10 src n) (10 + n) = reply ++ slice buf src n := by
  rw [bytes_eq_slice, slice_add]
  have h1 : slice (memmove (store buf 0 reply) 10 src n) 0 10 = reply := by
    simp [slice, memmove, store, reply, List.range_succ]
  have h2 : slice (memmove (store buf 0 reply) 10 src n) (0 + 10) n = slice buf src n := by
    apply slice_ext
    intro i hi
    have hlen : reply.length = 10 := rfl
    have e1 : 0 + 10 + i - 10 + src = src + i := by omega
    simp only [memmove, store]
    rw [if_pos (by omega), e1, dif_neg (by rw [hlen]; omega)]
  rw [h1, h2]

theorem slice_append_inv (buf : Buf) (off n : Nat) (a b : List Byte)
    (h : slice buf off n = a ++ b) :
    n = a.length + b.length ∧ slice buf off a.length = a ∧
      slice buf (off + a.length) b.length = b := by
  have hn : n = a.length + b.length := by
    have := congrArg List.length h
    simpa [slice_length] using this
  subst hn
  rw [slice_add] at h
  have := List.append_inj h (by simp [slice_length])
  exact ⟨rfl, this.1, this.2⟩

/-! ## C1: the table lookup of `write_address` -/

theorem sorted_table_eq : sorted_table = translation_table := by decide

theorem strcmp_eq_zero_iff (a b : List Byte) (ha : ∀ x ∈ a, x ≠ 0) (hb : ∀ x ∈ b, x ≠ 0) :
    strcmp a b = 0 ↔ a = b := by
  induction a generalizing b with
  | nil =>
    cases b with
    | nil => simp [strcmp]
    | cons y ys =>
      have hy : y ≠ 0 := hb y (by simp)
      have : (y.val : Int) ≠ 0 := by
        intro h
        exact hy (Fin.ext (by simpa using h))
      simp [strcmp, this]
  | cons x xs ih =>
    have hx : x ≠ 0 := ha x (by simp)
    cases b with
    | nil =>
      have : (x.val : Int) ≠ 0 := by
        intro h
        exact hx (Fin.ext (by simpa using h))
      simp [strcmp, this]
    | cons y ys =>
      by_cases hxy : x = y
      · subst hxy
        have := ih ys (fun z hz => ha z (by simp [hz])) (fun z hz => hb z (by simp [hz]))
        simp [strcmp, hx, this]
      · have : (x.val : Int) - (y.val : Int) ≠ 0 := by
          intro h
          apply hxy
          apply Fin.ext
          omega
        simp [strcmp, hxy, this]

set_option maxRecDepth 20000 in
theorem pop_name_nonzero : ∀ x ∈ cstr "pop.riseup.net", x ≠ 0 := by decide

set_option maxRecDepth 20000 in
theorem smtp_name_nonzero : ∀ x ∈ cstr "smtp.riseup.net", x ≠ 0 := by decide

/-- The two loop iterations that the lookup makes over the sorted table. -/
theorem search_sorted_table (name : List Byte) :
    search sorted_table name sorted_table.length 0 sorted_table.length =
      if strcmp (cstr "smtp.riseup.net") name < 0 then none
      else if strcmp (cstr "smtp.riseup.net") name > 0 then
        (if strcmp (cstr "pop.riseup.net") name < 0 then none
         else if strcmp (cstr "pop.riseup.net") name > 0 then none
         else some default_address)
      else some default_address := by
  rw [sorted_table_eq]
  simp only [translation_table, List.length_cons, List.length_nil, search]
  simp [default_address]

/-- What `write_address` stores for a SOCKS5 client, in terms of the result
of the table lookup. -/
theorem write_address_of_search (p : peer) (d : List Byte) (ph pl : Byte)
    (h0 : p.outbuf 0 = 5)
    (hl : (p.outbuf ((p.outbuf 1).val + 6)).val = d.length)
    (hd : slice p.outbuf ((p.outbuf 1).val + 7) d.length = d)
    (hp : slice p.outbuf ((p.outbuf 1).val + 7 + d.length) 2 = [ph, pl]) :
    write_address p true =
      match search sorted_table d sorted_table.length 0 sorted_table.length with
      | some newname =>
        [Fin.ofNat newname.length] ++ newname.take (Fin.ofNat newname.length : Byte).val ++ [ph, pl]
      | none => [Fin.ofNat d.length] ++ d ++ [ph, pl] := by
  unfold write_address
  simp only [h0, ne_eq, not_true_eq_false, if_false, if_true, hl, hd]
  have hp2 : slice p.outbuf ((p.outbuf 1).val + 6 + d.length + 1) 2 = [ph, pl] := by
    rw [← hp]; congr 1; omega
  have hs : slice p.outbuf ((p.outbuf 1).val + 6) (d.length + 3) =
      [Fin.ofNat d.length] ++ d ++ [ph, pl] := by
    have : d.length + 3 = 1 + (d.length + 2) := by omega
    rw [this, slice_add, slice_add, slice_one]
    have a1 : (p.outbuf 1).val + 6 + 1 = (p.outbuf 1).val + 7 := by omega
    have a2 : (p.outbuf 1).val + 6 + 1 + d.length = (p.outbuf 1).val + 7 + d.length := by omega
    rw [a1, hd, a2, hp]
    have : p.outbuf ((p.outbuf 1).val + 6) = Fin.ofNat d.length := by
      apply Fin.ext
      rw [hl]
      have := (p.outbuf ((p.outbuf 1).val + 6)).isLt
      simp [Fin.ofNat]
      omega
    rw [this]
    simp
  rw [hp2, hs]

set_option maxRecDepth 20000 in
/-- The lookup of `write_address` on names without a zero byte: a name
equal to a key of the table is replaced, a name equal to no key is kept,
and the port is kept in both cases. -/
theorem write_address_lookup (p : peer) (d : List Byte) (ph pl : Byte)
    (h0 : p.outbuf 0 = 5)
    (hl : (p.outbuf ((p.outbuf 1).val + 6)).val = d.length)
    (hd : slice p.outbuf ((p.outbuf 1).val + 7) d.length = d)
    (hp : slice p.outbuf ((p.outbuf 1).val + 7 + d.length) 2 = [ph, pl])
    (hnul : ∀ b ∈ d, b ≠ 0) :
    (∀ item ∈ sorted_table, item.name = d →
        write_address p true = [Fin.ofNat item.newname.length] ++ item.newname ++ [ph, pl]) ∧
    ((∀ item ∈ sorted_table, item.name ≠ d) →
        write_address p true = [Fin.ofNat d.length] ++ d ++ [ph, pl]) := by
  have e1 := strcmp_eq_zero_iff (cstr "pop.riseup.net") d pop_name_nonzero hnul
  have e2 := strcmp_eq_zero_iff (cstr "smtp.riseup.net") d smtp_name_nonzero hnul
  have hw := write_address_of_search p d ph pl h0 hl hd hp
  have htake : [Fin.ofNat default_address.length] ++
      default_address.take (Fin.ofNat default_address.length : Byte).val =
      [Fin.ofNat default_address.length] ++ default_address := by decide
  constructor
  · intro item hmem hname
    have hsearch : search sorted_table d sorted_table.length 0 sorted_table.length =
        some default_address := by
      rw [search_sorted_table]
      rw [sorted_table_eq] at hmem
      simp only [translation_table, List.mem_cons, List.mem_singleton, List.not_mem_nil,
        or_false] at hmem
      rcases hmem with rfl | rfl
      · simp only at hname
        subst hname
        decide
      · simp only at hname
        subst hname
        decide
    have hnew : item.newname = default_address := by
      rw [sorted_table_eq] at hmem
      simp only [translation_table, List.mem_cons, List.mem_singleton, List.not_mem_nil,
        or_false] at hmem
      rcases hmem with rfl | rfl <;> rfl
    rw [hw, hsearch, hnew]
    simp only [htake]
  · intro hmiss
    have n1 : cstr "pop.riseup.net" ≠ d :=
      hmiss ⟨cstr "pop.riseup.net", default_address⟩
        (by rw [sorted_table_eq]; simp [translation_table, default_address])
    have n2 : cstr "smtp.riseup.net" ≠ d :=
      hmiss ⟨cstr "smtp.riseup.net", default_address⟩
        (by rw [sorted_table_eq]; simp [translation_table, default_address])
    have m1 : strcmp (cstr "pop.riseup.net") d ≠ 0 := fun h => n1 (e1.mp h)
    have m2 : strcmp (cstr "smtp.riseup.net") d ≠ 0 := fun h => n2 (e2.mp h)
    have hsearch : search sorted_table d sorted_table.length 0 sorted_table.length = none := by
      rw [search_sorted_table]
      split_ifs <;> first | rfl | (exfalso; omega)
    rw [hw, hsearch]

set_option maxRecDepth 20000 in
/-- C1: evaluation of `write_address` on a CONNECT request whose domain
name is `pop.riseup.net` followed by a zero byte and one more letter (16
bytes, port 110).  The name is no key of the table, and yet the code writes
the replacement of `pop.riseup.net` in place of the 16 bytes received. -/
theorem C1_name_with_zero_byte_is_replaced :
    (∀ item ∈ sorted_table, item.name ≠ nul_name) ∧
    slice (session (greeting [0] ++ connect_request nul_name 0 110) []).outbuf 8 16 = nul_name ∧
    write_address (session (greeting [0] ++ connect_request nul_name 0 110) []) true =
      [0x3E] ++ cstr "5gdvpfoh6kb2iqbizb37lzk2ddzrwa47m6rpdueg2m656fovmbhoptqd.onion" ++ [0, 110] ∧
    write_address (session (greeting [0] ++ connect_request nul_name 0 110) []) true ≠
      [16] ++ nul_name ++ [0, 110] := by
  decide

/-! ## The upstream handshake up to its completion -/

theorem sys_send_fst (env : Env) (h : accepts_all env) (fd : Int) (data : List Byte) (s : Sys)
    (hd : data.length ≤ BufSize) : (sys_send env fd data s).1 = data.length := by
  obtain ⟨n, hn, hle⟩ := h s.tick
  simp only [sys_send, hn]
  omega

theorem sys_send_sent (env : Env) (fd fd2 : Int) (data : List Byte) (s : Sys) (h : fd2 ≠ fd) :
    sent fd2 (sys_send env fd data s).2.2.log = sent fd2 s.log := by
  unfold sys_send
  cases env.send s.tick with
  | ok n => simp [Sys.emit, Sys.next, sent, Ne.symm h]
  | err e => simp [Sys.emit, Sys.next, sent]

theorem sys_send_exited (env : Env) (fd : Int) (data : List Byte) (s : Sys) :
    (sys_send env fd data s).2.2.exited = s.exited := by
  unfold sys_send
  cases env.send s.tick <;> rfl

theorem write_address_length (p : peer) (tran : Bool) :
    (write_address p tran).length = ((write_address p tran).getD 0 0).val + 3 := by
  unfold write_address
  by_cases h : p.outbuf 0 ≠ 5
  · rw [if_pos h]; decide
  · rw [if_neg h]
    dsimp only
    generalize (if tran = true then search sorted_table _ _ _ _ else none) = r
    cases r with
    | some newname =>
      have h1 : (Fin.ofNat newname.length : Byte).val ≤ newname.length := by
        simp only [Fin.ofNat]
        exact Nat.mod_le _ _
      simp [slice_length, List.length_take, Nat.min_eq_left h1]
    | none =>
      simp only [slice_length]
      simp [slice, List.range_succ_eq_map, List.getD_eq_getElem?_getD]

theorem tor_circuit_log (env : Env) (s : Sys) : (tor_circuit env s).2.log = s.log := by
  unfold tor_circuit
  cases env.clock s.tick with
  | none => rfl
  | some now =>
    simp only [Sys.next]
    split <;> rfl

theorem tor_circuit_exited (env : Env) (s : Sys) (hc : env.clock s.tick ≠ none) :
    (tor_circuit env s).2.exited = s.exited := by
  unfold tor_circuit
  cases h : env.clock s.tick with
  | none => exact absurd h hc
  | some now =>
    simp only [Sys.next]
    split <;> rfl

theorem connect_request_size (p : peer) :
    (([5, 1, 0, 3] ++ write_address p true : List Byte).take
      ((([5, 1, 0, 3] ++ write_address p true : List Byte).getD 4 0).val + 7)) =
      [5, 1, 0, 3] ++ write_address p true ∧
    (([5, 1, 0, 3] ++ write_address p true : List Byte).getD 4 0).val + 7 =
      ([5, 1, 0, 3] ++ write_address p true : List Byte).length := by
  have h := write_address_length p true
  have e : ([5, 1, 0, 3] ++ write_address p true : List Byte).getD 4 0 =
      (write_address p true).getD 0 0 := by
    simp [List.getD_eq_getElem?_getD]
  rw [e]
  have hl : ([5, 1, 0, 3] ++ write_address p true : List Byte).length =
      ((write_address p true).getD 0 0).val + 7 := by
    simp only [List.length_append, h]
    simp
    omega
  constructor
  · apply List.take_of_length_le
    omega
  · omega

theorem init_tor_auth_reaches_response (env : Env) (p : peer) (nread : Nat) (s : Sys)
    (hs : accepts_all env) (h4 : 4 ≤ p.inlen) (b2 : p.inbuf 2 = 1) (b3 : p.inbuf 3 = 0) :
    ∃ s2, init_tor_auth env p nread s = init_tor_response p s2 ∧ s2.exited = s.exited ∧
      ∀ fd, fd ≠ p.tor_s → sent fd s2.log = sent fd s.log := by
  unfold init_tor_auth
  simp only []
  rw [if_neg (by omega)]
  by_cases h : p.inlen - (nread : Int) < 4
  · rw [if_pos h, if_neg (by simp [b2, b3])]
    have hsz := connect_request_size p
    have hlen : ([5, 1, 0, 3] ++ write_address p true : List Byte).length ≤ BufSize := by
      have := (([5, 1, 0, 3] ++ write_address p true : List Byte).getD 4 0).isLt
      rw [← hsz.2]
      simp only [BufSize]
      omega
    rw [hsz.1]
    have hf := sys_send_fst env hs p.tor_s ([5, 1, 0, 3] ++ write_address p true) s hlen
    rw [if_neg (by rw [hf, hsz.2]; simp)]
    exact ⟨_, rfl, sys_send_exited _ _ _ _, fun fd hfd => sys_send_sent _ _ _ _ _ hfd⟩
  · rw [if_neg h]
    exact ⟨s, rfl, rfl, fun _ _ => rfl⟩

theorem init_tor_reaches_response (env : Env) (p : peer) (nread : Nat) (s : Sys)
    (hs : accepts_all env) (hc : clock_works env) (hx : s.exited = false)
    (ht : p.tor_s ≠ -1) (h4 : 4 ≤ p.inlen)
    (b0 : p.inbuf 0 = 5) (b1 : p.inbuf 1 = 2) (b2 : p.inbuf 2 = 1) (b3 : p.inbuf 3 = 0) :
    ∃ s2, init_tor env p nread s = init_tor_response p s2 ∧ s2.exited = false ∧
      ∀ fd, fd ≠ p.tor_s → sent fd s2.log = sent fd s.log := by
  unfold init_tor
  simp only []
  rw [if_neg ht, if_neg (by omega)]
  by_cases h : p.inlen - (nread : Int) < 2
  · rw [if_pos h, if_neg (by simp [b0, b1])]
    have hce := tor_circuit_exited env s (hc s.tick)
    rw [if_neg (by rw [hce, hx]; simp)]
    have hf := sys_send_fst env hs p.tor_s (auth_request (tor_circuit env s).1) (tor_circuit env s).2
      (by simp [auth_request, BufSize])
    rw [if_neg (by rw [hf]; simp [auth_request])]
    obtain ⟨s2, e, ex, hsent⟩ := init_tor_auth_reaches_response env p nread
      (sys_send env p.tor_s (auth_request (tor_circuit env s).1) (tor_circuit env s).2).2.2 hs h4 b2 b3
    refine ⟨s2, e, ?_, ?_⟩
    · rw [ex, sys_send_exited, hce, hx]
    · intro fd hfd
      rw [hsent fd hfd, sys_send_sent _ _ _ _ _ hfd, tor_circuit_log]
  · rw [if_neg h]
    obtain ⟨s2, e, ex, hsent⟩ := init_tor_auth_reaches_response env p nread s hs h4 b2 b3
    exact ⟨s2, e, by rw [ex, hx], hsent⟩

/-- The call of `init_tor` that finds `5 2` and `1 0` in `inbuf` gets to the
response check: directly when both were dealt with in earlier reads, and
through the two sends when they are accepted and the clock can be read. -/
theorem init_tor_gets_to_response (env : Env) (p : peer) (nread : Nat) (s : Sys)
    (hready : 4 ≤ p.inlen - (nread : Int) ∨
      (accepts_all env ∧ clock_works env ∧ s.exited = false))
    (ht : p.tor_s ≠ -1) (h4 : 4 ≤ p.inlen)
    (b0 : p.inbuf 0 = 5) (b1 : p.inbuf 1 = 2) (b2 : p.inbuf 2 = 1) (b3 : p.inbuf 3 = 0) :
    ∃ s2, init_tor env p nread s = init_tor_response p s2 ∧
      ∀ fd, fd ≠ p.tor_s → sent fd s2.log = sent fd s.log := by
  rcases hready with hearly | ⟨hs, hc, hx⟩
  · refine ⟨s, ?_, fun _ _ => rfl⟩
    unfold init_tor
    simp only []
    rw [if_neg ht, if_neg (by omega), if_neg (by omega)]
    unfold init_tor_auth
    simp only []
    rw [if_neg (by omega), if_neg (by omega)]
  · obtain ⟨s2, e, -, hsent⟩ :=
      init_tor_reaches_response env p nread s hs hc hx ht h4 b0 b1 b2 b3
    exact ⟨s2, e, hsent⟩

theorem init_tor_response_socks (p : peer) (s : Sys) (clen n l : Nat) (P Q : List Byte)
    (h4 : p.inbuf 4 = 5) (h5 : p.inbuf 5 = 0) (h6 : p.inbuf 6 = 0)
    (hres : reslen p.inbuf = (clen : Int)) (hclen : 6 ≤ clen)
    (hinlen : p.inlen = ((4 + clen + Q.length : Nat) : Int))
    (hQ : slice p.inbuf (4 + clen) Q.length = Q)
    (ho0 : p.outbuf 0 = 5) (hn : (p.outbuf 1).val = n) (hl : (p.outbuf (n + 6)).val = l)
    (houtlen : p.outlen = ((n + l + 9 + P.length : Nat) : Int))
    (hP : slice p.outbuf (n + l + 9) P.length = P)
    (hbi : Q.length < 2 ^ 64) (hbo : P.length < 2 ^ 64) :
    (init_tor_response p s).2 = s ∧
    (init_tor_response p s).1.init = false ∧
    (init_tor_response p s).1.inlen = ((10 + Q.length : Nat) : Int) ∧
    bytes (init_tor_response p s).1.inbuf (10 + Q.length) = reply ++ Q ∧
    (init_tor_response p s).1.outlen = (P.length : Int) ∧
    bytes (init_tor_response p s).1.outbuf P.length = P ∧
    (init_tor_response p s).1.client_s = p.client_s ∧
    (init_tor_response p s).1.tor_s = p.tor_s ∧
    (init_tor_response p s).1.inend = p.inend ∧
    (init_tor_response p s).1.outend = p.outend := by
  have e : init_tor_response p s =
      ({ p with init := false,
                inbuf := memmove (store p.inbuf 0 reply) 10 (4 + clen) Q.length,
                inlen := ((10 + Q.length : Nat) : Int),
                outbuf := memmove p.outbuf 0 (n + l + 9) P.length,
                outlen := (P.length : Int) }, s) := by
    unfold init_tor_response
    have c1 : ¬ (p.inlen < 4 + reslen p.inbuf) := by rw [hres, hinlen]; push_cast; omega
    have c2 : ¬ (p.inbuf 4 ≠ 5 ∨ p.inbuf 5 ≠ 0 ∨ p.inbuf 6 ≠ 0 ∨ reslen p.inbuf < 6) := by
      rw [hres]; simp [h4, h5, h6]; omega
    have c3 : ¬ ((4 : Int) + reslen p.inbuf < 10) := by rw [hres]; omega
    have t1 : toSize (p.inlen - (4 + reslen p.inbuf)) = Q.length := by
      rw [hres, hinlen]
      have : (((4 + clen + Q.length : Nat) : Int) - (4 + (clen : Int))) = (Q.length : Int) := by
        push_cast; omega
      rw [this, toSize_of_nat _ hbi]
    have t2 : ((4 : Int) + reslen p.inbuf).toNat = 4 + clen := by rw [hres]; omega
    have len : ((p.outbuf 1).val : Int) + ((p.outbuf ((p.outbuf 1).val + 6)).val : Int) + 9 =
        ((n + l + 9 : Nat) : Int) := by
      rw [hn, hl]; push_cast; ring
    simp only [c1, c2, c3, if_false, ho0, if_true, t1, t2, len]
    have t3 : toSize (p.outlen - ((n + l + 9 : Nat) : Int)) = P.length := by
      rw [houtlen]
      have : (((n + l + 9 + P.length : Nat) : Int) - ((n + l + 9 : Nat) : Int)) = (P.length : Int) := by
        push_cast; omega
      rw [this, toSize_of_nat _ hbo]
    have t4 : p.outlen - ((n + l + 9 : Nat) : Int) = (P.length : Int) := by
      rw [houtlen]; push_cast; omega
    simp only [t4, toSize_of_nat _ hbo, Int.toNat_ofNat]
  rw [e]
  refine ⟨rfl, rfl, rfl, ?_, rfl, ?_, rfl, rfl, rfl, rfl⟩
  · show bytes (memmove (store p.inbuf 0 reply) 10 (4 + clen) Q.length) (10 + Q.length) = reply ++ Q
    rw [bytes_splice _ _ _ (by omega), hQ]
  · show bytes (memmove p.outbuf 0 (n + l + 9) P.length) P.length = P
    rw [bytes_memmove_zero, hP]


theorem init_tor_response_raw (p : peer) (s : Sys) (clen : Nat) (Q : List Byte)
    (h4 : p.inbuf 4 = 5) (h5 : p.inbuf 5 = 0) (h6 : p.inbuf 6 = 0)
    (hres : reslen p.inbuf = (clen : Int)) (hclen : 6 ≤ clen)
    (hinlen : p.inlen = ((4 + clen + Q.length : Nat) : Int))
    (hQ : slice p.inbuf (4 + clen) Q.length = Q)
    (ho0 : p.outbuf 0 ≠ 5) (hbi : Q.length < 2 ^ 64) :
    (init_tor_response p s).2 = s ∧
    (init_tor_response p s).1.init = false ∧
    (init_tor_response p s).1.inlen = (Q.length : Int) ∧
    bytes (init_tor_response p s).1.inbuf Q.length = Q ∧
    (init_tor_response p s).1.outlen = p.outlen ∧
    (init_tor_response p s).1.outbuf = p.outbuf ∧
    (init_tor_response p s).1.client_s = p.client_s ∧
    (init_tor_response p s).1.tor_s = p.tor_s ∧
    (init_tor_response p s).1.inend = p.inend ∧
    (init_tor_response p s).1.outend = p.outend := by
  have e : init_tor_response p s =
      ({ p with init := false,
                inbuf := memmove p.inbuf 0 (4 + clen) Q.length,
                inlen := (Q.length : Int) }, s) := by
    unfold init_tor_response
    have c1 : ¬ (p.inlen < 4 + reslen p.inbuf) := by rw [hres, hinlen]; push_cast; omega
    have c2 : ¬ (p.inbuf 4 ≠ 5 ∨ p.inbuf 5 ≠ 0 ∨ p.inbuf 6 ≠ 0 ∨ reslen p.inbuf < 6) := by
      rw [hres]; simp [h4, h5, h6]; omega
    have t1 : toSize (p.inlen - (4 + reslen p.inbuf)) = Q.length := by
      rw [hres, hinlen]
      have : (((4 + clen + Q.length : Nat) : Int) - (4 + (clen : Int))) = (Q.length : Int) := by
        push_cast; omega
      rw [this, toSize_of_nat _ hbi]
    have t2 : ((4 : Int) + reslen p.inbuf).toNat = 4 + clen := by rw [hres]; omega
    simp only [c1, c2, if_false, ho0, t1, t2]
  rw [e]
  refine ⟨rfl, rfl, rfl, ?_, rfl, rfl, rfl, rfl, rfl, rfl⟩
  show bytes (memmove p.inbuf 0 (4 + clen) Q.length) Q.length = Q
  rw [bytes_memmove_zero, hQ]

/-- What a valid response in `inbuf` gives the response check. -/
theorem response_facts (p : peer) (C Q : List Byte)
    (hin : bytes p.inbuf p.inlen.toNat = [5, 2, 1, 0] ++ C ++ Q) (hC : valid_response C) :
    p.inbuf 0 = 5 ∧ p.inbuf 1 = 2 ∧ p.inbuf 2 = 1 ∧ p.inbuf 3 = 0 ∧
    p.inbuf 4 = 5 ∧ p.inbuf 5 = 0 ∧ p.inbuf 6 = 0 ∧
    reslen p.inbuf = (C.length : Int) ∧ 6 ≤ C.length ∧
    p.inlen = ((4 + C.length + Q.length : Nat) : Int) ∧
    slice p.inbuf (4 + C.length) Q.length = Q := by
  rw [bytes_eq_slice] at hin
  obtain ⟨hn, h1, h2⟩ := slice_append_inv _ _ _ _ _ hin
  obtain ⟨-, h3, h4⟩ := slice_append_inv _ _ _ _ _ h1
  simp only [List.length_append, List.length_cons, List.length_nil, Nat.zero_add] at hn h1 h2 h3 h4
  have g : ∀ i, i < C.length → p.inbuf (4 + i) = C.getD i 0 := fun i hi =>
    slice_get _ _ _ _ h4 i hi
  obtain ⟨c0, c1, c2, c3⟩ := hC
  have hlen : 7 ≤ C.length := by
    rcases c3 with ⟨_, h⟩ | ⟨_, h⟩ | ⟨_, h⟩ <;> omega
  have i0 : p.inbuf 0 = 5 := slice_get _ _ _ _ h3 0 (by omega)
  have i1 : p.inbuf 1 = 2 := slice_get _ _ _ _ h3 1 (by omega)
  have i2 : p.inbuf 2 = 1 := slice_get _ _ _ _ h3 2 (by omega)
  have i3 : p.inbuf 3 = 0 := slice_get _ _ _ _ h3 3 (by omega)
  have j0 : p.inbuf 4 = C.getD 0 0 := g 0 (by omega)
  have j1 : p.inbuf 5 = C.getD 1 0 := g 1 (by omega)
  have j2 : p.inbuf 6 = C.getD 2 0 := g 2 (by omega)
  have j3 : p.inbuf 7 = C.getD 3 0 := g 3 (by omega)
  have j4 : p.inbuf 8 = C.getD 4 0 := g 4 (by omega)
  have hil : p.inlen = ((4 + C.length + Q.length : Nat) : Int) := by omega
  refine ⟨i0, i1, i2, i3, by rw [j0, c0], by rw [j1, c1], by rw [j2, c2], ?_, by omega, hil, ?_⟩
  · unfold reslen
    rw [j3, j4]
    rcases c3 with ⟨ha, h⟩ | ⟨ha, h⟩ | ⟨ha, h⟩
    · rw [ha, h]; rfl
    · rw [ha, h]; rfl
    · rw [ha, h]
      have e1 : ¬ ((3 : Byte) = 1) := by decide
      have e2 : ¬ ((3 : Byte) = 4) := by decide
      rw [if_neg e1, if_neg e2, if_pos rfl]
      push_cast
      rfl
  · have : 1 + 1 + 1 + 1 + C.length = 4 + C.length := by omega
    rw [← this]; exact h2

/-- What a greeting and a domain request in `outbuf` give the splice. -/
theorem request_facts (p : peer) (methods d P : List Byte) (ph pl : Byte)
    (hm : methods.length ≤ 255) (hd : d.length ≤ 255)
    (hout : bytes p.outbuf p.outlen.toNat = greeting methods ++ connect_request d ph pl ++ P) :
    p.outbuf 0 = 5 ∧ (p.outbuf 1).val = methods.length ∧
    (p.outbuf (methods.length + 6)).val = d.length ∧
    p.outlen = ((methods.length + d.length + 9 + P.length : Nat) : Int) ∧
    slice p.outbuf (methods.length + d.length + 9) P.length = P := by
  rw [bytes_eq_slice] at hout
  obtain ⟨hn, h1, h2⟩ := slice_append_inv _ _ _ _ _ hout
  obtain ⟨-, h3, h4⟩ := slice_append_inv _ _ _ _ _ h1
  have lg : (greeting methods).length = methods.length + 2 := by simp [greeting]
  have lr : (connect_request d ph pl).length = d.length + 7 := by simp [connect_request]
  simp only [List.length_append, lg, lr, Nat.zero_add] at hn h1 h2 h3 h4
  have i0 : p.outbuf (0 + 0) = (greeting methods).getD 0 0 := slice_get _ _ _ _ h3 0 (by omega)
  have i1 : p.outbuf (0 + 1) = (greeting methods).getD 1 0 := slice_get _ _ _ _ h3 1 (by omega)
  have j4 : p.outbuf (methods.length + 2 + 4) = (connect_request d ph pl).getD 4 0 :=
    slice_get _ _ _ _ h4 4 (by omega)
  have v1 : ((Fin.ofNat methods.length : Byte)).val = methods.length := by
    simp only [Fin.ofNat]; omega
  have v2 : ((Fin.ofNat d.length : Byte)).val = d.length := by
    simp only [Fin.ofNat]; omega
  refine ⟨i0, ?_, ?_, by omega, ?_⟩
  · have : p.outbuf 1 = Fin.ofNat methods.length := i1
    rw [this, v1]
  · have : p.outbuf (methods.length + 6) = Fin.ofNat d.length := j4
    rw [this, v2]
  · have : methods.length + 2 + (d.length + 7) = methods.length + d.length + 9 := by omega
    rw [← this]; exact h2

/-- C2: the splice point for a SOCKS5 client.  When `outbuf` holds the
greeting, a domain CONNECT request and then any bytes `P`, and `inbuf` holds
`5 2`, `1 0`, a valid CONNECT response and then any bytes `Q`, the call of
`init_tor` completes the handshake: the flag `init` is cleared, `inbuf`
holds the synthetic reply followed by `Q`, and `outbuf` holds `P`; both
sockets stay as they were.  This holds for the read that only brings bytes
of the response, and for a read that also brings `5 2` or `1 0` when the
sends these trigger are accepted. -/
theorem C2_splice_point (env : Env) (s : Sys) (p : peer) (nread : Nat)
    (methods d P C Q : List Byte) (ph pl : Byte)
    (hready : 4 ≤ p.inlen - (nread : Int) ∨
      (accepts_all env ∧ clock_works env ∧ s.exited = false))
    (ht : p.tor_s ≠ -1)
    (hm : methods.length ≤ 255) (hd : d.length ≤ 255)
    (hout : bytes p.outbuf p.outlen.toNat = greeting methods ++ connect_request d ph pl ++ P)
    (hin : bytes p.inbuf p.inlen.toNat = [5, 2, 1, 0] ++ C ++ Q)
    (hC : valid_response C)
    (hfi : p.inlen ≤ (BufSize : Int)) (hfo : p.outlen ≤ (BufSize : Int)) :
    (init_tor env p nread s).1.init = false ∧
    (init_tor env p nread s).1.inlen = ((10 + Q.length : Nat) : Int) ∧
    bytes (init_tor env p nread s).1.inbuf (init_tor env p nread s).1.inlen.toNat = reply ++ Q ∧
    (init_tor env p nread s).1.outlen = (P.length : Int) ∧
    bytes (init_tor env p nread s).1.outbuf (init_tor env p nread s).1.outlen.toNat = P ∧
    (init_tor env p nread s).1.client_s = p.client_s ∧
    (init_tor env p nread s).1.tor_s = p.tor_s := by
  obtain ⟨b0, b1, b2, b3, b4, b5, b6, hres, hclen, hinlen, hQ⟩ := response_facts p C Q hin hC
  obtain ⟨o0, o1, o2, houtlen, hP⟩ := request_facts p methods d P ph pl hm hd hout
  obtain ⟨s2, e, -⟩ := init_tor_gets_to_response env p nread s hready ht
    (by rw [hinlen]; push_cast; omega) b0 b1 b2 b3
  have hbi : Q.length < 2 ^ 64 := by
    have : ((Q.length : Nat) : Int) ≤ (BufSize : Int) := by rw [hinlen] at hfi; push_cast at hfi; omega
    simp only [BufSize] at this; omega
  have hbo : P.length < 2 ^ 64 := by
    have : ((P.length : Nat) : Int) ≤ (BufSize : Int) := by rw [houtlen] at hfo; push_cast at hfo; omega
    simp only [BufSize] at this; omega
  obtain ⟨-, r1, r2, r3, r4, r5, r6, r7, -, -⟩ :=
    init_tor_response_socks p s2 C.length methods.length d.length P Q b4 b5 b6 hres hclen hinlen hQ
      o0 o1 o2 houtlen hP hbi hbo
  rw [e]
  refine ⟨r1, r2, ?_, r4, ?_, r6, r7⟩
  · rw [r2]; exact r3
  · rw [r4]; exact r5

theorem happy_accepts_all (now : Int) (r : Nat) (data : List Byte) :
    accepts_all (happy now r data) := fun _ => ⟨BufSize, rfl, le_refl _⟩

theorem happy_clock_works (now : Int) (r : Nat) (data : List Byte) :
    clock_works (happy now r data) := fun _ h => by simp [happy] at h

set_option maxRecDepth 20000 in
theorem C2_splice_point_witness :
    (init_tor (happy 0 7 []) c2_peer 10 Sys.start).1.init = false ∧
    (init_tor (happy 0 7 []) c2_peer 10 Sys.start).1.inlen = ((10 + [72, 84].length : Nat) : Int) ∧
    bytes (init_tor (happy 0 7 []) c2_peer 10 Sys.start).1.inbuf
      (init_tor (happy 0 7 []) c2_peer 10 Sys.start).1.inlen.toNat = reply ++ [72, 84] ∧
    (init_tor (happy 0 7 []) c2_peer 10 Sys.start).1.outlen = (([71, 69, 84] : List Byte).length : Int) ∧
    bytes (init_tor (happy 0 7 []) c2_peer 10 Sys.start).1.outbuf
      (init_tor (happy 0 7 []) c2_peer 10 Sys.start).1.outlen.toNat = [71, 69, 84] ∧
    (init_tor (happy 0 7 []) c2_peer 10 Sys.start).1.client_s = c2_peer.client_s ∧
    (init_tor (happy 0 7 []) c2_peer 10 Sys.start).1.tor_s = c2_peer.tor_s :=
  C2_splice_point (happy 0 7 []) Sys.start c2_peer 10 [0] (cstr "example.com") [71, 69, 84]
    reply [72, 84] 0 80 (Or.inl (by decide))
    (by decide) (by decide) (by decide) (by decide) (by decide) (by decide) (by decide) (by decide)


/-! ## C3: raw mode -/

theorem sent_warnx (fd : Int) (m : String) (s : Sys) : sent fd (warnx m s).log = sent fd s.log := rfl

theorem sockets_warnx (m : String) (s : Sys) : sockets (warnx m s).log = sockets s.log := rfl

theorem sent_shutdown_all (fd : Int) (p : peer) (s : Sys) :
    sent fd (shutdown_all p s).2.log = sent fd s.log := by
  unfold shutdown_all
  simp only []
  split <;> split <;> rfl

theorem sockets_shutdown_all (p : peer) (s : Sys) :
    sockets (shutdown_all p s).2.log = sockets s.log := by
  unfold shutdown_all
  simp only []
  split <;> split <;> rfl

theorem sockets_sys_send (env : Env) (fd : Int) (data : List Byte) (s : Sys) :
    sockets (sys_send env fd data s).2.2.log = sockets s.log := by
  unfold sys_send
  cases env.send s.tick <;> rfl

theorem shutdown_all_torn_down (p : peer) (s : Sys) : torn_down (shutdown_all p s).1 :=
  ⟨rfl, rfl⟩

theorem shutdown_all_init (p : peer) (s : Sys) : (shutdown_all p s).1.init = p.init := rfl

theorem sent_init_tor_response (fd : Int) (p : peer) (s : Sys) :
    sent fd (init_tor_response p s).2.log = sent fd s.log := by
  unfold init_tor_response
  simp only []
  split
  · rfl
  · split
    · rw [sent_shutdown_all, sent_warnx]
    · split
      · split
        · rw [sent_shutdown_all, sent_warnx]
        · rfl
      · rfl

theorem sys_send_sent_self (env : Env) (h : accepts_all env) (fd : Int) (data : List Byte)
    (s : Sys) (hd : data.length ≤ BufSize) :
    sent fd (sys_send env fd data s).2.2.log = sent fd s.log ++ data := by
  obtain ⟨n, hn, hle⟩ := h s.tick
  simp only [sys_send, hn, Sys.emit, Sys.next, sent, if_true]
  rw [List.take_of_length_le]
  omega

/-- The bytes `write_address` stores for a client that does not speak SOCKS5. -/
theorem write_address_raw (p : peer) (tran : Bool) (h : p.outbuf 0 ≠ 5) :
    write_address p tran = [62] ++ default_address ++ [1, 0xD1] := by
  unfold write_address
  rw [if_pos h]
  decide

/-- The socket that the first call of `init_tor` opens. -/
theorem init_tor_opens_socket (env : Env) (p : peer) (nread : Nat) (s : Sys) (h : p.tor_s = -1) :
    sockets (init_tor env p nread s).2.log = sockets s.log ++ [env.socket s.tick] := by
  unfold init_tor
  simp only [h, if_true]
  split
  · rw [sockets_shutdown_all, sockets_warnx]; rfl
  · split
    · rw [sockets_shutdown_all, sockets_warnx]; rfl
    · split
      · rw [sockets_shutdown_all, sockets_warnx, sockets_sys_send]; rfl
      · rw [sockets_sys_send]; rfl
/-- The CONNECT request that `init_tor` sends when the authentication
response has just arrived, for a client that does not speak SOCKS5. -/
theorem init_tor_raw_request (env : Env) (p : peer) (nread : Nat) (s : Sys)
    (hraw : p.outbuf 0 ≠ 5) (hs : accepts_all env) (ht : p.tor_s ≠ -1)
    (b2 : p.inbuf 2 = 1) (b3 : p.inbuf 3 = 0) (h4 : 4 ≤ p.inlen)
    (hlo : 2 ≤ p.inlen - (nread : Int)) (hhi : p.inlen - (nread : Int) < 4) :
    sent p.tor_s (init_tor env p nread s).2.log =
      sent p.tor_s s.log ++ ([5, 1, 0, 3, 62] ++ default_address ++ [1, 0xD1]) := by
  unfold init_tor
  simp only []
  rw [if_neg ht, if_neg (by omega), if_neg (by omega)]
  unfold init_tor_auth
  simp only []
  rw [if_neg (by omega), if_pos hhi, if_neg (by simp [b2, b3])]
  have hsz := connect_request_size p
  have hlen : ([5, 1, 0, 3] ++ write_address p true : List Byte).length ≤ BufSize := by
    have := (([5, 1, 0, 3] ++ write_address p true : List Byte).getD 4 0).isLt
    rw [← hsz.2]
    simp only [BufSize]
    omega
  rw [hsz.1]
  have hf := sys_send_fst env hs p.tor_s ([5, 1, 0, 3] ++ write_address p true) s hlen
  rw [if_neg (by rw [hf, hsz.2]; simp)]
  rw [sent_init_tor_response, sys_send_sent_self env hs _ _ _ hlen, write_address_raw p true hraw]
  rfl

/-- C3: raw mode.  For a slot whose first client byte is not 5:
(a) `init_client` calls `init_tor(p, 0)` on the read that delivers that first
byte, which opens the upstream socket when there is none yet, and does
nothing on later reads; (b) the address written for the upstream CONNECT
request is the default address and port 465, whatever else the client sent,
and the request sent when the authentication response arrives is
`5 1 0 3 62 default_address 01 D1`; (c) on completion `inbuf` becomes the
bytes that followed the CONNECT response, `outbuf` and `outlen` are left as
they were, and nothing is sent to the client. -/
theorem C3_raw_mode (env : Env) (s : Sys) (p : peer) (nread : Nat) (C Q : List Byte)
    (hraw : p.outbuf 0 ≠ 5) (hlen : 0 < p.outlen) :
    (p.outlen ≤ (nread : Int) → init_client env p nread s = init_tor env p 0 s) ∧
    (p.outlen ≤ (nread : Int) → p.tor_s = -1 →
      sockets (init_client env p nread s).2.log = sockets s.log ++ [env.socket s.tick]) ∧
    ((nread : Int) < p.outlen → init_client env p nread s = (p, s)) ∧
    write_address p true = [62] ++ default_address ++ [1, 0xD1] ∧
    (accepts_all env → p.tor_s ≠ -1 → p.inbuf 2 = 1 → p.inbuf 3 = 0 → 4 ≤ p.inlen →
      2 ≤ p.inlen - (nread : Int) → p.inlen - (nread : Int) < 4 →
      sent p.tor_s (init_tor env p nread s).2.log =
        sent p.tor_s s.log ++ ([5, 1, 0, 3, 62] ++ default_address ++ [1, 0xD1])) ∧
    ((4 ≤ p.inlen - (nread : Int) ∨ (accepts_all env ∧ clock_works env ∧ s.exited = false)) →
      p.tor_s ≠ -1 → p.client_s ≠ p.tor_s → bytes p.inbuf p.inlen.toNat = [5, 2, 1, 0] ++ C ++ Q →
      valid_response C → p.inlen ≤ (BufSize : Int) →
      (init_tor env p nread s).1.init = false ∧
      (init_tor env p nread s).1.inlen = (Q.length : Int) ∧
      bytes (init_tor env p nread s).1.inbuf (init_tor env p nread s).1.inlen.toNat = Q ∧
      (init_tor env p nread s).1.outbuf = p.outbuf ∧
      (init_tor env p nread s).1.outlen = p.outlen ∧
      sent p.client_s (init_tor env p nread s).2.log = sent p.client_s s.log) := by
  have ha : p.outlen ≤ (nread : Int) → init_client env p nread s = init_tor env p 0 s := by
    intro h
    unfold init_client
    simp only []
    rw [if_pos ⟨hlen, hraw⟩, if_pos (by omega)]
  refine ⟨ha, ?_, ?_, write_address_raw p true hraw, ?_, ?_⟩
  · intro h ht
    rw [ha h]
    exact init_tor_opens_socket env p 0 s ht
  · intro h
    unfold init_client
    simp only []
    rw [if_pos ⟨hlen, hraw⟩, if_neg (by omega)]
  · intro hs ht b2 b3 h4 hlo hhi
    exact init_tor_raw_request env p nread s hraw hs ht b2 b3 h4 hlo hhi
  · intro hready ht hne hin hC hfi
    obtain ⟨b0, b1, b2, b3, b4, b5, b6, hres, hclen, hinlen, hQ⟩ := response_facts p C Q hin hC
    obtain ⟨s2, e, hsent⟩ := init_tor_gets_to_response env p nread s hready ht
      (by rw [hinlen]; push_cast; omega) b0 b1 b2 b3
    have hbi : Q.length < 2 ^ 64 := by
      have : ((Q.length : Nat) : Int) ≤ (BufSize : Int) := by
        rw [hinlen] at hfi; push_cast at hfi; omega
      simp only [BufSize] at this; omega
    obtain ⟨-, r1, r2, r3, r4, r5, -, -, -, -⟩ :=
      init_tor_response_raw p s2 C.length Q b4 b5 b6 hres hclen hinlen hQ hraw hbi
    have hlog : sent p.client_s (init_tor env p nread s).2.log = sent p.client_s s.log := by
      rw [e, sent_init_tor_response, hsent _ hne]
    rw [e] at hlog ⊢
    refine ⟨r1, r2, ?_, r5, r4, hlog⟩
    rw [r2]; exact r3
set_option maxRecDepth 20000 in
theorem C3_raw_mode_witness :
    sockets (init_client (happy 0 7 []) { session [0x47, 0x45, 0x54] [] with tor_s := -1 } 3
      Sys.start).2.log = [5] ∧
    sent 5 (init_tor (happy 0 7 []) (session [0x47, 0x45, 0x54] [5, 2, 1, 0]) 2 Sys.start).2.log =
      [5, 1, 0, 3, 62] ++ default_address ++ [1, 0xD1] ∧
    ((init_tor (happy 0 7 []) (session [0x47, 0x45, 0x54] ([5, 2, 1, 0] ++ reply ++ [72, 84])) 10
        Sys.start).1.init = false ∧
     bytes (init_tor (happy 0 7 []) (session [0x47, 0x45, 0x54] ([5, 2, 1, 0] ++ reply ++ [72, 84])) 10
        Sys.start).1.inbuf 2 = [72, 84] ∧
     (init_tor (happy 0 7 []) (session [0x47, 0x45, 0x54] ([5, 2, 1, 0] ++ reply ++ [72, 84])) 10
        Sys.start).1.outlen = 3) :=
  ⟨(C3_raw_mode (happy 0 7 []) Sys.start { session [0x47, 0x45, 0x54] [] with tor_s := -1 } 3 [] []
      (by decide) (by decide)).2.1 (by decide) rfl,
   (C3_raw_mode (happy 0 7 []) Sys.start (session [0x47, 0x45, 0x54] [5, 2, 1, 0]) 2 [] []
      (by decide) (by decide)).2.2.2.2.1 (happy_accepts_all 0 7 []) (by decide) (by decide)
      (by decide) (by decide) (by decide) (by decide),
   have h := (C3_raw_mode (happy 0 7 []) Sys.start
      (session [0x47, 0x45, 0x54] ([5, 2, 1, 0] ++ reply ++ [72, 84])) 10 reply [72, 84]
      (by decide) (by decide)).2.2.2.2.2 (Or.inl (by decide))
      (by decide) (by decide) (by decide) (by decide) (by decide)
   ⟨h.1, h.2.2.1, h.2.2.2.2.1⟩⟩

/-! ## C4: the credentials -/

theorem offered_warnx (fd : Int) (m : String) (s : Sys) :
    offered fd (warnx m s).log = offered fd s.log := rfl

theorem offered_shutdown_all (fd : Int) (p : peer) (s : Sys) :
    offered fd (shutdown_all p s).2.log = offered fd s.log := by
  unfold shutdown_all
  simp only []
  split <;> split <;> rfl

theorem offered_sys_send (env : Env) (fd : Int) (data : List Byte) (s : Sys) :
    offered fd (sys_send env fd data s).2.2.log = offered fd s.log ++ [data] := by
  unfold sys_send
  cases env.send s.tick <;> simp [Sys.emit, Sys.next, offered]

theorem offered_sys_send_other (env : Env) (fd fd2 : Int) (data : List Byte) (s : Sys)
    (h : fd2 ≠ fd) : offered fd2 (sys_send env fd data s).2.2.log = offered fd2 s.log := by
  unfold sys_send
  cases env.send s.tick <;> simp [Sys.emit, Sys.next, offered, Ne.symm h]

theorem offered_init_tor_response (fd : Int) (p : peer) (s : Sys) :
    offered fd (init_tor_response p s).2.log = offered fd s.log := by
  unfold init_tor_response
  simp only []
  split
  · rfl
  · split
    · rw [offered_shutdown_all, offered_warnx]
    · split
      · split
        · rw [offered_shutdown_all, offered_warnx]
        · rfl
      · rfl

theorem offered_init_tor_auth (env : Env) (p : peer) (nread : Nat) (s : Sys) :
    ∃ rest, offered p.tor_s (init_tor_auth env p nread s).2.log = offered p.tor_s s.log ++ rest ∧
      (p.inlen < 4 → rest = []) := by
  unfold init_tor_auth
  simp only []
  split
  · exact ⟨[], by simp, fun _ => rfl⟩
  · split
    · split
      · exact ⟨[], by rw [offered_shutdown_all, offered_warnx]; simp, fun _ => rfl⟩
      · split
        · exact ⟨_, by rw [offered_shutdown_all, offered_warnx, offered_sys_send],
            fun h => by omega⟩
        · exact ⟨_, by rw [offered_init_tor_response, offered_sys_send], fun h => by omega⟩
    · exact ⟨[], by rw [offered_init_tor_response]; simp, fun _ => rfl⟩

theorem tor_circuit_lt (env : Env) (s : Sys) (h : s.rand < 2 ^ 32) :
    (tor_circuit env s).1 < 2 ^ 32 := by
  unfold tor_circuit
  cases env.clock s.tick with
  | none => simp
  | some now =>
    simp only [circuit_step, Sys.next]
    split
    · exact Nat.mod_lt _ (by norm_num)
    · exact h

theorem nibble_byte (x : Nat) : ((Fin.ofNat (97 + (x &&& 15)) : Byte)).val = 97 + x % 16 := by
  have h : x &&& 15 = x % 16 := Nat.and_pow_two_sub_one_eq_mod x 4
  rw [h]
  simp only [Fin.ofNat]
  omega

/-- C4: the credentials.  After a valid `5 2` method selection has just
arrived, `init_tor` hands to `send` on the upstream socket, as its next
message, the request built from the circuit number that `tor_circuit`
returns, a 32-bit number; and for every 32-bit circuit number `c` that
request is the 11 bytes `1 4 u0 u1 u2 u3 4 p0 p1 p2 p3`, where `u_i` is the
letter `a` plus nibble `i` of `c` and `p_i` the letter `a` plus nibble `4+i`
(least significant nibble first), each of them a letter from `a` to `p`. -/
theorem C4_credential_encoding (env : Env) (s : Sys) (p : peer) (nread : Nat)
    (hx : s.exited = false) (hclk : env.clock s.tick ≠ none) (hr : s.rand < 2 ^ 32)
    (ht : p.tor_s ≠ -1) (b0 : p.inbuf 0 = 5) (b1 : p.inbuf 1 = 2)
    (h2 : 2 ≤ p.inlen) (hnew : p.inlen - (nread : Int) < 2) :
    (tor_circuit env s).1 < 2 ^ 32 ∧
    (∃ rest, offered p.tor_s (init_tor env p nread s).2.log =
      offered p.tor_s s.log ++ auth_request (tor_circuit env s).1 :: rest ∧
      (p.inlen < 4 → rest = [])) ∧
    (∀ c : Nat, c < 2 ^ 32 →
      (auth_request c).map Fin.val =
        [1, 4, 97 + c % 16, 97 + c / 2 ^ 4 % 16, 97 + c / 2 ^ 8 % 16, 97 + c / 2 ^ 12 % 16,
         4, 97 + c / 2 ^ 16 % 16, 97 + c / 2 ^ 20 % 16, 97 + c / 2 ^ 24 % 16,
         97 + c / 2 ^ 28 % 16] ∧
      ∀ i, i ∈ [2, 3, 4, 5, 7, 8, 9, 10] →
        97 ≤ ((auth_request c).getD i 0).val ∧ ((auth_request c).getD i 0).val ≤ 112) := by
  refine ⟨tor_circuit_lt env s hr, ?_, ?_⟩
  · unfold init_tor
    simp only []
    rw [if_neg ht, if_neg (by omega), if_pos hnew, if_neg (by simp [b0, b1])]
    rw [if_neg (by rw [tor_circuit_exited env s hclk, hx]; simp)]
    split
    · refine ⟨[], ?_, fun _ => rfl⟩
      rw [offered_shutdown_all, offered_warnx, offered_sys_send, tor_circuit_log]
    · obtain ⟨rest, e, hrest⟩ := offered_init_tor_auth env p nread
        (sys_send env p.tor_s (auth_request (tor_circuit env s).1) (tor_circuit env s).2).2.2
      refine ⟨rest, ?_, hrest⟩
      rw [e, offered_sys_send, tor_circuit_log]
      simp
  · intro c _
    have hv : (auth_request c).map Fin.val =
        [1, 4, 97 + c % 16, 97 + c / 2 ^ 4 % 16, 97 + c / 2 ^ 8 % 16, 97 + c / 2 ^ 12 % 16,
         4, 97 + c / 2 ^ 16 % 16, 97 + c / 2 ^ 20 % 16, 97 + c / 2 ^ 24 % 16,
         97 + c / 2 ^ 28 % 16] := by
      simp only [auth_request, List.map, nibble_byte, Nat.shiftRight_eq_div_pow]
      rfl
    refine ⟨hv, ?_⟩
    intro i hi
    have hg : ((auth_request c).getD i 0).val = ((auth_request c).map Fin.val).getD i 0 := by
      simp [List.getD_eq_getElem?_getD, List.getElem?_map]
      cases (auth_request c)[i]? <;> rfl
    rw [hg, hv]
    simp only [List.mem_cons, List.mem_singleton, List.not_mem_nil, or_false] at hi
    rcases hi with rfl | rfl | rfl | rfl | rfl | rfl | rfl | rfl <;>
      simp [List.getD_eq_getElem?_getD] <;> omega

set_option maxRecDepth 20000 in
theorem C4_credential_encoding_witness :
    offered 5 (init_tor (happy 0 0xDEADBEEF []) (session [5, 1, 0] [5, 2]) 2 Sys.start).2.log =
      [[1, 4, 112, 111, 111, 108, 4, 110, 107, 111, 110]] ∧
    (auth_request 0xDEADBEEF).map Fin.val = [1, 4, 112, 111, 111, 108, 4, 110, 107, 111, 110] := by
  have h := C4_credential_encoding (happy 0 0xDEADBEEF []) Sys.start (session [5, 1, 0] [5, 2]) 2
    rfl (by decide) (by decide) (by decide) (by decide) (by decide) (by decide) (by decide)
  obtain ⟨rest, e, hr⟩ := h.2.1
  constructor
  · refine e.trans ?_
    rw [hr (by decide)]
    decide
  · rw [(h.2.2 0xDEADBEEF (by norm_num)).1]
    decide

/-! ## C5: the circuit generator -/

/-- What one call of `tor_circuit` does to its statics: a fresh value is
drawn exactly when both statics are zero or 60 seconds have passed, the
value returned is the value stored, and the time stored is `now`. -/
theorem circuit_step_spec (rand : Nat) (time now : Int) (r : Nat) :
    ((rand = 0 ∧ time = 0) ∨ now - time ≥ 60 → circuit_step (rand, time) now r = (r, (r, now))) ∧
    (¬ ((rand = 0 ∧ time = 0) ∨ now - time ≥ 60) →
      circuit_step (rand, time) now r = (rand, (rand, now))) := by
  constructor
  · intro h
    simp [circuit_step, rotate, h]
  · intro h
    simp [circuit_step, rotate, h]

/-- Two consecutive calls of `tor_circuit` less than 60 seconds apart return
the same value, unless the first returned 0 at second 0; a call 60 seconds
or more after the previous one returns the fresh draw. -/
theorem circuit_consecutive (st : Nat × Int) (now1 now2 : Int) (r1 r2 : Nat) :
    (now2 - now1 < 60 → ¬ ((circuit_step st now1 r1).1 = 0 ∧ now1 = 0) →
      (circuit_step (circuit_step st now1 r1).2 now2 r2).1 = (circuit_step st now1 r1).1) ∧
    (now2 - now1 ≥ 60 → (circuit_step (circuit_step st now1 r1).2 now2 r2).1 = r2) := by
  constructor
  · intro hlt hne
    have h : ¬ (((circuit_step st now1 r1).2.1 = 0 ∧ (circuit_step st now1 r1).2.2 = 0) ∨
        now2 - (circuit_step st now1 r1).2.2 ≥ 60) := by
      simp only [circuit_step] at hne ⊢
      omega
    have := (circuit_step_spec (circuit_step st now1 r1).2.1 (circuit_step st now1 r1).2.2
      now2 r2).2 h
    rw [this]
    rfl
  · intro hge
    have h : ((circuit_step st now1 r1).2.1 = 0 ∧ (circuit_step st now1 r1).2.2 = 0) ∨
        now2 - (circuit_step st now1 r1).2.2 ≥ 60 := by
      right
      simp only [circuit_step]
      omega
    have := (circuit_step_spec (circuit_step st now1 r1).2.1 (circuit_step st now1 r1).2.2
      now2 r2).1 h
    rw [this]

/-- C5: evaluation of two consecutive calls of `tor_circuit` from the start
of the process.  The first call, at second 0, draws the value 0 and stores
it; the second call, one second later, finds both statics zero, takes this
for the first call, and returns a fresh draw, 7, where the stored value 0
was due. -/
theorem C5_second_call_redraws :
    (tor_circuit two_calls Sys.start).1 = 0 ∧
    (tor_circuit two_calls Sys.start).2.exited = false ∧
    ((tor_circuit two_calls Sys.start).2.rand, (tor_circuit two_calls Sys.start).2.time) = (0, 0) ∧
    two_calls.clock (tor_circuit two_calls Sys.start).2.tick = some 1 ∧
    (tor_circuit two_calls (tor_circuit two_calls Sys.start).2).1 = 7 ∧
    circuit_step (circuit_step (0, 0) 0 0).2 1 7 = (7, (7, 1)) := by
  decide

/-! ## C6 and C7: the client side -/

/-- The test `isok` of `init_client` in terms of the methods in the buffer. -/
theorem isok_iff (p : peer) (methods : List Byte)
    (h1 : (p.outbuf 1).val = methods.length) (hm : slice p.outbuf 2 methods.length = methods) :
    (List.range (p.outbuf 1).val).any (fun i => decide (p.outbuf (i + 2) = 0)) = true ↔
      ∃ m ∈ methods, m = 0 := by
  rw [h1]
  constructor
  · intro h
    rw [List.any_eq_true] at h
    obtain ⟨i, hi, hz⟩ := h
    have hi2 := List.mem_range.mp hi
    refine ⟨p.outbuf (i + 2), ?_, by simpa using hz⟩
    rw [← hm]
    simp only [slice, List.mem_map, List.mem_range]
    exact ⟨i, hi2, by rw [Nat.add_comm]⟩
  · rintro ⟨m, hmem, rfl⟩
    rw [← hm] at hmem
    simp only [slice, List.mem_map, List.mem_range] at hmem
    obtain ⟨i, hi, hz⟩ := hmem
    rw [List.any_eq_true]
    refine ⟨i, List.mem_range.mpr hi, ?_⟩
    rw [Nat.add_comm] at hz
    simp [hz]

/-- C6, as the code has it: the greeting.  On the read that makes a greeting
`5 n m_1 .. m_n` fully present: if no method is 0 the slot is torn down, no
message is handed to `send` on the client socket and `socket` is not
called.  If some method is 0, `5 0` is handed to `send` on the client socket
and the greeting itself causes no teardown: when the request that follows
is not yet fully present, nothing else happens (once `5 0` is accepted the
slot is left as it was, no upstream socket); when the same read has also
brought the whole request, `init_client` goes on to it in the same call,
so that a bad request tears the slot down after `5 0` has been sent, and a
good one starts the upstream handshake. -/
theorem C6_bad_auth_methods (env : Env) (s : Sys) (p : peer) (nread : Nat) (methods : List Byte)
    (h0 : p.outbuf 0 = 5) (h1 : (p.outbuf 1).val = methods.length)
    (hm : slice p.outbuf 2 methods.length = methods)
    (hfull : (methods.length : Int) + 2 ≤ p.outlen)
    (hnew : p.outlen - (nread : Int) < (methods.length : Int) + 2) :
    ((∀ m ∈ methods, m ≠ 0) →
      torn_down (init_client env p nread s).1 ∧
      offered p.client_s (init_client env p nread s).2.log = offered p.client_s s.log ∧
      sent p.client_s (init_client env p nread s).2.log = sent p.client_s s.log ∧
      sockets (init_client env p nread s).2.log = sockets s.log) ∧
    ((∃ m ∈ methods, m = 0) →
      (p.outlen < (methods.length : Int) + 2 + reqlen p.outbuf (methods.length + 2) →
        offered p.client_s (init_client env p nread s).2.log =
          offered p.client_s s.log ++ [[5, 0]] ∧
        sockets (init_client env p nread s).2.log = sockets s.log ∧
        ((sys_send env p.client_s [5, 0] s).1 = 2 →
          (init_client env p nread s).1 = p ∧
          sent p.client_s (init_client env p nread s).2.log =
            sent p.client_s s.log ++ [5, 0])) ∧
      ((methods.length : Int) + 2 + reqlen p.outbuf (methods.length + 2) ≤ p.outlen →
        (sys_send env p.client_s [5, 0] s).1 = 2 →
        ((p.outbuf (methods.length + 2) ≠ 5 ∨ p.outbuf (methods.length + 2 + 1) ≠ 1 ∨
            p.outbuf (methods.length + 2 + 2) ≠ 0 ∨
            reqlen p.outbuf (methods.length + 2) < 6) →
          torn_down (init_client env p nread s).1 ∧
          offered p.client_s (init_client env p nread s).2.log =
            offered p.client_s s.log ++ [[5, 0]] ∧
          sent p.client_s (init_client env p nread s).2.log =
            sent p.client_s s.log ++ [5, 0] ∧
          sockets (init_client env p nread s).2.log = sockets s.log) ∧
        (¬ (p.outbuf (methods.length + 2) ≠ 5 ∨ p.outbuf (methods.length + 2 + 1) ≠ 1 ∨
            p.outbuf (methods.length + 2 + 2) ≠ 0 ∨
            reqlen p.outbuf (methods.length + 2) < 6) →
          init_client env p nread s =
            init_tor env p 0 (sys_send env p.client_s [5, 0] s).2.2))) := by
  have hok := isok_iff p methods h1 hm
  have hlen : 0 < p.outlen := by omega
  have g : 4 ≤ reqlen p.outbuf (methods.length + 2) := by
    unfold reqlen
    split <;> omega
  constructor
  · intro hno
    have hfalse : (List.range (p.outbuf 1).val).any (fun i => decide (p.outbuf (i + 2) = 0)) =
        false := by
      rw [Bool.eq_false_iff]
      intro h
      obtain ⟨m, hmem, hz⟩ := hok.mp h
      exact hno m hmem hz
    have e : init_client env p nread s = shutdown_all p (warnx "bad auth" s) := by
      unfold init_client
      simp only []
      rw [if_neg (by simp [h0]), h1, if_neg (by omega), if_pos hnew, ← h1, if_pos hfalse]
    rw [e]
    refine ⟨shutdown_all_torn_down _ _, ?_, ?_, ?_⟩
    · rw [offered_shutdown_all, offered_warnx]
    · rw [sent_shutdown_all, sent_warnx]
    · rw [sockets_shutdown_all, sockets_warnx]
  · intro hsome
    have htrue : ¬ ((List.range (p.outbuf 1).val).any (fun i => decide (p.outbuf (i + 2) = 0)) =
        false) := by
      rw [hok.mpr hsome]
      simp
    have e : init_client env p nread s =
        if (sys_send env p.client_s [5, 0] s).1 ≠ 2 then
          shutdown_all p (warnx "could not send auth accept" (sys_send env p.client_s [5, 0] s).2.2)
        else init_client_request env p nread (sys_send env p.client_s [5, 0] s).2.2 := by
      unfold init_client
      simp only []
      rw [if_neg (by simp [h0]), h1, if_neg (by omega), if_pos hnew, ← h1, if_neg htrue]
    have hsent : (sys_send env p.client_s [5, 0] s).1 = 2 →
        sent p.client_s (sys_send env p.client_s [5, 0] s).2.2.log =
          sent p.client_s s.log ++ [5, 0] := by
      intro hacc
      unfold sys_send at hacc ⊢
      cases hsend : env.send s.tick with
      | ok n =>
        simp only [hsend] at hacc ⊢
        simp only [Sys.emit, Sys.next, sent, if_true]
        rw [hacc]
        rfl
      | err e =>
        simp only [hsend, SIZE_MAX] at hacc
        omega
    constructor
    · intro hpart
      have hreq : ∀ s2, init_client_request env p nread s2 = (p, s2) := by
        intro s2
        unfold init_client_request
        simp only []
        rw [if_pos (by rw [h1]; push_cast; omega)]
      rw [e, hreq]
      refine ⟨?_, ?_, ?_⟩
      · split
        · rw [offered_shutdown_all, offered_warnx, offered_sys_send]
        · rw [offered_sys_send]
      · split
        · rw [sockets_shutdown_all, sockets_warnx, sockets_sys_send]
        · rw [sockets_sys_send]
      · intro hacc
        rw [if_neg (by simp [hacc])]
        exact ⟨rfl, hsent hacc⟩
    · intro hwhole hacc
      have hreq : ∀ s2, init_client_request env p nread s2 =
          if p.outbuf (methods.length + 2) ≠ 5 ∨ p.outbuf (methods.length + 2 + 1) ≠ 1 ∨
              p.outbuf (methods.length + 2 + 2) ≠ 0 ∨
              reqlen p.outbuf (methods.length + 2) < 6 then
            shutdown_all p (warnx "bad request" s2)
          else init_tor env p 0 s2 := by
        intro s2
        unfold init_client_request
        simp only []
        rw [h1, if_neg (by push_cast; omega), if_pos (by push_cast; omega)]
      rw [e, if_neg (by simp [hacc]), hreq]
      constructor
      · intro hbad
        rw [if_pos hbad]
        refine ⟨shutdown_all_torn_down _ _, ?_, ?_, ?_⟩
        · rw [offered_shutdown_all, offered_warnx, offered_sys_send]
        · rw [sent_shutdown_all, sent_warnx, hsent hacc]
        · rw [sockets_shutdown_all, sockets_warnx, sockets_sys_send]
      · intro hgood
        rw [if_neg hgood]

set_option maxRecDepth 20000 in
/-- C6, greeting and request in one read: the greeting `5 1 0` offers
method 0 and the request `5 2 0 3 0 0 0` that arrives in the same read has
command 2.  `init_client` sends `5 0` to the client and then, in the same
call, warns `bad request` and tears the slot down. -/
theorem C6_greeting_and_bad_request_in_one_read :
    bytes greeting_then_bad_request.outbuf 10 = [5, 1, 0] ++ [5, 2, 0, 3, 0, 0, 0] ∧
    greeting_then_bad_request.outlen = 10 ∧
    (∃ m ∈ [(0 : Byte)], m = 0) ∧
    offered 4 (init_client (happy 0 0 []) greeting_then_bad_request 10 Sys.start).2.log =
      [[5, 0]] ∧
    sent 4 (init_client (happy 0 0 []) greeting_then_bad_request 10 Sys.start).2.log = [5, 0] ∧
    torn_down (init_client (happy 0 0 []) greeting_then_bad_request 10 Sys.start).1 ∧
    (init_client (happy 0 0 []) greeting_then_bad_request 10 Sys.start).2.log =
      [.close 4, .shutdown 4 .SHUT_RDWR, .warn "bad request", .send 4 [5, 0] (.ok 2)] := by
  refine ⟨by decide, by decide, ⟨0, by simp, rfl⟩, by decide, by decide, by decide, by decide⟩

set_option maxRecDepth 20000 in
theorem C6_bad_auth_methods_witness :
    (torn_down (init_client (happy 0 0 []) { session [5, 1, 2] [] with tor_s := -1 } 3 Sys.start).1 ∧
     offered 4 (init_client (happy 0 0 []) { session [5, 1, 2] [] with tor_s := -1 } 3
       Sys.start).2.log = [] ∧
     sockets (init_client (happy 0 0 []) { session [5, 1, 2] [] with tor_s := -1 } 3
       Sys.start).2.log = []) ∧
    (offered 4 (init_client (happy 0 0 []) { session [5, 1, 0] [] with tor_s := -1 } 3
       Sys.start).2.log = [[5, 0]] ∧
     (init_client (happy 0 0 []) { session [5, 1, 0] [] with tor_s := -1 } 3 Sys.start).1 =
       { session [5, 1, 0] [] with tor_s := -1 }) ∧
    (torn_down (init_client (happy 0 0 []) greeting_then_bad_request 10 Sys.start).1 ∧
     offered 4 (init_client (happy 0 0 []) greeting_then_bad_request 10 Sys.start).2.log =
       [[5, 0]]) ∧
    init_client (happy 0 0 []) domain_client 21 Sys.start =
      init_tor (happy 0 0 []) domain_client 0
        (sys_send (happy 0 0 []) domain_client.client_s [5, 0] Sys.start).2.2 :=
  ⟨have h := (C6_bad_auth_methods (happy 0 0 []) Sys.start { session [5, 1, 2] [] with tor_s := -1 }
      3 [2] (by decide) (by decide) (by decide) (by decide) (by decide)).1 (by decide)
   ⟨h.1, h.2.1, h.2.2.2⟩,
   have h := ((C6_bad_auth_methods (happy 0 0 []) Sys.start { session [5, 1, 0] [] with tor_s := -1 }
      3 [0] (by decide) (by decide) (by decide) (by decide) (by decide)).2 (by decide)).1
      (by decide)
   ⟨h.1, (h.2.2 (by decide)).1⟩,
   have h := ((((C6_bad_auth_methods (happy 0 0 []) Sys.start greeting_then_bad_request
      10 [0] (by decide) (by decide) (by decide) (by decide) (by decide)).2 (by decide)).2
      (by decide) (by decide)).1 (by decide))
   ⟨h.1, h.2.1⟩,
   ((((C6_bad_auth_methods (happy 0 0 []) Sys.start domain_client
      21 [0] (by decide) (by decide) (by decide) (by decide) (by decide)).2 (by decide)).2
      (by decide) (by decide)).2 (by decide))⟩

/-- After the greeting has been dealt with, `init_client` goes on to the
request: either the greeting was fully present before this read, or it
offers method 0 and the reply `5 0` is accepted. -/
theorem init_client_reaches_request (env : Env) (s : Sys) (p : peer) (nread : Nat)
    (h0 : p.outbuf 0 = 5) (hfull : ((p.outbuf 1).val : Int) + 2 ≤ p.outlen)
    (hg : ((p.outbuf 1).val : Int) + 2 ≤ p.outlen - (nread : Int) ∨
      ((List.range (p.outbuf 1).val).any (fun i => decide (p.outbuf (i + 2) = 0)) = true ∧
        (sys_send env p.client_s [5, 0] s).1 = 2)) :
    ∃ s2, init_client env p nread s = init_client_request env p nread s2 ∧
      sockets s2.log = sockets s.log ∧ s2.exited = s.exited := by
  unfold init_client
  simp only []
  rw [if_neg (by simp [h0]), if_neg (by omega)]
  by_cases hnew : p.outlen - (nread : Int) < ((p.outbuf 1).val : Int) + 2
  · rcases hg with hg | ⟨hok, hacc⟩
    · omega
    · rw [if_pos hnew, if_neg (by simp [hok]), if_neg (by simp [hacc])]
      exact ⟨_, rfl, sockets_sys_send _ _ _ _, sys_send_exited _ _ _ _⟩
  · rw [if_neg hnew]
    exact ⟨s, rfl, rfl, rfl⟩

/-- C7, as the code has it: the request forms.  For a SOCKS5 client whose
greeting has been accepted, on the read that makes the request fully
present: a request with header `5 1 0` and address type 3 (domain) makes
`init_client` call `init_tor(p, 0)`; a request whose first three bytes are
not `5 1 0` is rejected with a teardown and no upstream socket; and a
request with any other address type, IPv4 included, is rejected in the same
way as soon as its first four bytes are present. -/
theorem C7_request_forms (env : Env) (s : Sys) (p : peer) (nread : Nat)
    (h0 : p.outbuf 0 = 5) (hfull : ((p.outbuf 1).val : Int) + 2 ≤ p.outlen)
    (hg : ((p.outbuf 1).val : Int) + 2 ≤ p.outlen - (nread : Int) ∨
      ((List.range (p.outbuf 1).val).any (fun i => decide (p.outbuf (i + 2) = 0)) = true ∧
        (sys_send env p.client_s [5, 0] s).1 = 2)) :
    (p.outbuf ((p.outbuf 1).val + 5) = 3 →
      ((p.outbuf 1).val : Int) + 2 + ((p.outbuf ((p.outbuf 1).val + 6)).val + 7) ≤ p.outlen →
      p.outlen - (nread : Int) <
        ((p.outbuf 1).val : Int) + 2 + ((p.outbuf ((p.outbuf 1).val + 6)).val + 7) →
      (p.outbuf ((p.outbuf 1).val + 2) = 5 ∧ p.outbuf ((p.outbuf 1).val + 3) = 1 ∧
          p.outbuf ((p.outbuf 1).val + 4) = 0 →
        ∃ s2, init_client env p nread s = init_tor env p 0 s2 ∧ sockets s2.log = sockets s.log) ∧
      (¬ (p.outbuf ((p.outbuf 1).val + 2) = 5 ∧ p.outbuf ((p.outbuf 1).val + 3) = 1 ∧
          p.outbuf ((p.outbuf 1).val + 4) = 0) →
        torn_down (init_client env p nread s).1 ∧
        sockets (init_client env p nread s).2.log = sockets s.log)) ∧
    (p.outbuf ((p.outbuf 1).val + 5) ≠ 3 →
      ((p.outbuf 1).val : Int) + 2 + 4 ≤ p.outlen →
      p.outlen - (nread : Int) < ((p.outbuf 1).val : Int) + 2 + 4 →
      torn_down (init_client env p nread s).1 ∧
      sockets (init_client env p nread s).2.log = sockets s.log) := by
  obtain ⟨s2, e, hsock, -⟩ := init_client_reaches_request env s p nread h0 hfull hg
  rw [e]
  constructor
  · intro h3 hpres hnew
    have hr : reqlen p.outbuf ((p.outbuf 1).val + 2) =
        ((p.outbuf ((p.outbuf 1).val + 6)).val : Int) + 7 := by
      unfold reqlen
      rw [if_pos h3]
    constructor
    · intro hh
      refine ⟨s2, ?_, hsock⟩
      unfold init_client_request
      simp only []
      rw [hr, if_neg (by push_cast; omega), if_pos (by push_cast; omega),
        if_neg (by simp [hh]; omega)]
    · intro hh
      have e2 : init_client_request env p nread s2 = shutdown_all p (warnx "bad request" s2) := by
        unfold init_client_request
        simp only []
        rw [hr, if_neg (by push_cast; omega), if_pos (by push_cast; omega), if_pos]
        by_contra hc
        apply hh
        simp only [not_or, ne_eq, not_not] at hc
        exact ⟨hc.1, hc.2.1, hc.2.2.1⟩
      rw [e2, sockets_shutdown_all, sockets_warnx]
      exact ⟨shutdown_all_torn_down _ _, hsock⟩
  · intro h3 hpres hnew
    have hr : reqlen p.outbuf ((p.outbuf 1).val + 2) = 4 := by
      unfold reqlen
      rw [if_neg h3]
    have e2 : init_client_request env p nread s2 = shutdown_all p (warnx "bad request" s2) := by
      unfold init_client_request
      simp only []
      rw [hr, if_neg (by push_cast; omega), if_pos (by push_cast; omega), if_pos]
      right; right; right
      norm_num
    rw [e2, sockets_shutdown_all, sockets_warnx]
    exact ⟨shutdown_all_torn_down _ _, hsock⟩

set_option maxRecDepth 20000 in
/-- C7, the IPv4 form: a fully received IPv4 CONNECT
request `5 1 0 1 127 0 0 1 0 80`, after an accepted greeting, does not
trigger the upstream handshake.  The code warns `bad request`, closes the
client socket and frees the slot, and `socket` is never called. -/
theorem C7_ipv4_request_is_rejected :
    bytes ipv4_client.outbuf 13 = [5, 1, 0] ++ [5, 1, 0, 1, 127, 0, 0, 1, 0, 80] ∧
    ipv4_client.outlen = 13 ∧
    torn_down (init_client (happy 0 0 []) ipv4_client 10 Sys.start).1 ∧
    (init_client (happy 0 0 []) ipv4_client 10 Sys.start).2.log =
      [.close 4, .shutdown 4 .SHUT_RDWR, .warn "bad request"] ∧
    sockets (init_client (happy 0 0 []) ipv4_client 10 Sys.start).2.log = [] := by
  decide

set_option maxRecDepth 20000 in
theorem C7_request_forms_witness :
    (∃ s2, init_client (happy 0 0 []) domain_client 18 Sys.start =
        init_tor (happy 0 0 []) domain_client 0 s2 ∧ sockets s2.log = sockets Sys.start.log) ∧
    (torn_down (init_client (happy 0 0 []) ipv4_client 10 Sys.start).1 ∧
      sockets (init_client (happy 0 0 []) ipv4_client 10 Sys.start).2.log =
        sockets Sys.start.log) :=
  ⟨((C7_request_forms (happy 0 0 []) Sys.start domain_client 18 (by decide) (by decide)
      (Or.inl (by decide))).1 (by decide) (by decide) (by decide)).1 (by decide),
   (C7_request_forms (happy 0 0 []) Sys.start ipv4_client 10 (by decide) (by decide)
      (Or.inl (by decide))).2 (by decide) (by decide) (by decide)⟩

/-! ## C8: validation of the upstream replies -/

theorem reslen_ge (buf : Buf) : 4 ≤ reslen buf := by
  unfold reslen
  split
  · omega
  · split
    · omega
    · split <;> omega

theorem exited_warnx (m : String) (s : Sys) : (warnx m s).exited = s.exited := rfl

theorem exited_shutdown_all (p : peer) (s : Sys) : (shutdown_all p s).2.exited = s.exited := by
  unfold shutdown_all
  simp only []
  split <;> split <;> rfl

/-- The three ways `init_tor_response` can end. -/
theorem init_tor_response_outcome (p : peer) (s : Sys) :
    (init_tor_response p s).2.exited = s.exited ∧
    (((init_tor_response p s).1 = p ∧ p.inlen < 4 + reslen p.inbuf) ∨
     (torn_down (init_tor_response p s).1 ∧ (init_tor_response p s).1.init = p.init) ∨
     ((init_tor_response p s).1.init = false ∧ p.inbuf 4 = 5 ∧ p.inbuf 5 = 0 ∧ p.inbuf 6 = 0 ∧
       6 ≤ reslen p.inbuf ∧ 4 + reslen p.inbuf ≤ p.inlen)) := by
  unfold init_tor_response
  simp only []
  split
  · rename_i h
    exact ⟨rfl, Or.inl ⟨rfl, h⟩⟩
  · rename_i h
    split
    · exact ⟨by rw [exited_shutdown_all, exited_warnx],
        Or.inr (Or.inl ⟨shutdown_all_torn_down _ _, rfl⟩)⟩
    · rename_i h2
      simp only [not_or, ne_eq, not_not, not_lt] at h2
      have facts : p.inbuf 4 = 5 ∧ p.inbuf 5 = 0 ∧ p.inbuf 6 = 0 ∧
          6 ≤ reslen p.inbuf ∧ 4 + reslen p.inbuf ≤ p.inlen :=
        ⟨h2.1, h2.2.1, h2.2.2.1, h2.2.2.2, by omega⟩
      split
      · split
        · exact ⟨by rw [exited_shutdown_all, exited_warnx], Or.inr (Or.inr ⟨rfl, facts⟩)⟩
        · exact ⟨rfl, Or.inr (Or.inr ⟨rfl, facts⟩)⟩
      · exact ⟨rfl, Or.inr (Or.inr ⟨rfl, facts⟩)⟩

/-- The ways `init_tor_auth` can end, and what it has checked when it does
not tear the slot down. -/
theorem init_tor_auth_outcome (env : Env) (p : peer) (nread : Nat) (s : Sys)
    (hi : p.init = true) :
    (init_tor_auth env p nread s).2.exited = s.exited ∧
    ((torn_down (init_tor_auth env p nread s).1 ∧ (init_tor_auth env p nread s).1.init = true) ∨
     ((((init_tor_auth env p nread s).1 = p ∧ p.inlen < 4 + reslen p.inbuf) ∨
       ((init_tor_auth env p nread s).1.init = false ∧ p.inbuf 4 = 5 ∧ p.inbuf 5 = 0 ∧
         p.inbuf 6 = 0 ∧ 6 ≤ reslen p.inbuf ∧ 4 + reslen p.inbuf ≤ p.inlen)) ∧
      (p.inlen - (nread : Int) < 4 → 4 ≤ p.inlen → p.inbuf 2 = 1 ∧ p.inbuf 3 = 0))) := by
  have hres : ∀ s2, (init_tor_response p s2).2.exited = s2.exited ∧
      ((torn_down (init_tor_response p s2).1 ∧ (init_tor_response p s2).1.init = true) ∨
       (((init_tor_response p s2).1 = p ∧ p.inlen < 4 + reslen p.inbuf) ∨
        ((init_tor_response p s2).1.init = false ∧ p.inbuf 4 = 5 ∧ p.inbuf 5 = 0 ∧
          p.inbuf 6 = 0 ∧ 6 ≤ reslen p.inbuf ∧ 4 + reslen p.inbuf ≤ p.inlen))) := by
    intro s2
    obtain ⟨hx, h | h | h⟩ := init_tor_response_outcome p s2
    · exact ⟨hx, Or.inr (Or.inl h)⟩
    · exact ⟨hx, Or.inl ⟨h.1, by rw [h.2, hi]⟩⟩
    · exact ⟨hx, Or.inr (Or.inr h)⟩
  have hge := reslen_ge p.inbuf
  unfold init_tor_auth
  simp only []
  split
  · exact ⟨rfl, Or.inr ⟨Or.inl ⟨rfl, by omega⟩, fun _ h4 => by omega⟩⟩
  · split
    · split
      · exact ⟨by rw [exited_shutdown_all, exited_warnx],
          Or.inl ⟨shutdown_all_torn_down _ _, hi⟩⟩
      · rename_i hb
        simp only [not_or, ne_eq, not_not] at hb
        split
        · exact ⟨by rw [exited_shutdown_all, exited_warnx, sys_send_exited],
            Or.inl ⟨shutdown_all_torn_down _ _, hi⟩⟩
        · obtain ⟨hx, h | h⟩ := hres (sys_send env p.tor_s
            (List.take ((([5, 1, 0, 3] ++ write_address p true : List Byte).getD 4 0).val + 7)
              ([5, 1, 0, 3] ++ write_address p true)) s).2.2
          · exact ⟨by rw [hx, sys_send_exited], Or.inl h⟩
          · exact ⟨by rw [hx, sys_send_exited], Or.inr ⟨h, fun _ _ => hb⟩⟩
    · rename_i hlt
      obtain ⟨hx, h | h⟩ := hres s
      · exact ⟨hx, Or.inl h⟩
      · exact ⟨hx, Or.inr ⟨h, fun h1 _ => absurd h1 hlt⟩⟩

/-- The ways `init_tor` can end on a slot that has its upstream socket, and
what it has checked when it does not tear the slot down. -/
theorem init_tor_outcome (env : Env) (p : peer) (nread : Nat) (s : Sys)
    (hi : p.init = true) (ht : p.tor_s ≠ -1) (hx : s.exited = false) (hc : clock_works env) :
    (init_tor env p nread s).2.exited = false ∧
    ((torn_down (init_tor env p nread s).1 ∧ (init_tor env p nread s).1.init = true) ∨
     ((((init_tor env p nread s).1 = p ∧ p.inlen < 4 + reslen p.inbuf) ∨
       ((init_tor env p nread s).1.init = false ∧ p.inbuf 4 = 5 ∧ p.inbuf 5 = 0 ∧
         p.inbuf 6 = 0 ∧ 6 ≤ reslen p.inbuf ∧ 4 + reslen p.inbuf ≤ p.inlen)) ∧
      (p.inlen - (nread : Int) < 2 → 2 ≤ p.inlen → p.inbuf 0 = 5 ∧ p.inbuf 1 = 2) ∧
      (p.inlen - (nread : Int) < 4 → 4 ≤ p.inlen → p.inbuf 2 = 1 ∧ p.inbuf 3 = 0))) := by
  have hge := reslen_ge p.inbuf
  unfold init_tor
  simp only []
  rw [if_neg ht]
  split
  · exact ⟨hx, Or.inr ⟨Or.inl ⟨rfl, by omega⟩, fun _ h => by omega, fun _ h => by omega⟩⟩
  · split
    · split
      · exact ⟨by rw [exited_shutdown_all, exited_warnx, hx],
          Or.inl ⟨shutdown_all_torn_down _ _, hi⟩⟩
      · rename_i hb
        simp only [not_or, ne_eq, not_not] at hb
        have hce := tor_circuit_exited env s (hc s.tick)
        rw [if_neg (by rw [hce, hx]; simp)]
        split
        · exact ⟨by rw [exited_shutdown_all, exited_warnx, sys_send_exited, hce, hx],
            Or.inl ⟨shutdown_all_torn_down _ _, hi⟩⟩
        · obtain ⟨hx2, h | h⟩ := init_tor_auth_outcome env p nread
            (sys_send env p.tor_s (auth_request (tor_circuit env s).1) (tor_circuit env s).2).2.2 hi
          · exact ⟨by rw [hx2, sys_send_exited, hce, hx], Or.inl h⟩
          · exact ⟨by rw [hx2, sys_send_exited, hce, hx], Or.inr ⟨h.1, fun _ _ => hb, h.2⟩⟩
    · rename_i hlt
      obtain ⟨hx2, h | h⟩ := init_tor_auth_outcome env p nread s hi
      · exact ⟨by rw [hx2, hx], Or.inl h⟩
      · exact ⟨by rw [hx2, hx], Or.inr ⟨h.1, fun h1 _ => absurd h1 hlt, h.2⟩⟩

theorem getD_append_left (a b : List Byte) (i : Nat) (h : i < a.length) :
    (a ++ b).getD i 0 = a.getD i 0 := by
  simp [List.getD_eq_getElem?_getD, List.getElem?_append_left h]

theorem getD_append_right (a b : List Byte) (i : Nat) (h : a.length ≤ i) :
    (a ++ b).getD i 0 = b.getD (i - a.length) 0 := by
  simp [List.getD_eq_getElem?_getD, List.getElem?_append_right h]

/-- The length `reslen` only depends on bytes 7 and 8, and on byte 8 only
when byte 7 is 3. -/
theorem reslen_congr (b1 b2 : Buf) (h7 : b1 7 = b2 7) (h8 : b1 7 = 3 → b1 8 = b2 8) :
    reslen b1 = reslen b2 := by
  unfold reslen
  rw [← h7]
  split
  · rfl
  · split
    · rfl
    · split
      · rename_i h
        rw [h8 h]
      · rfl

/-- A buffer that agrees with a stream on the length of the stream assigns
the response the same length as the stream does, once the response is fully
present according to either. -/
theorem reslen_agree (buf : Buf) (σ : List Byte) (hag : ∀ i, i < σ.length → buf i = σ.getD i 0)
    (h : 4 + reslen buf ≤ (σ.length : Int) ∨ 4 + reslen (bufOf σ) ≤ (σ.length : Int)) :
    reslen buf = reslen (bufOf σ) := by
  have g1 := reslen_ge buf
  have g2 := reslen_ge (bufOf σ)
  have h8 : 8 ≤ σ.length := by omega
  have e7 : buf 7 = bufOf σ 7 := hag 7 (by omega)
  apply reslen_congr _ _ e7
  intro h3
  have h3b : bufOf σ 7 = 3 := by rw [← e7]; exact h3
  have r1 : reslen buf = ((buf 8).val : Int) + 7 := by
    unfold reslen
    rw [h3]
    rfl
  have r2 : reslen (bufOf σ) = ((bufOf σ 8).val : Int) + 7 := by
    unfold reslen
    rw [h3b]
    rfl
  exact hag 8 (by omega)

theorem complete_stream_append (σ τ : List Byte) (h : complete_stream σ) :
    complete_stream (σ ++ τ) := by
  obtain ⟨a0, a1, a2, a3, a4, a5, a6, h6, hl⟩ := h
  have h10 : 10 ≤ σ.length := by omega
  have hr : reslen (bufOf (σ ++ τ)) = reslen (bufOf σ) := by
    apply reslen_agree (bufOf (σ ++ τ)) σ
    · intro i hi
      exact getD_append_left σ τ i hi
    · right; exact hl
  refine ⟨?_, ?_, ?_, ?_, ?_, ?_, ?_, ?_, ?_⟩
  · rw [getD_append_left _ _ _ (by omega)]; exact a0
  · rw [getD_append_left _ _ _ (by omega)]; exact a1
  · rw [getD_append_left _ _ _ (by omega)]; exact a2
  · rw [getD_append_left _ _ _ (by omega)]; exact a3
  · rw [getD_append_left _ _ _ (by omega)]; exact a4
  · rw [getD_append_left _ _ _ (by omega)]; exact a5
  · rw [getD_append_left _ _ _ (by omega)]; exact a6
  · rw [hr]; exact h6
  · rw [hr, List.length_append]; push_cast; omega

theorem shutdown_in_init (p : peer) (s : Sys) : (shutdown_in p s).1.init = p.init := by
  unfold shutdown_in
  simp only []
  split
  · split <;> rfl
  · rfl

theorem exited_shutdown_in (p : peer) (s : Sys) : (shutdown_in p s).2.exited = s.exited := by
  unfold shutdown_in
  simp only []
  split
  · split
    · rw [exited_shutdown_all]; split <;> rfl
    · split <;> rfl
  · rfl

/-- After the handshake `read_tor` leaves `init` cleared and the process running. -/
theorem read_tor_not_init (env : Env) (p : peer) (s : Sys) (h : p.init = false) :
    (read_tor env p s).1.init = false ∧ (read_tor env p s).2.exited = s.exited := by
  unfold read_tor sys_recv
  cases env.recv s.tick with
  | ok data =>
    simp only []
    split
    · split
      · exact ⟨h, rfl⟩
      · exact ⟨by rw [shutdown_in_init]; exact h, by rw [exited_shutdown_in]; rfl⟩
    · split
      · exact ⟨by rw [shutdown_in_init]; exact h, by rw [exited_shutdown_in]; rfl⟩
      · simp only [h]
        exact ⟨rfl, rfl⟩
  | err e =>
    simp only []
    split
    · split
      · exact ⟨h, rfl⟩
      · exact ⟨by rw [shutdown_in_init]; exact h, by rw [exited_shutdown_in]; rfl⟩
    · split
      · exact ⟨by rw [shutdown_in_init]; exact h, by rw [exited_shutdown_in]; rfl⟩
      · simp only [h]
        exact ⟨rfl, rfl⟩

/-- A read of a non-empty chunk that fits: `read_tor` appends it and calls
`init_tor` with its length. -/
theorem read_tor_chunk (env : Env) (c : List Byte) (p : peer) (s : Sys) (n : Nat)
    (hi : p.init = true) (hn : p.inlen = (n : Int)) (hc : c ≠ [])
    (hfit : n + c.length ≤ BufSize) :
    read_tor { env with recv := fun _ => .ok c } p s =
      init_tor { env with recv := fun _ => .ok c }
        { p with inbuf := store p.inbuf n c, inlen := ((n + c.length : Nat) : Int) }
        c.length s.next := by
  have hpos : 0 < c.length := List.length_pos.mpr hc
  have hsz : toSize ((BufSize : Int) - (n : Int)) = BufSize - n := by
    have : ((BufSize : Int) - (n : Int)) = ((BufSize - n : Nat) : Int) := by omega
    rw [this, toSize_of_nat]
    simp only [BufSize]
    omega
  have htake : c.take (BufSize - n) = c := List.take_of_length_le (by omega)
  unfold read_tor sys_recv
  simp only [hn, hsz, htake, Int.toNat_ofNat]
  rw [if_neg (by omega), if_neg (by omega)]
  simp only [hi, if_true]
  push_cast
  rfl

theorem store_agree (buf : Buf) (σ c : List Byte)
    (hag : ∀ i, i < σ.length → buf i = σ.getD i 0) :
    ∀ i, i < (σ ++ c).length → store buf σ.length c i = (σ ++ c).getD i 0 := by
  intro i hi
  rw [List.length_append] at hi
  unfold store
  by_cases h : i < σ.length
  · rw [dif_neg (by omega), hag i h, getD_append_left _ _ _ h]
  · have h2 : σ.length ≤ i ∧ i - σ.length < c.length := ⟨by omega, by omega⟩
    rw [dif_pos h2, getD_append_right _ _ _ h2.1]
    simp [List.getD_eq_getElem?_getD, List.getElem?_eq_getElem h2.2]

/-- One chunk: a waiting slot that reads a non-empty chunk is torn down, or
completes on a stream that allows it, or goes on waiting. -/
theorem feed_step (env : Env) (hc : clock_works env) (σ c : List Byte) (p : peer) (s : Sys)
    (hw : waiting σ p) (hx : s.exited = false) (hne : c ≠ [])
    (hfit : σ.length + c.length ≤ BufSize) :
    (read_tor { env with recv := fun _ => .ok c } p s).2.exited = false ∧
    upstream_inv (σ ++ c) (read_tor { env with recv := fun _ => .ok c } p s).1 := by
  obtain ⟨hi, ht, he, hl, hag, w01, w23, -⟩ := hw
  rw [read_tor_chunk env c p s σ.length hi hl hne hfit]
  have hag1 := store_agree p.inbuf σ c hag
  have hlen : (σ ++ c).length = σ.length + c.length := List.length_append _ _
  have hpos : 0 < c.length := List.length_pos.mpr hne
  obtain ⟨hx2, hdead | ⟨hres, chk2, chk4⟩⟩ := init_tor_outcome { env with recv := fun _ => .ok c }
    { p with inbuf := store p.inbuf σ.length c, inlen := ((σ.length + c.length : Nat) : Int) }
    c.length s.next hi (by show p.tor_s ≠ -1; omega) hx (fun t => hc t)
  · exact ⟨hx2, Or.inl hdead⟩
  · simp only at hres chk2 chk4
    have t01 : 2 ≤ (σ ++ c).length → (σ ++ c).getD 0 0 = 5 ∧ (σ ++ c).getD 1 0 = 2 := by
      intro h2
      by_cases hs : 2 ≤ σ.length
      · rw [getD_append_left _ _ _ (by omega), getD_append_left _ _ _ (by omega)]
        exact w01 hs
      · have := chk2 (by push_cast; omega) (by push_cast; omega)
        rw [← hag1 0 (by omega), ← hag1 1 (by omega)]
        exact this
    have t23 : 4 ≤ (σ ++ c).length → (σ ++ c).getD 2 0 = 1 ∧ (σ ++ c).getD 3 0 = 0 := by
      intro h4
      by_cases hs : 4 ≤ σ.length
      · rw [getD_append_left _ _ _ (by omega), getD_append_left _ _ _ (by omega)]
        exact w23 hs
      · have := chk4 (by push_cast; omega) (by push_cast; omega)
        rw [← hag1 2 (by omega), ← hag1 3 (by omega)]
        exact this
    refine ⟨hx2, ?_⟩
    rcases hres with ⟨heq, hlt⟩ | ⟨hinit, b4, b5, b6, h6, hfull⟩
    · right; right
      rw [heq]
      refine ⟨hi, ht, he, by simp only [hlen], hag1, t01, t23, ?_⟩
      rw [hlen]
      exact hlt
    · right; left
      refine ⟨hinit, ?_⟩
      have hfull2 : 4 + reslen (store p.inbuf σ.length c) ≤ ((σ ++ c).length : Int) := by
        rw [hlen]; exact hfull
      have hr := reslen_agree (store p.inbuf σ.length c) (σ ++ c) hag1 (Or.inl hfull2)
      have h10 : 10 ≤ (σ ++ c).length := by omega
      refine ⟨(t01 (by omega)).1, (t01 (by omega)).2, (t23 (by omega)).1, (t23 (by omega)).2,
        ?_, ?_, ?_, ?_, ?_⟩
      · rw [← hag1 4 (by omega)]; exact b4
      · rw [← hag1 5 (by omega)]; exact b5
      · rw [← hag1 6 (by omega)]; exact b6
      · rw [← hr]; exact h6
      · rw [← hr]; exact hfull2

/-- The invariant of feeding the upstream stream in chunks. -/
theorem feed_tor_inv (env : Env) (hc : clock_works env) (chunks : List (List Byte)) :
    ∀ (σ : List Byte) (p : peer) (s : Sys), s.exited = false → upstream_inv σ p →
      (∀ c ∈ chunks, c ≠ []) → σ.length + chunks.flatten.length ≤ BufSize →
      (feed_tor env chunks p s).2.exited = false ∧
      upstream_inv (σ ++ chunks.flatten) (feed_tor env chunks p s).1 := by
  induction chunks with
  | nil =>
    intro σ p s hx hinv _ _
    simp only [feed_tor, List.flatten_nil, List.append_nil]
    exact ⟨hx, hinv⟩
  | cons c cs ih =>
    intro σ p s hx hinv hne hfit
    have hcne : c ≠ [] := hne c (by simp)
    have hpos : 0 < c.length := List.length_pos.mpr hcne
    simp only [List.flatten_cons, List.length_append] at hfit
    have hassoc : σ ++ (c :: cs).flatten = (σ ++ c) ++ cs.flatten := by
      simp [List.flatten_cons]
    rw [hassoc]
    unfold feed_tor
    by_cases hg : s.exited = false ∧ p.tor_s ≥ 0 ∧ p.inlen < (BufSize : Int) ∧ p.inend = false
    · rw [if_pos hg]
      simp only []
      rcases hinv with ⟨⟨-, htor⟩, -⟩ | ⟨hinit, hcomp⟩ | hw
      · omega
      · obtain ⟨h1, h2⟩ := read_tor_not_init { env with recv := fun _ => .ok c } p s hinit
        exact ih (σ ++ c) _ _ (by rw [h2]; exact hx)
          (Or.inr (Or.inl ⟨h1, complete_stream_append σ c hcomp⟩))
          (fun d hd => hne d (by simp [hd])) (by rw [List.length_append]; omega)
      · obtain ⟨h1, h2⟩ := feed_step env hc σ c p s hw hx hcne (by omega)
        exact ih (σ ++ c) _ _ h1 h2 (fun d hd => hne d (by simp [hd]))
          (by rw [List.length_append]; omega)
    · rw [if_neg hg]
      refine ⟨hx, ?_⟩
      rcases hinv with hdead | ⟨hinit, hcomp⟩ | hw
      · exact Or.inl hdead
      · right; left
        rw [← hassoc]
        exact ⟨hinit, complete_stream_append _ _ hcomp⟩
      · exfalso
        obtain ⟨-, ht, he, hl, -⟩ := hw
        apply hg
        refine ⟨hx, ht, ?_, he⟩
        rw [hl]
        simp only [BufSize] at hfit ⊢
        omega

theorem getD_take (l : List Byte) (n i : Nat) (h : i < n) :
    (l.take n).getD i 0 = l.getD i 0 := by
  simp [List.getD_eq_getElem?_getD, List.getElem?_take_of_lt h]

/-- A stream on which the handshake can complete is `5 2`, `1 0`, a valid
CONNECT response, and whatever follows. -/
theorem complete_stream_split (σ : List Byte) (h : complete_stream σ) :
    ∃ C Q, σ = [5, 2, 1, 0] ++ C ++ Q ∧ valid_response C := by
  obtain ⟨a0, a1, a2, a3, a4, a5, a6, h6, hl⟩ := h
  have h10 : 10 ≤ σ.length := by omega
  obtain ⟨n, hn⟩ : ∃ n : Nat, reslen (bufOf σ) = (n : Int) :=
    ⟨(reslen (bufOf σ)).toNat, by omega⟩
  rw [hn] at h6 hl
  have hn6 : 6 ≤ n := by omega
  have hnl : 4 + n ≤ σ.length := by omega
  have htake : σ.take 4 = [5, 2, 1, 0] := by
    match σ, h10, a0, a1, a2, a3 with
    | x0 :: x1 :: x2 :: x3 :: rest, _, a0, a1, a2, a3 =>
      simp only [List.getD_cons_zero, List.getD_cons_succ] at a0 a1 a2 a3
      simp [a0, a1, a2, a3]
  refine ⟨(σ.drop 4).take n, σ.drop (4 + n), ?_, ?_⟩
  · have e1 : σ = σ.take 4 ++ σ.drop 4 := (List.take_append_drop 4 σ).symm
    have e2 : σ.drop 4 = (σ.drop 4).take n ++ (σ.drop 4).drop n :=
      (List.take_append_drop n _).symm
    have e3 : (σ.drop 4).drop n = σ.drop (4 + n) := by
      rw [List.drop_drop]
    calc σ = σ.take 4 ++ σ.drop 4 := e1
      _ = [5, 2, 1, 0] ++ ((σ.drop 4).take n ++ (σ.drop 4).drop n) := by rw [htake, ← e2]
      _ = [5, 2, 1, 0] ++ (σ.drop 4).take n ++ σ.drop (4 + n) := by
        rw [e3, List.append_assoc]
  · have g : ∀ i, i < n → ((σ.drop 4).take n).getD i 0 = σ.getD (4 + i) 0 := by
      intro i hi
      rw [getD_take _ _ _ hi]
      simp [List.getD_eq_getElem?_getD, List.getElem?_drop]
    have hlen : ((σ.drop 4).take n).length = n := by
      rw [List.length_take, List.length_drop]
      omega
    have b7 : bufOf σ 7 = σ.getD 7 0 := rfl
    have b8 : bufOf σ 8 = σ.getD 8 0 := rfl
    refine ⟨by rw [g 0 (by omega)]; exact a4, by rw [g 1 (by omega)]; exact a5,
      by rw [g 2 (by omega)]; exact a6, ?_⟩
    rw [g 3 (by omega), hlen]
    unfold reslen at hn
    rw [b7, b8] at hn
    by_cases c1 : σ.getD 7 0 = 1
    · rw [if_pos c1] at hn
      left
      exact ⟨c1, by omega⟩
    · rw [if_neg c1] at hn
      by_cases c4 : σ.getD 7 0 = 4
      · rw [if_pos c4] at hn
        right; left
        exact ⟨c4, by omega⟩
      · rw [if_neg c4] at hn
        by_cases c3 : σ.getD 7 0 = 3
        · rw [if_pos c3] at hn
          right; right
          have hn7 : 4 < n := by omega
          rw [g 4 hn7]
          have e8 : σ.getD (4 + 4) 0 = σ.getD 8 0 := rfl
          rw [e8]
          exact ⟨c3, by omega⟩
        · rw [if_neg c3] at hn
          omega

theorem complete_not_rejected (σ : List Byte) (h : complete_stream σ) : ¬ rejected_stream σ := by
  obtain ⟨a0, a1, a2, a3, a4, a5, a6, h6, hl⟩ := h
  rintro (⟨-, hb⟩ | ⟨-, hb⟩ | ⟨-, hb⟩)
  · rcases hb with hb | hb
    · exact hb a0
    · exact hb a1
  · rcases hb with hb | hb
    · exact hb a2
    · exact hb a3
  · rcases hb with hb | hb | hb | ⟨n1, n3, n4⟩
    · exact hb a4
    · exact hb a5
    · exact hb a6
    · have b7 : bufOf σ 7 = σ.getD 7 0 := rfl
      unfold reslen at h6
      rw [b7, if_neg n1, if_neg n4, if_neg n3] at h6
      omega

theorem waiting_not_rejected (σ : List Byte) (p : peer) (h : waiting σ p) :
    ¬ rejected_stream σ := by
  obtain ⟨-, -, -, -, hag, w01, w23, hlt⟩ := h
  rintro (⟨h2, hb⟩ | ⟨h4, hb⟩ | ⟨hfull, -⟩)
  · have := w01 h2
    rcases hb with hb | hb
    · exact hb this.1
    · exact hb this.2
  · have := w23 h4
    rcases hb with hb | hb
    · exact hb this.1
    · exact hb this.2
  · have := reslen_agree p.inbuf σ hag (Or.inr hfull)
    omega

/-- C8: validation of the upstream replies.  A handshaking slot with an
upstream socket and an empty `inbuf` is fed an upstream byte stream in any
non-empty chunks (`read_tor` after each).  If the handshake has completed
(`init` cleared) at the end, the stream is `5 2`, `1 0`, a CONNECT response
with header `5 0 0`, address type 1, 3 or 4 and the length that goes with
the type (10, byte 8 plus 7, 22), fully present, and whatever follows.  If
the method selection is not `5 2`, or the authentication response is not
`1 0`, or the fully present CONNECT response has another header or address
type, the slot is torn down, and `init` is set after every chunk. -/
theorem C8_upstream_reply_validation (env : Env) (p : peer) (s : Sys)
    (chunks : List (List Byte))
    (hc : clock_works env) (hx : s.exited = false)
    (hi : p.init = true) (ht : 0 ≤ p.tor_s) (hl : p.inlen = 0) (he : p.inend = false)
    (hne : ∀ c ∈ chunks, c ≠ []) (hfit : chunks.flatten.length ≤ BufSize) :
    ((feed_tor env chunks p s).1.init = false →
      ∃ C Q, chunks.flatten = [5, 2, 1, 0] ++ C ++ Q ∧ valid_response C) ∧
    (rejected_stream chunks.flatten →
      torn_down (feed_tor env chunks p s).1 ∧
      ∀ k, (feed_tor env (chunks.take k) p s).1.init = true) := by
  have hstart : upstream_inv [] p := by
    right; right
    have := reslen_ge p.inbuf
    refine ⟨hi, ht, he, by simpa using hl, fun i h => absurd h (by simp), fun h => absurd h (by simp),
      fun h => absurd h (by simp), ?_⟩
    simp only [List.length_nil]
    push_cast
    omega
  have hall := feed_tor_inv env hc chunks [] p s hx hstart hne (by simpa using hfit)
  simp only [List.nil_append] at hall
  constructor
  · intro hdone
    rcases hall.2 with ⟨-, h⟩ | ⟨-, h⟩ | ⟨h, -⟩
    · rw [h] at hdone; cases hdone
    · exact complete_stream_split _ h
    · rw [h] at hdone; cases hdone
  · intro hrej
    constructor
    · rcases hall.2 with h | ⟨-, h⟩ | h
      · exact h.1
      · exact absurd hrej (complete_not_rejected _ h)
      · exact absurd hrej (waiting_not_rejected _ _ h)
    · intro k
      have hsplit : chunks.flatten = (chunks.take k).flatten ++ (chunks.drop k).flatten := by
        rw [← List.flatten_append, List.take_append_drop]
      have hk := feed_tor_inv env hc (chunks.take k) [] p s hx hstart
        (fun c hcm => hne c (List.mem_of_mem_take hcm))
        (by
          have := congrArg List.length hsplit
          rw [List.length_append] at this
          simp only [List.length_nil]
          omega)
      simp only [List.nil_append] at hk
      rcases hk.2 with h | ⟨-, h⟩ | h
      · exact h.2
      · exfalso
        have := complete_stream_append _ (chunks.drop k).flatten h
        rw [← hsplit] at this
        exact complete_not_rejected _ this hrej
      · exact h.1

set_option maxRecDepth 20000 in
theorem C8_upstream_reply_validation_witness :
    torn_down (feed_tor (happy 0 7 []) [[5, 2], [1, 1]]
      (session (greeting [0] ++ connect_request (cstr "example.com") 0 80) []) Sys.start).1 ∧
    (feed_tor (happy 0 7 []) [[5, 2], [1, 1]]
      (session (greeting [0] ++ connect_request (cstr "example.com") 0 80) []) Sys.start).1.init =
        true ∧
    (feed_tor (happy 0 7 []) [[5, 2], [1, 0], [5, 0, 0, 1, 0, 0, 0], [0, 0, 0, 72]]
      (session (greeting [0] ++ connect_request (cstr "example.com") 0 80) []) Sys.start).1.init =
        false ∧
    (∃ C Q, ([[5, 2], [1, 0], [5, 0, 0, 1, 0, 0, 0], [0, 0, 0, 72]] : List (List Byte)).flatten =
      [5, 2, 1, 0] ++ C ++ Q ∧ valid_response C) :=
  have h := (C8_upstream_reply_validation (happy 0 7 []) (session (greeting [0] ++
      connect_request (cstr "example.com") 0 80) []) Sys.start [[5, 2], [1, 1]]
      (happy_clock_works 0 7 []) rfl (by decide) (by decide) (by decide) (by decide) (by decide)
      (by decide)).2 (Or.inr (Or.inl ⟨by decide, Or.inr (by decide)⟩))
  ⟨h.1, h.2 2, by decide,
   (C8_upstream_reply_validation (happy 0 7 []) (session (greeting [0] ++
      connect_request (cstr "example.com") 0 80) []) Sys.start
      [[5, 2], [1, 0], [5, 0, 0, 1, 0, 0, 0], [0, 0, 0, 72]]
      (happy_clock_works 0 7 []) rfl (by decide) (by decide) (by decide) (by decide) (by decide)
      (by decide)).1 (by decide)⟩

/-! ## C9: losing a direction during the handshake -/

/-- What `shutdown_in` does to a handshaking slot with an empty `inbuf`: it
tears the slot down. -/
theorem shutdown_in_handshaking (p : peer) (s : Sys) (hi : p.init = true) (h0 : p.inlen = 0) :
    torn_down (shutdown_in p s).1 := by
  unfold shutdown_in
  simp only [h0, hi, if_true, or_true]
  exact shutdown_all_torn_down _ _

set_option maxRecDepth 20000 in
/-- C9: evaluation of the read handlers on handshaking slots that lose a
direction.  A freshly accepted slot (client 4, no upstream, both buffers
empty) whose client closes, or whose client read fails for good, keeps its
client socket: `shutdown_out` sets `outend` and returns.  A handshaking slot
that holds the upstream answer `5 2` in `inbuf` and whose upstream closes
keeps both sockets: `shutdown_in` sets `inend` and returns. -/
theorem C9_loss_during_handshake_keeps_slot :
    (accepted free_slot 4).init = true ∧
    (read_client (happy 0 0 []) (accepted free_slot 4) Sys.start).1.client_s = 4 ∧
    (read_client (happy 0 0 []) (accepted free_slot 4) Sys.start).1.outend = true ∧
    (read_client (happy 0 0 []) (accepted free_slot 4) Sys.start).1.init = true ∧
    (read_client (happy 0 0 []) (accepted free_slot 4) Sys.start).2.log = [] ∧
    (read_client { happy 0 0 [] with recv := fun _ => .err .other } (accepted free_slot 4)
      Sys.start).1.client_s = 4 ∧
    (session (greeting [0] ++ connect_request (cstr "example.com") 0 80) [5, 2]).init = true ∧
    (read_tor (happy 0 0 []) (session (greeting [0] ++ connect_request (cstr "example.com") 0 80)
      [5, 2]) Sys.start).1.client_s = 4 ∧
    (read_tor (happy 0 0 []) (session (greeting [0] ++ connect_request (cstr "example.com") 0 80)
      [5, 2]) Sys.start).1.tor_s = 5 ∧
    (read_tor (happy 0 0 []) (session (greeting [0] ++ connect_request (cstr "example.com") 0 80)
      [5, 2]) Sys.start).1.inend = true := by
  decide

/-! ## C10: the writers during the handshake -/

set_option maxRecDepth 100000 in
set_option maxHeartbeats 4000000 in
/-- C10: evaluation of seven rounds of `main_loop` from the start of the
process, in which `write_tor` runs on a handshaking slot.  After six rounds
slot 0 holds a completed session (client 1, upstream 3) with both directions
at end of file and one byte left for the client, and slot 1 holds a freshly
accepted client 4 (`init` set, no upstream).  In the seventh round the
write set is `[1]`.  Serving slot 0 writes the last byte and tears the slot
down, which closes descriptors 1 and 3.  Serving slot 1 reads the first
bytes `GET` of client 4; `init_client` calls `init_tor`, `socket` returns
the lowest free descriptor, 1, and `5 1 2` is sent on it.  The guard of
`write_tor` then finds descriptor 1 in the write set that `select` filled
in before descriptor 1 was closed, so `write_tor` runs with `init` set: it
sends the bytes `GET` of `outbuf` on the upstream socket and empties
`outbuf`.  The whole script is consumed and no call fails. -/
theorem C10_write_tor_runs_while_handshaking :
    (before_last.peers.map fun p => (p.client_s, p.tor_s, p.init)) =
      [(1, 3, false), (4, -1, true)] ++ List.replicate 7 (-1, -1, false) ∧
    ((before_last.peers.getD 0 free_slot).inlen, (before_last.peers.getD 0 free_slot).outlen,
      (before_last.peers.getD 0 free_slot).inend, (before_last.peers.getD 0 free_slot).outend) =
      (1, 0, true, true) ∧
    read_interest 0 before_last.peers = [0, 4] ∧
    write_interest before_last.peers = [1] ∧
    reuse_env.select before_last.sys.tick = some (fun fd => decide (fd ∈ [4]), fun fd => decide (fd ∈ [1])) ∧
    torn_down served_first.1 ∧
    read_second.1.init = true ∧ read_second.1.client_s = 4 ∧ read_second.1.tor_s = 1 ∧
    read_second.1.outlen = 3 ∧
    tor_writable [1] read_second.1 = true ∧
    service_writes reuse_env [1] read_second.1 read_second.2 =
      write_tor reuse_env read_second.1 read_second.2 ∧
    (write_tor reuse_env read_second.1 read_second.2).1.init = true ∧
    (write_tor reuse_env read_second.1 read_second.2).1.outlen = 0 ∧
    (write_tor reuse_env read_second.1 read_second.2).2.log.take 2 =
      [.send 1 [0x47, 0x45, 0x54] (.ok 3), .send 1 [5, 1, 2] (.ok 3)] ∧
    ((main_loop reuse_env 0 before_last).peers.map fun p => (p.client_s, p.tor_s, p.init, p.outlen)) =
      [(-1, -1, false, 0), (4, 1, true, 0)] ++ List.replicate 7 (-1, -1, false, 0) ∧
    (main_loop reuse_env 0 before_last).sys.log.take 2 =
      [.send 1 [0x47, 0x45, 0x54] (.ok 3), .send 1 [5, 1, 2] (.ok 3)] ∧
    (main_loop reuse_env 0 before_last).sys.exited = false ∧
    (main_loop reuse_env 0 before_last).sys.tick = reuse_script.length := by
  refine ⟨by decide, by decide, by decide, by decide, ?_, by decide, by decide, by decide, by decide, by decide, by decide, ?_, by decide, by decide, by decide, by decide, by decide, by decide,
    by decide⟩
  · rfl
  · rfl

/-! ## C14: the install -/

theorem install_absent (c : Int) (hc : c < 0) (peers : List peer) :
    install c peers = (peers, c) := by
  induction peers with
  | nil => rfl
  | cons p ps ih =>
    unfold install
    rw [if_neg (by omega), ih]

theorem install_lowest_free (pre post : List peer) (p : peer) (fd : Int) (hfd : 0 ≤ fd)
    (hpre : ∀ q ∈ pre, 0 ≤ q.client_s) (hp : p.client_s < 0) :
    install fd (pre ++ p :: post) = (pre ++ accepted p fd :: post, -1) := by
  induction pre with
  | nil =>
    simp only [List.nil_append]
    unfold install
    rw [if_pos ⟨hfd, hp⟩, install_absent (-1) (by omega)]
  | cons q qs ih =>
    have hq : 0 ≤ q.client_s := hpre q (by simp)
    simp only [List.cons_append]
    unfold install
    rw [if_neg (by omega), ih (fun r hr => hpre r (by simp [hr]))]

/-- C14: the install.  When `accept` returns a valid descriptor `fd` and
the table is `pre ++ p :: post` with every slot of `pre` active and `p`
free, the accept step changes exactly the slot `p`, the lowest free one: it
becomes `client_s = fd`, no upstream socket, both lengths 0, both EOF flags
clear, `init` set (its buffers are left as they are), every other slot is
left as it was, and nothing is closed. -/
theorem C14_accept_installs_one_slot (env : Env) (s : Sys) (pre post : List peer) (p : peer)
    (fd : Int) (hacc : env.accept s.tick = fd) (hfd : 0 ≤ fd) (hmax : fd < MaxFD)
    (hpre : ∀ q ∈ pre, 0 ≤ q.client_s) (hp : p.client_s < 0) :
    (accept_step env (pre ++ p :: post) s).1 = pre ++ accepted p fd :: post ∧
    (accept_step env (pre ++ p :: post) s).2.log = .accept fd :: s.log ∧
    (accepted p fd).client_s = fd ∧ (accepted p fd).tor_s = -1 ∧
    (accepted p fd).inlen = 0 ∧ (accepted p fd).outlen = 0 ∧
    (accepted p fd).inend = false ∧ (accepted p fd).outend = false ∧
    (accepted p fd).init = true ∧
    (accepted p fd).inbuf = p.inbuf ∧ (accepted p fd).outbuf = p.outbuf := by
  have e : accept_step env (pre ++ p :: post) s =
      (pre ++ accepted p fd :: post, (s.emit (.accept fd)).next) := by
    unfold accept_step
    simp only [hacc]
    rw [if_neg (by omega), if_neg (by omega)]
    simp only []
    rw [install_lowest_free pre post p fd hfd hpre hp]
    simp
  rw [e]
  exact ⟨rfl, rfl, rfl, rfl, rfl, rfl, rfl, rfl, rfl, rfl, rfl⟩

theorem C14_accept_installs_one_slot_witness :
    (accept_step (happy 0 0 []) ([accepted free_slot 1] ++ free_slot :: [accepted free_slot 7])
      Sys.start).1 =
      [accepted free_slot 1] ++ accepted free_slot 4 :: [accepted free_slot 7] ∧
    (accept_step (happy 0 0 []) ([accepted free_slot 1] ++ free_slot :: [accepted free_slot 7])
      Sys.start).2.log = [.accept 4] :=
  have h := C14_accept_installs_one_slot (happy 0 0 []) Sys.start [accepted free_slot 1]
    [accepted free_slot 7] free_slot 4 rfl (by decide) (by decide) (by decide) (by decide)
  ⟨h.1, h.2.1⟩

/-! ## C16: the teardown condition after the handshake -/

/-- C16: the teardown condition after the handshake.  On a slot with `init`
clear, `shutdown_in` sets `inend`; it frees the slot (both sockets absent)
exactly when `inlen = 0`, `outlen = 0` and `outend` is set, and otherwise
changes nothing else.  `shutdown_out` sets `outend`; it frees the slot
exactly when `outlen = 0`, `inlen = 0` and `inend` is set, and otherwise
changes nothing else. -/
theorem C16_teardown_condition (p : peer) (s : Sys) (hi : p.init = false)
    (hact : p.client_s ≠ -1) :
    (p.inlen = 0 ∧ p.outlen = 0 ∧ p.outend = true →
      (shutdown_in p s).1 = { p with inend := true, client_s := -1, tor_s := -1 }) ∧
    (¬ (p.inlen = 0 ∧ p.outlen = 0 ∧ p.outend = true) →
      (shutdown_in p s).1 = { p with inend := true }) ∧
    (torn_down (shutdown_in p s).1 ↔ p.inlen = 0 ∧ p.outlen = 0 ∧ p.outend = true) ∧
    (p.outlen = 0 ∧ p.inlen = 0 ∧ p.inend = true →
      (shutdown_out p s).1 = { p with outend := true, client_s := -1, tor_s := -1 }) ∧
    (¬ (p.outlen = 0 ∧ p.inlen = 0 ∧ p.inend = true) →
      (shutdown_out p s).1 = { p with outend := true }) ∧
    (torn_down (shutdown_out p s).1 ↔ p.outlen = 0 ∧ p.inlen = 0 ∧ p.inend = true) := by
  have a1 : p.inlen = 0 ∧ p.outlen = 0 ∧ p.outend = true →
      (shutdown_in p s).1 = { p with inend := true, client_s := -1, tor_s := -1 } := by
    rintro ⟨h1, h2, h3⟩
    unfold shutdown_in
    simp only [h1, h2, h3, hi, if_true, and_self, true_or]
    rfl
  have a2 : ¬ (p.inlen = 0 ∧ p.outlen = 0 ∧ p.outend = true) →
      (shutdown_in p s).1 = { p with inend := true } := by
    intro h
    unfold shutdown_in
    simp only [hi]
    by_cases h1 : p.inlen = 0
    · have h2 : ¬ (p.outlen = 0 ∧ p.outend = true) := fun hh => h ⟨h1, hh⟩
      simp [h1, h2]
    · simp [h1]
  have b1 : p.outlen = 0 ∧ p.inlen = 0 ∧ p.inend = true →
      (shutdown_out p s).1 = { p with outend := true, client_s := -1, tor_s := -1 } := by
    rintro ⟨h1, h2, h3⟩
    unfold shutdown_out
    simp only [h1, h2, h3, if_true, and_self]
    rfl
  have b2 : ¬ (p.outlen = 0 ∧ p.inlen = 0 ∧ p.inend = true) →
      (shutdown_out p s).1 = { p with outend := true } := by
    intro h
    unfold shutdown_out
    by_cases h1 : p.outlen = 0
    · have h2 : ¬ (p.inlen = 0 ∧ p.inend = true) := fun hh => h ⟨h1, hh⟩
      simp [h1, h2]
    · simp [h1]
  refine ⟨a1, a2, ?_, b1, b2, ?_⟩
  · constructor
    · intro ht
      by_contra hc
      rw [a2 hc] at ht
      exact hact ht.1
    · intro hc
      rw [a1 hc]
      exact ⟨rfl, rfl⟩
  · constructor
    · intro ht
      by_contra hc
      rw [b2 hc] at ht
      exact hact ht.1
    · intro hc
      rw [b1 hc]
      exact ⟨rfl, rfl⟩

theorem C16_teardown_condition_witness :
    (torn_down (shutdown_in { session [] [] with init := false, outend := true } Sys.start).1 ↔
      ({ session [] [] with init := false, outend := true } : peer).inlen = 0 ∧
      ({ session [] [] with init := false, outend := true } : peer).outlen = 0 ∧
      ({ session [] [] with init := false, outend := true } : peer).outend = true) ∧
    (shutdown_in { session [] [0x58] with init := false, outend := true } Sys.start).1 =
      { ({ session [] [0x58] with init := false, outend := true } : peer) with inend := true } :=
  ⟨(C16_teardown_condition { session [] [] with init := false, outend := true } Sys.start rfl
      (by decide)).2.2.1,
   (C16_teardown_condition { session [] [0x58] with init := false, outend := true } Sys.start rfl
      (by decide)).2.1 (by decide)⟩

/-! ## C17: translation is idempotent -/

set_option maxRecDepth 20000 in
/-- C17: the table lookup is idempotent, and no replacement name of the
table is a key of the table. -/
theorem C17_translation_idempotent (d : List Byte) :
    translate (translate d) = translate d ∧
    ∀ x ∈ sorted_table, ∀ y ∈ sorted_table, x.newname ≠ y.name := by
  constructor
  · have hfix : translate default_address = default_address := by decide
    have key : translate d = d ∨ translate d = default_address := by
      unfold translate
      rw [search_sorted_table d]
      split_ifs <;> simp
    rcases key with h | h
    · rw [h, h]
    · rw [h, hfix]
  · decide

/-- The bytes `write_address` stores for a SOCKS5 client are the length of
the translated name, the translated name, and the port of the request. -/
theorem write_address_translate (p : peer) (d : List Byte) (ph pl : Byte)
    (h0 : p.outbuf 0 = 5)
    (hl : (p.outbuf ((p.outbuf 1).val + 6)).val = d.length)
    (hd : slice p.outbuf ((p.outbuf 1).val + 7) d.length = d)
    (hp : slice p.outbuf ((p.outbuf 1).val + 7 + d.length) 2 = [ph, pl]) :
    write_address p true =
      [Fin.ofNat (translate d).length] ++ translate d ++ [ph, pl] := by
  rw [write_address_of_search p d ph pl h0 hl hd hp]
  have htake : [Fin.ofNat default_address.length] ++
      default_address.take (Fin.ofNat default_address.length : Byte).val =
      [Fin.ofNat default_address.length] ++ default_address := by decide
  unfold translate
  rw [search_sorted_table d]
  split_ifs <;> rfl

/-! ## C19: the synthetic reply fits -/

/-- C19: the synthetic reply fits.  When the response check of `init_tor`
passes for a SOCKS5 client (the CONNECT response is fully present, its
header is `5 0 0` and its length is at least 6), the consumed bytes
`4 + reslen` are at least 10, the branch that warns `FATAL` is not taken
(nothing is logged and the slot keeps its sockets), the bytes behind the
response arrive intact behind the ten reply bytes, and the new `inlen`,
10 plus the residual, does not exceed the old one. -/
theorem C19_reply_fits (p : peer) (s : Sys)
    (h5 : p.outbuf 0 = 5)
    (hfull : 4 + reslen p.inbuf ≤ p.inlen)
    (hhdr : p.inbuf 4 = 5 ∧ p.inbuf 5 = 0 ∧ p.inbuf 6 = 0 ∧ 6 ≤ reslen p.inbuf)
    (hfit : p.inlen ≤ (BufSize : Int)) :
    10 ≤ 4 + reslen p.inbuf ∧
    (init_tor_response p s).2 = s ∧
    (init_tor_response p s).1.init = false ∧
    (init_tor_response p s).1.client_s = p.client_s ∧
    (init_tor_response p s).1.tor_s = p.tor_s ∧
    (init_tor_response p s).1.inlen = ((10 + residual p : Nat) : Int) ∧
    (init_tor_response p s).1.inlen ≤ p.inlen ∧
    bytes (init_tor_response p s).1.inbuf (10 + residual p) =
      reply ++ slice p.inbuf (4 + reslen p.inbuf).toNat (residual p) := by
  obtain ⟨b4, b5, b6, h6⟩ := hhdr
  obtain ⟨n, hn⟩ : ∃ n : Nat, p.inlen - (4 + reslen p.inbuf) = (n : Int) :=
    ⟨(p.inlen - (4 + reslen p.inbuf)).toNat, by omega⟩
  have hr : residual p = (p.inlen - (4 + reslen p.inbuf)).toNat := by
    unfold residual
    rw [hn, toSize_of_nat, Int.toNat_ofNat]
    simp only [BufSize] at hfit
    omega
  have e : init_tor_response p s =
      ({ p with init := false,
                inbuf := memmove (store p.inbuf 0 reply) 10 (4 + reslen p.inbuf).toNat (residual p),
                inlen := ((10 + residual p : Nat) : Int),
                outbuf := memmove p.outbuf 0
                  (((p.outbuf 1).val : Int) + ((p.outbuf ((p.outbuf 1).val + 6)).val : Int) + 9).toNat
                  (toSize (p.outlen -
                    (((p.outbuf 1).val : Int) + ((p.outbuf ((p.outbuf 1).val + 6)).val : Int) + 9))),
                outlen := p.outlen -
                  (((p.outbuf 1).val : Int) + ((p.outbuf ((p.outbuf 1).val + 6)).val : Int) + 9) },
        s) := by
    unfold init_tor_response
    simp only []
    rw [if_neg (by omega), if_neg (by simp [b4, b5, b6]; omega)]
    simp only [h5, if_true]
    rw [if_neg (by omega)]
    rfl
  rw [e]
  refine ⟨by omega, rfl, rfl, rfl, rfl, rfl, ?_, ?_⟩
  · show ((10 + residual p : Nat) : Int) ≤ p.inlen
    rw [hr]
    push_cast
    omega
  · show bytes (memmove (store p.inbuf 0 reply) 10 (4 + reslen p.inbuf).toNat (residual p))
      (10 + residual p) = _
    rw [bytes_splice _ _ _ (by omega)]

theorem C19_reply_fits_witness :
    (10 : Int) ≤ 4 + reslen c2_peer.inbuf ∧
    (init_tor_response c2_peer Sys.start).2 = Sys.start ∧
    (init_tor_response c2_peer Sys.start).1.inlen = ((10 + residual c2_peer : Nat) : Int) ∧
    (init_tor_response c2_peer Sys.start).1.inlen ≤ c2_peer.inlen :=
  have h := C19_reply_fits c2_peer Sys.start (by decide) (by decide) (by decide) (by decide)
  ⟨h.1, h.2.1, h.2.2.2.2.2.1, h.2.2.2.2.2.2.1⟩

/-! ## C15: the relay -/

theorem shutdown_in_frame (fd : Int) (p : peer) (s : Sys) :
    (shutdown_in p s).1.inbuf = p.inbuf ∧ (shutdown_in p s).1.inlen = p.inlen ∧
    (shutdown_in p s).1.outbuf = p.outbuf ∧ (shutdown_in p s).1.outlen = p.outlen ∧
    (shutdown_in p s).1.init = p.init ∧
    sent fd (shutdown_in p s).2.log = sent fd s.log ∧
    (((shutdown_in p s).1.client_s = p.client_s ∧ (shutdown_in p s).1.tor_s = p.tor_s) ∨
      torn_down (shutdown_in p s).1) := by
  unfold shutdown_in
  simp only []
  split
  · split
    · refine ⟨rfl, rfl, rfl, rfl, rfl, ?_, Or.inr ⟨rfl, rfl⟩⟩
      rw [sent_shutdown_all]
      split <;> rfl
    · refine ⟨rfl, rfl, rfl, rfl, rfl, ?_, Or.inl ⟨rfl, rfl⟩⟩
      split <;> rfl
  · exact ⟨rfl, rfl, rfl, rfl, rfl, rfl, Or.inl ⟨rfl, rfl⟩⟩

theorem shutdown_out_frame (fd : Int) (p : peer) (s : Sys) :
    (shutdown_out p s).1.inbuf = p.inbuf ∧ (shutdown_out p s).1.inlen = p.inlen ∧
    (shutdown_out p s).1.outbuf = p.outbuf ∧ (shutdown_out p s).1.outlen = p.outlen ∧
    (shutdown_out p s).1.init = p.init ∧
    sent fd (shutdown_out p s).2.log = sent fd s.log ∧
    (((shutdown_out p s).1.client_s = p.client_s ∧ (shutdown_out p s).1.tor_s = p.tor_s) ∨
      torn_down (shutdown_out p s).1) := by
  unfold shutdown_out
  simp only []
  split
  · split
    · refine ⟨rfl, rfl, rfl, rfl, rfl, ?_, Or.inr ⟨rfl, rfl⟩⟩
      rw [sent_shutdown_all]
      split <;> rfl
    · refine ⟨rfl, rfl, rfl, rfl, rfl, ?_, Or.inl ⟨rfl, rfl⟩⟩
      split <;> rfl
  · exact ⟨rfl, rfl, rfl, rfl, rfl, rfl, Or.inl ⟨rfl, rfl⟩⟩

theorem bytes_store_append (buf : Buf) (n : Nat) (c : List Byte) :
    bytes (store buf n c) (n + c.length) = bytes buf n ++ c := by
  rw [bytes_eq_slice, slice_add, bytes_eq_slice]
  congr 1
  · apply slice_ext
    intro i hi
    unfold store
    rw [dif_neg (by omega)]
  · apply List.ext_getElem
    · simp [slice_length]
    · intro i h1 h2
      simp only [slice, List.getElem_map, List.getElem_range, store]
      have hc : 0 + n ≤ 0 + n + i ∧ 0 + n + i - (0 + n) < c.length := ⟨by omega, by omega⟩
      rw [dif_pos (by omega)]
      simp

theorem bytes_take_memmove (buf : Buf) (len n : Nat) (h : n ≤ len) :
    bytes buf len = (bytes buf len).take n ++ bytes (memmove buf 0 n (len - n)) (len - n) := by
  rw [bytes_memmove_zero]
  have hl : len = n + (len - n) := by omega
  conv_lhs => rw [hl, bytes_eq_slice, slice_add]
  congr 1
  · rw [bytes_eq_slice]
    conv_rhs => rw [hl, slice_add]
    rw [List.take_left' (slice_length _ _ _)]
  · simp

theorem toSize_free (n : Nat) (h : n ≤ BufSize) :
    toSize ((BufSize : Int) - (n : Int)) = BufSize - n := by
  have : ((BufSize : Int) - (n : Int)) = ((BufSize - n : Nat) : Int) := by omega
  rw [this, toSize_of_nat]
  simp only [BufSize]
  omega

/-- A successful `read_tor` after the handshake appends the chunk. -/
theorem read_tor_relay (env : Env) (c : List Byte) (p : peer) (s : Sys) (n : Nat)
    (hi : p.init = false) (hn : p.inlen = (n : Int)) (hc : c ≠ [])
    (hfit : n + c.length ≤ BufSize) :
    read_tor { env with recv := fun _ => .ok c } p s =
      ({ p with inbuf := store p.inbuf n c, inlen := ((n + c.length : Nat) : Int) }, s.next) := by
  have hpos : 0 < c.length := List.length_pos.mpr hc
  have hsz := toSize_free n (by omega)
  have htake : c.take (BufSize - n) = c := List.take_of_length_le (by omega)
  unfold read_tor sys_recv
  simp only [hn, hsz, htake, Int.toNat_ofNat]
  rw [if_neg (by omega), if_neg (by omega)]
  simp only [hi]
  push_cast
  rfl

/-- A successful `read_client` after the handshake appends the chunk. -/
theorem read_client_relay (env : Env) (c : List Byte) (p : peer) (s : Sys) (n : Nat)
    (hi : p.init = false) (hn : p.outlen = (n : Int)) (hc : c ≠ [])
    (hfit : n + c.length ≤ BufSize) :
    read_client { env with recv := fun _ => .ok c } p s =
      ({ p with outbuf := store p.outbuf n c, outlen := ((n + c.length : Nat) : Int) },
        s.next) := by
  have hpos : 0 < c.length := List.length_pos.mpr hc
  have hsz := toSize_free n (by omega)
  have htake : c.take (BufSize - n) = c := List.take_of_length_le (by omega)
  unfold read_client sys_recv
  simp only [hn, hsz, htake, Int.toNat_ofNat]
  rw [if_neg (by omega), if_neg (by omega)]
  simp only [hi]
  push_cast
  rfl

/-- A `write_client` of which `k` bytes are accepted: the bytes the client
socket has accepted and the bytes kept are the bytes the buffer held, and
the sockets are kept unless the slot is torn down. -/
theorem write_client_relay (env : Env) (k : Nat) (p : peer) (s : Sys) (len : Nat)
    (hn : p.inlen = (len : Int)) (hk : k ≤ len) (hfit : len ≤ BufSize) :
    (write_client { env with send := fun _ => .ok k } p s).1.inlen = ((len - k : Nat) : Int) ∧
    (write_client { env with send := fun _ => .ok k } p s).1.init = p.init ∧
    sent p.client_s (write_client { env with send := fun _ => .ok k } p s).2.log ++
      bytes (write_client { env with send := fun _ => .ok k } p s).1.inbuf (len - k) =
      sent p.client_s s.log ++ bytes p.inbuf len ∧
    (((write_client { env with send := fun _ => .ok k } p s).1.client_s = p.client_s ∧
        (write_client { env with send := fun _ => .ok k } p s).1.tor_s = p.tor_s) ∨
      torn_down (write_client { env with send := fun _ => .ok k } p s).1) := by
  have hts : toSize (len : Int) = len := toSize_of_nat len (by simp only [BufSize] at hfit; omega)
  have hts2 : toSize ((len : Int) - (k : Int)) = len - k := by
    have : ((len : Int) - (k : Int)) = ((len - k : Nat) : Int) := by omega
    rw [this, toSize_of_nat]
    simp only [BufSize] at hfit
    omega
  unfold write_client
  by_cases h0 : p.inlen ≠ 0
  · rw [if_pos h0]
    simp only [sys_send, hn, hts, bytes_length, Nat.min_eq_left hk]
    rw [if_neg (by omega)]
    simp only [hts2]
    have hsplit := bytes_take_memmove p.inbuf len k hk
    have hcast : ((len : Int) - (k : Int)) = ((len - k : Nat) : Int) := by omega
    split
    · obtain ⟨f1, f2, -, -, f5, f6, f7⟩ := shutdown_in_frame p.client_s
        { p with inlen := (len : Int) - (k : Int), inbuf := memmove p.inbuf 0 k (len - k) }
        ((s.emit (.send p.client_s (bytes p.inbuf len) (.ok k))).next)
      rw [f1, f2, f5, f6]
      refine ⟨hcast, rfl, ?_, f7⟩
      simp only [Sys.emit, Sys.next, sent, if_true]
      rw [List.append_assoc, ← hsplit]
    · refine ⟨hcast, rfl, ?_, Or.inl ⟨rfl, rfl⟩⟩
      simp only [Sys.emit, Sys.next, sent, if_true]
      rw [List.append_assoc, ← hsplit]
  · rw [if_neg h0]
    have hz : len = 0 := by
      have : p.inlen = 0 := by simpa using h0
      omega
    subst hz
    have hk0 : k = 0 := by omega
    subst hk0
    split
    · obtain ⟨f1, f2, -, -, f5, f6, f7⟩ := shutdown_in_frame p.client_s p s
      rw [f1, f2, f5, f6]
      exact ⟨hn, rfl, rfl, f7⟩
    · exact ⟨hn, rfl, rfl, Or.inl ⟨rfl, rfl⟩⟩

/-- A `write_tor` of which `k` bytes are accepted: the bytes the upstream
socket has accepted and the bytes kept are the bytes the buffer held, and
the sockets are kept unless the slot is torn down. -/
theorem write_tor_relay (env : Env) (k : Nat) (p : peer) (s : Sys) (len : Nat)
    (hn : p.outlen = (len : Int)) (hk : k ≤ len) (hfit : len ≤ BufSize) :
    (write_tor { env with send := fun _ => .ok k } p s).1.outlen = ((len - k : Nat) : Int) ∧
    (write_tor { env with send := fun _ => .ok k } p s).1.init = p.init ∧
    sent p.tor_s (write_tor { env with send := fun _ => .ok k } p s).2.log ++
      bytes (write_tor { env with send := fun _ => .ok k } p s).1.outbuf (len - k) =
      sent p.tor_s s.log ++ bytes p.outbuf len ∧
    (((write_tor { env with send := fun _ => .ok k } p s).1.client_s = p.client_s ∧
        (write_tor { env with send := fun _ => .ok k } p s).1.tor_s = p.tor_s) ∨
      torn_down (write_tor { env with send := fun _ => .ok k } p s).1) := by
  have hts : toSize (len : Int) = len := toSize_of_nat len (by simp only [BufSize] at hfit; omega)
  have hts2 : toSize ((len : Int) - (k : Int)) = len - k := by
    have : ((len : Int) - (k : Int)) = ((len - k : Nat) : Int) := by omega
    rw [this, toSize_of_nat]
    simp only [BufSize] at hfit
    omega
  unfold write_tor
  by_cases h0 : p.outlen ≠ 0
  · rw [if_pos h0]
    simp only [sys_send, hn, hts, bytes_length, Nat.min_eq_left hk]
    rw [if_neg (by omega)]
    simp only [hts2]
    have hsplit := bytes_take_memmove p.outbuf len k hk
    have hcast : ((len : Int) - (k : Int)) = ((len - k : Nat) : Int) := by omega
    split
    · obtain ⟨-, -, f3, f4, f5, f6, f7⟩ := shutdown_out_frame p.tor_s
        { p with outlen := (len : Int) - (k : Int), outbuf := memmove p.outbuf 0 k (len - k) }
        ((s.emit (.send p.tor_s (bytes p.outbuf len) (.ok k))).next)
      rw [f3, f4, f5, f6]
      refine ⟨hcast, rfl, ?_, f7⟩
      simp only [Sys.emit, Sys.next, sent, if_true]
      rw [List.append_assoc, ← hsplit]
    · refine ⟨hcast, rfl, ?_, Or.inl ⟨rfl, rfl⟩⟩
      simp only [Sys.emit, Sys.next, sent, if_true]
      rw [List.append_assoc, ← hsplit]
  · rw [if_neg h0]
    have hz : len = 0 := by
      have : p.outlen = 0 := by simpa using h0
      omega
    subst hz
    have hk0 : k = 0 := by omega
    subst hk0
    split
    · obtain ⟨-, -, f3, f4, f5, f6, f7⟩ := shutdown_out_frame p.tor_s p s
      rw [f3, f4, f5, f6]
      exact ⟨hn, rfl, rfl, f7⟩
    · exact ⟨hn, rfl, rfl, Or.inl ⟨rfl, rfl⟩⟩

theorem relay_in_fifo (env : Env) (c : Int) (es : List Relay) :
    ∀ (p : peer) (s : Sys) (len : Nat), p.init = false → p.inlen = (len : Int) →
      len ≤ BufSize → relay_ok es (len : Int) → served_in env es p s →
      (p.client_s = c ∨ p.client_s < 0) →
      sent c (relay_in env es p s).2.log ++
        bytes (relay_in env es p s).1.inbuf (relay_in env es p s).1.inlen.toNat =
      sent c s.log ++ bytes p.inbuf len ++ received es := by
  induction es with
  | nil =>
    intro p s len _ hn _ _ _ _
    simp only [relay_in, received, List.append_nil, hn, Int.toNat_ofNat]
  | cons e es ih =>
    intro p s len hi hn hb hok hsv hc
    cases e with
    | read ch =>
      obtain ⟨hch, hfit, hrest⟩ := hok
      obtain ⟨-, hsv2⟩ := hsv
      have hfit2 : len + ch.length ≤ BufSize := by omega
      have hstep := read_tor_relay env ch p s len hi hn hch hfit2
      rw [hstep] at hsv2
      have h := ih { p with inbuf := store p.inbuf len ch, inlen := ((len + ch.length : Nat) : Int) }
        s.next (len + ch.length) hi rfl hfit2 (by push_cast; exact hrest) hsv2 hc
      simp only [relay_in, received, hstep]
      rw [h]
      simp only [Sys.next]
      rw [bytes_store_append, List.append_assoc, List.append_assoc, List.append_assoc]
    | write k =>
      obtain ⟨hk, hrest⟩ := hok
      obtain ⟨hcl, hsv2⟩ := hsv
      have hk2 : k ≤ len := by omega
      have hpc : p.client_s = c := by
        rcases hc with h | h
        · exact h
        · omega
      obtain ⟨w1, w2, w3, w4⟩ := write_client_relay env k p s len hn hk2 hb
      rw [hpc] at w3
      have hc2 : (write_client { env with send := fun _ => .ok k } p s).1.client_s = c ∨
          (write_client { env with send := fun _ => .ok k } p s).1.client_s < 0 := by
        rcases w4 with h | h
        · exact Or.inl (h.1.trans hpc)
        · right
          rw [h.1]
          decide
      have h := ih (write_client { env with send := fun _ => .ok k } p s).1
        (write_client { env with send := fun _ => .ok k } p s).2 (len - k)
        (by rw [w2]; exact hi) w1 (by omega) (by rw [Nat.cast_sub hk2]; exact hrest) hsv2 hc2
      simp only [relay_in, received]
      rw [h, w3]

theorem relay_out_fifo (env : Env) (t : Int) (es : List Relay) :
    ∀ (p : peer) (s : Sys) (len : Nat), p.init = false → p.outlen = (len : Int) →
      len ≤ BufSize → relay_ok es (len : Int) → served_out env es p s →
      (p.tor_s = t ∨ p.tor_s < 0) →
      sent t (relay_out env es p s).2.log ++
        bytes (relay_out env es p s).1.outbuf (relay_out env es p s).1.outlen.toNat =
      sent t s.log ++ bytes p.outbuf len ++ received es := by
  induction es with
  | nil =>
    intro p s len _ hn _ _ _ _
    simp only [relay_out, received, List.append_nil, hn, Int.toNat_ofNat]
  | cons e es ih =>
    intro p s len hi hn hb hok hsv hc
    cases e with
    | read ch =>
      obtain ⟨hch, hfit, hrest⟩ := hok
      obtain ⟨-, hsv2⟩ := hsv
      have hfit2 : len + ch.length ≤ BufSize := by omega
      have hstep := read_client_relay env ch p s len hi hn hch hfit2
      rw [hstep] at hsv2
      have h := ih { p with outbuf := store p.outbuf len ch,
                            outlen := ((len + ch.length : Nat) : Int) }
        s.next (len + ch.length) hi rfl hfit2 (by push_cast; exact hrest) hsv2 hc
      simp only [relay_out, received, hstep]
      rw [h]
      simp only [Sys.next]
      rw [bytes_store_append, List.append_assoc, List.append_assoc, List.append_assoc]
    | write k =>
      obtain ⟨hk, hrest⟩ := hok
      obtain ⟨hcl, hsv2⟩ := hsv
      have hk2 : k ≤ len := by omega
      have hpc : p.tor_s = t := by
        rcases hc with h | h
        · exact h
        · omega
      obtain ⟨w1, w2, w3, w4⟩ := write_tor_relay env k p s len hn hk2 hb
      rw [hpc] at w3
      have hc2 : (write_tor { env with send := fun _ => .ok k } p s).1.tor_s = t ∨
          (write_tor { env with send := fun _ => .ok k } p s).1.tor_s < 0 := by
        rcases w4 with h | h
        · exact Or.inl (h.2.trans hpc)
        · right
          rw [h.2]
          decide
      have h := ih (write_tor { env with send := fun _ => .ok k } p s).1
        (write_tor { env with send := fun _ => .ok k } p s).2 (len - k)
        (by rw [w2]; exact hi) w1 (by omega) (by rw [Nat.cast_sub hk2]; exact hrest) hsv2 hc2
      simp only [relay_out, received]
      rw [h, w3]

/-- C15: the relay is first-in first-out and lossless.  On a slot with
`init` clear, after any run of successful `read_tor` and `write_client`
calls made as the service loop makes them, the bytes the client socket has
accepted followed by the bytes `inbuf` holds are the bytes it had accepted
before followed by the bytes `inbuf` held at first and the bytes received
from the upstream; and the same for `read_client`, `write_tor`, `outbuf`
and the upstream socket. -/
theorem C15_relay_fifo (env : Env) (p : peer) (s : Sys) (es : List Relay)
    (hi : p.init = false) :
    (0 ≤ p.inlen → p.inlen ≤ (BufSize : Int) → relay_ok es p.inlen → served_in env es p s →
      sent p.client_s (relay_in env es p s).2.log ++
        bytes (relay_in env es p s).1.inbuf (relay_in env es p s).1.inlen.toNat =
      sent p.client_s s.log ++ bytes p.inbuf p.inlen.toNat ++ received es) ∧
    (0 ≤ p.outlen → p.outlen ≤ (BufSize : Int) → relay_ok es p.outlen → served_out env es p s →
      sent p.tor_s (relay_out env es p s).2.log ++
        bytes (relay_out env es p s).1.outbuf (relay_out env es p s).1.outlen.toNat =
      sent p.tor_s s.log ++ bytes p.outbuf p.outlen.toNat ++ received es) := by
  constructor
  · intro h0 hb hok hsv
    have hn : p.inlen = (p.inlen.toNat : Int) := by omega
    rw [hn] at hok
    exact relay_in_fifo env p.client_s es p s p.inlen.toNat hi hn (by omega) hok hsv
      (Or.inl rfl)
  · intro h0 hb hok hsv
    have hn : p.outlen = (p.outlen.toNat : Int) := by omega
    rw [hn] at hok
    exact relay_out_fifo env p.tor_s es p s p.outlen.toNat hi hn (by omega) hok hsv
      (Or.inl rfl)

set_option maxRecDepth 20000 in
theorem C15_relay_fifo_witness :
    (sent 4 (relay_in (happy 0 0 []) [.write 2, .read [9, 8], .write 1]
        { session [] [1, 2, 3] with init := false } Sys.start).2.log ++
      bytes (relay_in (happy 0 0 []) [.write 2, .read [9, 8], .write 1]
        { session [] [1, 2, 3] with init := false } Sys.start).1.inbuf
        (relay_in (happy 0 0 []) [.write 2, .read [9, 8], .write 1]
        { session [] [1, 2, 3] with init := false } Sys.start).1.inlen.toNat =
      sent 4 Sys.start.log ++
        bytes ({ session [] [1, 2, 3] with init := false } : peer).inbuf
          ({ session [] [1, 2, 3] with init := false } : peer).inlen.toNat ++
        received [.write 2, .read [9, 8], .write 1]) ∧
    sent 4 (relay_in (happy 0 0 []) [.write 2, .read [9, 8], .write 1]
        { session [] [1, 2, 3] with init := false } Sys.start).2.log = [1, 2, 3] ∧
    (sent 5 (relay_out (happy 0 0 []) [.read [7], .write 3, .write 1]
        { session [6, 5, 4] [] with init := false } Sys.start).2.log ++
      bytes (relay_out (happy 0 0 []) [.read [7], .write 3, .write 1]
        { session [6, 5, 4] [] with init := false } Sys.start).1.outbuf
        (relay_out (happy 0 0 []) [.read [7], .write 3, .write 1]
        { session [6, 5, 4] [] with init := false } Sys.start).1.outlen.toNat =
      sent 5 Sys.start.log ++
        bytes ({ session [6, 5, 4] [] with init := false } : peer).outbuf
          ({ session [6, 5, 4] [] with init := false } : peer).outlen.toNat ++
        received [.read [7], .write 3, .write 1]) ∧
    sent 5 (relay_out (happy 0 0 []) [.read [7], .write 3, .write 1]
        { session [6, 5, 4] [] with init := false } Sys.start).2.log = [6, 5, 4, 7] :=
  ⟨(C15_relay_fifo (happy 0 0 []) { session [] [1, 2, 3] with init := false } Sys.start
      [.write 2, .read [9, 8], .write 1] rfl).1 (by decide) (by decide)
      ⟨by decide, by decide, by decide, by decide, trivial⟩
      ⟨by decide, by decide, by decide, trivial⟩,
    by decide,
    (C15_relay_fifo (happy 0 0 []) { session [6, 5, 4] [] with init := false } Sys.start
      [.read [7], .write 3, .write 1] rfl).2 (by decide) (by decide)
      ⟨by decide, by decide, by decide, by decide, trivial⟩
      ⟨by decide, by decide, by decide, trivial⟩,
    by decide⟩

/-! ## C12: free slots -/

theorem kept_shutdown_in (p : peer) (s : Sys) : kept_or_freed p (shutdown_in p s).1 := by
  unfold shutdown_in
  simp only []
  split
  · split
    · exact Or.inr (shutdown_all_torn_down _ _)
    · exact Or.inl rfl
  · exact Or.inl rfl

theorem kept_shutdown_out (p : peer) (s : Sys) : kept_or_freed p (shutdown_out p s).1 := by
  unfold shutdown_out
  simp only []
  split
  · split
    · exact Or.inr (shutdown_all_torn_down _ _)
    · exact Or.inl rfl
  · exact Or.inl rfl

theorem kept_init_tor_response (p : peer) (s : Sys) :
    kept_or_freed p (init_tor_response p s).1 := by
  unfold init_tor_response
  simp only []
  split
  · exact Or.inl rfl
  · split
    · exact Or.inr (shutdown_all_torn_down _ _)
    · split
      · split
        · exact Or.inr (shutdown_all_torn_down _ _)
        · exact Or.inl rfl
      · exact Or.inl rfl

theorem kept_init_tor_auth (env : Env) (p : peer) (nread : Nat) (s : Sys) :
    kept_or_freed p (init_tor_auth env p nread s).1 := by
  unfold init_tor_auth
  simp only []
  split
  · exact Or.inl rfl
  · split
    · split
      · exact Or.inr (shutdown_all_torn_down _ _)
      · split
        · exact Or.inr (shutdown_all_torn_down _ _)
        · exact kept_init_tor_response _ _
    · exact kept_init_tor_response _ _

theorem kept_init_tor (env : Env) (p : peer) (nread : Nat) (s : Sys) :
    kept_or_freed p (init_tor env p nread s).1 := by
  unfold init_tor
  simp only []
  split
  · split
    · exact Or.inr (shutdown_all_torn_down _ _)
    · split
      · exact Or.inr (shutdown_all_torn_down _ _)
      · split
        · exact Or.inr (shutdown_all_torn_down _ _)
        · exact Or.inl rfl
  · split
    · exact Or.inl rfl
    · split
      · split
        · exact Or.inr (shutdown_all_torn_down _ _)
        · split
          · exact Or.inl rfl
          · split
            · exact Or.inr (shutdown_all_torn_down _ _)
            · exact kept_init_tor_auth _ _ _ _
      · exact kept_init_tor_auth _ _ _ _

theorem kept_init_client_request (env : Env) (p : peer) (nread : Nat) (s : Sys) :
    kept_or_freed p (init_client_request env p nread s).1 := by
  unfold init_client_request
  simp only []
  split
  · exact Or.inl rfl
  · split
    · split
      · exact Or.inr (shutdown_all_torn_down _ _)
      · exact kept_init_tor _ _ _ _
    · exact Or.inl rfl

theorem kept_init_client (env : Env) (p : peer) (nread : Nat) (s : Sys) :
    kept_or_freed p (init_client env p nread s).1 := by
  unfold init_client
  simp only []
  split
  · split
    · exact kept_init_tor _ _ _ _
    · exact Or.inl rfl
  · split
    · exact Or.inl rfl
    · split
      · split
        · exact Or.inr (shutdown_all_torn_down _ _)
        · split
          · exact Or.inr (shutdown_all_torn_down _ _)
          · exact kept_init_client_request _ _ _ _
      · exact kept_init_client_request _ _ _ _

theorem kept_read_client (env : Env) (p : peer) (s : Sys) :
    kept_or_freed p (read_client env p s).1 := by
  unfold read_client
  simp only []
  split
  · split
    · exact Or.inl rfl
    · exact kept_shutdown_out _ _
  · split
    · exact kept_shutdown_out _ _
    · split
      · exact kept_init_client _ _ _ _
      · exact Or.inl rfl

theorem kept_read_tor (env : Env) (p : peer) (s : Sys) :
    kept_or_freed p (read_tor env p s).1 := by
  unfold read_tor
  simp only []
  split
  · split
    · exact Or.inl rfl
    · exact kept_shutdown_in _ _
  · split
    · exact kept_shutdown_in _ _
    · split
      · exact kept_init_tor _ _ _ _
      · exact Or.inl rfl

theorem kept_write_client (env : Env) (p : peer) (s : Sys) :
    kept_or_freed p (write_client env p s).1 := by
  unfold write_client
  simp only []
  split
  · split
    · split
      · exact Or.inl rfl
      · exact kept_shutdown_in _ _
    · split
      · exact kept_shutdown_in _ _
      · exact Or.inl rfl
  · split
    · exact kept_shutdown_in _ _
    · exact Or.inl rfl

theorem kept_write_tor (env : Env) (p : peer) (s : Sys) :
    kept_or_freed p (write_tor env p s).1 := by
  unfold write_tor
  simp only []
  split
  · split
    · split
      · exact Or.inl rfl
      · exact kept_shutdown_out _ _
    · split
      · exact kept_shutdown_out _ _
      · exact Or.inl rfl
  · split
    · exact kept_shutdown_out _ _
    · exact Or.inl rfl

theorem slot_inv_of_kept (p r : peer) (hact : 0 ≤ p.client_s) (h : kept_or_freed p r) :
    slot_inv r := by
  rcases h with h | h
  · left; rw [h]; exact hact
  · right; exact h

theorem active_of_guard (p : peer) (h : slot_inv p) (hg : 0 ≤ p.client_s ∨ 0 ≤ p.tor_s) :
    0 ≤ p.client_s := by
  rcases h with h | ⟨h1, h2⟩
  · exact h
  · omega

theorem slot_inv_read_tor_step (env : Env) (rfds : List Int) (r : peer × Sys)
    (h1 : slot_inv r.1) :
    slot_inv (if r.2.exited = false ∧ tor_readable rfds r.1 = true
      then read_tor env r.1 r.2 else r).1 := by
  split
  · rename_i hg
    simp only [tor_readable, decide_eq_true_eq] at hg
    exact slot_inv_of_kept _ _ (active_of_guard _ h1 (Or.inr (by omega))) (kept_read_tor _ _ _)
  · exact h1

theorem slot_inv_write_tor_step (env : Env) (wfds : List Int) (r : peer × Sys)
    (h1 : slot_inv r.1) :
    slot_inv (if r.2.exited = false ∧ tor_writable wfds r.1 = true
      then write_tor env r.1 r.2 else r).1 := by
  split
  · rename_i hg
    simp only [tor_writable, decide_eq_true_eq] at hg
    exact slot_inv_of_kept _ _ (active_of_guard _ h1 (Or.inr (by omega))) (kept_write_tor _ _ _)
  · exact h1

theorem slot_inv_service_reads (env : Env) (rfds : List Int) (p : peer) (s : Sys)
    (h : slot_inv p) : slot_inv (service_reads env rfds p s).1 := by
  have h1 : slot_inv (if s.exited = false ∧ client_readable rfds p = true
      then read_client env p s else (p, s)).1 := by
    split
    · rename_i hg
      simp only [client_readable, decide_eq_true_eq] at hg
      exact slot_inv_of_kept _ _ (by omega) (kept_read_client env p s)
    · exact h
  exact slot_inv_read_tor_step env rfds _ h1

theorem slot_inv_service_writes (env : Env) (wfds : List Int) (p : peer) (s : Sys)
    (h : slot_inv p) : slot_inv (service_writes env wfds p s).1 := by
  have h1 : slot_inv (if s.exited = false ∧ client_writable wfds p = true
      then write_client env p s else (p, s)).1 := by
    split
    · rename_i hg
      simp only [client_writable, decide_eq_true_eq] at hg
      exact slot_inv_of_kept _ _ (by omega) (kept_write_client env p s)
    · exact h
  exact slot_inv_write_tor_step env wfds _ h1

theorem slot_inv_service_all (env : Env) (rfds wfds : List Int) (peers : List peer) :
    ∀ s, (∀ p ∈ peers, slot_inv p) →
      ∀ p ∈ (service_all env rfds wfds peers s).1, slot_inv p := by
  induction peers with
  | nil =>
    intro s _ p hp
    simp [service_all] at hp
  | cons q qs ih =>
    intro s h p hp
    simp only [service_all, List.mem_cons] at hp
    rcases hp with rfl | hp
    · unfold service
      exact slot_inv_service_writes _ _ _ _ (slot_inv_service_reads _ _ _ _ (h q (by simp)))
    · exact ih _ (fun r hr => h r (by simp [hr])) p hp

theorem slot_inv_install (peers : List peer) :
    ∀ c, (∀ p ∈ peers, slot_inv p) → ∀ p ∈ (install c peers).1, slot_inv p := by
  induction peers with
  | nil =>
    intro c _ p hp
    simp [install] at hp
  | cons q qs ih =>
    intro c h p hp
    unfold install at hp
    split at hp
    · rename_i hg
      simp only [List.mem_cons] at hp
      rcases hp with rfl | hp
      · left
        exact hg.1
      · exact ih _ (fun r hr => h r (by simp [hr])) p hp
    · simp only [List.mem_cons] at hp
      rcases hp with rfl | hp
      · exact h p (by simp)
      · exact ih _ (fun r hr => h r (by simp [hr])) p hp

theorem slot_inv_main_loop (env : Env) (listen_s : Int) (w : World)
    (h : ∀ p ∈ w.peers, slot_inv p) : ∀ p ∈ (main_loop env listen_s w).peers, slot_inv p := by
  unfold main_loop
  split
  · exact h
  · split
    · exact h
    · simp only []
      apply slot_inv_service_all
      split
      · unfold accept_step
        simp only []
        exact slot_inv_install _ _ h
      · exact h

theorem slot_inv_rounds (env : Env) (listen_s : Int) (n : Nat) :
    ∀ w, (∀ p ∈ w.peers, slot_inv p) → ∀ p ∈ (rounds env listen_s n w).peers, slot_inv p := by
  induction n with
  | zero => intro w h; exact h
  | succ n ih =>
    intro w h
    unfold rounds
    exact ih _ (slot_inv_main_loop env listen_s w h)

/-- C12, as the code has it: free slots.  In every world reached from the
start by rounds of `main_loop`, a slot whose client socket is absent has no
upstream socket either.  `shutdown_all` changes only the two sockets: the
EOF flags, `init` and both lengths of a freed slot stay as they were at the
teardown.  They are all clear in the table `main` starts with, and the
install of an accepted client resets every one of them. -/
theorem C12_free_slots (env : Env) (listen_s : Int) (n : Nat) (p : peer) (s : Sys) (fd : Int) :
    (∀ q ∈ (rounds env listen_s n World.start).peers, q.client_s < 0 →
      q.client_s = -1 ∧ q.tor_s = -1) ∧
    (shutdown_all p s).1 = { p with client_s := -1, tor_s := -1 } ∧
    (∀ q ∈ World.start.peers, q.client_s = -1 ∧ q.tor_s = -1 ∧ q.inend = false ∧
      q.outend = false ∧ q.init = false ∧ q.inlen = 0 ∧ q.outlen = 0) ∧
    ((accepted p fd).inend = false ∧ (accepted p fd).outend = false ∧
      (accepted p fd).init = true ∧ (accepted p fd).inlen = 0 ∧ (accepted p fd).outlen = 0 ∧
      (accepted p fd).tor_s = -1) := by
  refine ⟨?_, rfl, ?_, ⟨rfl, rfl, rfl, rfl, rfl, rfl⟩⟩
  · intro q hq hfree
    have hstart : ∀ r ∈ World.start.peers, slot_inv r := by
      intro r hr
      simp only [World.start, List.mem_replicate] at hr
      rw [hr.2]
      exact Or.inr ⟨rfl, rfl⟩
    rcases slot_inv_rounds env listen_s n World.start hstart q hq with h | h
    · omega
    · exact h
  · intro q hq
    simp only [World.start, List.mem_replicate] at hq
    rw [hq.2]
    exact ⟨rfl, rfl, rfl, rfl, rfl, rfl, rfl⟩

set_option maxRecDepth 100000 in
/-- C12, a freed slot: evaluation of the two rounds of `bad_auth_script`.
The client in slot 0 offers only method 2, `init_client` warns `bad auth`
and calls `shutdown_all`.  The slot is free afterwards, and it still has
`init` set and `outlen = 3`. -/
theorem C12_freed_slot_keeps_flags :
    ((rounds (scripted bad_auth_script) 0 1 World.start).peers.map fun p =>
      (p.client_s, p.init)).head? = some (1, true) ∧
    ((rounds (scripted bad_auth_script) 0 2 World.start).peers.map fun p =>
      (p.client_s, p.tor_s, p.init, p.outlen, p.inlen)).head? = some (-1, -1, true, 3, 0) ∧
    (rounds (scripted bad_auth_script) 0 2 World.start).sys.log =
      [.close 1, .shutdown 1 .SHUT_RDWR, .warn "bad auth", .accept 1] ∧
    (shutdown_all (session [5, 1, 2] []) Sys.start).1.init = true ∧
    (shutdown_all (session [5, 1, 2] []) Sys.start).1.outlen = 3 := by
  decide

/-! ## C13: a full table -/

theorem install_with_free_slot (peers : List peer) (h : ∃ p ∈ peers, p.client_s < 0) (c : Int) :
    (install c peers).2 < 0 := by
  induction peers generalizing c with
  | nil =>
    obtain ⟨p, hp, -⟩ := h
    cases hp
  | cons q qs ih =>
    unfold install
    by_cases hc : c ≥ 0 ∧ q.client_s < 0
    · rw [if_pos hc]
      simp only []
      rw [install_absent (-1) (by omega)]
      omega
    · rw [if_neg hc]
      simp only []
      by_cases hneg : c < 0
      · rw [install_absent c hneg]
        exact hneg
      · have hq : ¬ q.client_s < 0 := fun hq => hc ⟨by omega, hq⟩
        apply ih
        obtain ⟨p, hp, hfree⟩ := h
        rcases List.mem_cons.mp hp with rfl | hp
        · exact absurd hfree hq
        · exact ⟨p, hp, hfree⟩

/-- C13, as the code has it: a full table.  When every slot is active (and
the listener is no descriptor of a slot), `main_loop` leaves the listener
out of the read set, so whatever `select` reports the round does not call
`accept`: it only serves the existing slots, and a further client waits in
the backlog of the listener.  And whenever some slot is free the install
loop ends with `client` negative, so the branch that warns `no free slot`
and closes the accepted socket is not taken. -/
theorem C13_full_table (env : Env) (listen_s : Int) (w : World)
    (hfull : ∀ p ∈ w.peers, 0 ≤ p.client_s)
    (hdist : ∀ p ∈ w.peers, p.client_s ≠ listen_s ∧ p.tor_s ≠ listen_s) :
    listen_s ∉ read_interest listen_s w.peers ∧
    (∀ ready, w.sys.exited = false → env.select w.sys.tick = some ready →
      main_loop env listen_s w =
        { peers := (service_all env ((read_interest listen_s w.peers).filter ready.1)
            ((write_interest w.peers).filter ready.2) w.peers w.sys.next).1,
          sys := (service_all env ((read_interest listen_s w.peers).filter ready.1)
            ((write_interest w.peers).filter ready.2) w.peers w.sys.next).2 }) ∧
    (∀ (peers : List peer) (c : Int), (∃ p ∈ peers, p.client_s < 0) →
      (install c peers).2 < 0) := by
  have h1 : listen_s ∉ read_interest listen_s w.peers := by
    unfold read_interest
    have hany : (w.peers.any fun p => decide (p.client_s < 0)) = false := by
      rw [Bool.eq_false_iff]
      intro h
      rw [List.any_eq_true] at h
      obtain ⟨p, hp, hlt⟩ := h
      have := hfull p hp
      simp only [decide_eq_true_eq] at hlt
      omega
    rw [hany]
    simp only [Bool.false_eq_true, if_false, List.nil_append, List.mem_flatMap, List.mem_append,
      not_exists, not_and, not_or]
    intro p hp
    obtain ⟨d1, d2⟩ := hdist p hp
    constructor
    · split
      · simp only [List.mem_singleton]
        exact fun h => d1 h.symm
      · simp
    · split
      · simp only [List.mem_singleton]
        exact fun h => d2 h.symm
      · simp
  refine ⟨h1, ?_, fun peers c h => install_with_free_slot peers h c⟩
  intro ready hx hsel
  unfold main_loop
  rw [if_neg (by rw [hx]; simp)]
  simp only [hsel]
  rw [if_neg (fun h => h1 (List.mem_of_mem_filter h))]

set_option maxRecDepth 100000 in
set_option maxHeartbeats 4000000 in
/-- C13, a tenth client: evaluation of the tenth round of `full_script`.
After nine rounds all nine slots are active and the read set that
`main_loop` computes does not hold the listener.  In the tenth round
`select` is told that the listener is ready and `accept` would return 11,
but the round does not call `accept`: the log still ends with the ninth
accept, nothing is closed, and only the answer of `select` is consumed. -/
theorem C13_tenth_client_is_not_accepted :
    (full_world.peers.map fun p => p.client_s) = [1, 3, 4, 5, 6, 7, 8, 9, 10] ∧
    read_interest 0 full_world.peers = [1, 3, 4, 5, 6, 7, 8, 9, 10] ∧
    full_world.sys.tick = 18 ∧
    full_world.sys.log.head? = some (.accept 10) ∧
    (scripted full_script).accept 19 = 11 ∧
    (main_loop (scripted full_script) 0 full_world).sys.log = full_world.sys.log ∧
    (main_loop (scripted full_script) 0 full_world).sys.tick = 19 ∧
    ((main_loop (scripted full_script) 0 full_world).peers.map fun p => p.client_s) =
      [1, 3, 4, 5, 6, 7, 8, 9, 10] := by
  decide

set_option maxRecDepth 100000 in
set_option maxHeartbeats 4000000 in
theorem C13_full_table_witness :
    (0 : Int) ∉ read_interest 0 full_world.peers ∧
    main_loop (scripted full_script) 0 full_world =
      { peers := (service_all (scripted full_script)
            ((read_interest 0 full_world.peers).filter fun fd => decide (fd ∈ [0]))
            ((write_interest full_world.peers).filter fun fd => decide (fd ∈ []))
            full_world.peers full_world.sys.next).1,
        sys := (service_all (scripted full_script)
            ((read_interest 0 full_world.peers).filter fun fd => decide (fd ∈ [0]))
            ((write_interest full_world.peers).filter fun fd => decide (fd ∈ []))
            full_world.peers full_world.sys.next).2 } :=
  have h := C13_full_table (scripted full_script) 0 full_world (by decide) (by decide)
  ⟨h.1, h.2.1 (fun fd => decide (fd ∈ [0]), fun fd => decide (fd ∈ [])) (by decide) rfl⟩

/-! ## C11: the lengths -/

set_option maxRecDepth 100000 in
set_option maxHeartbeats 4000000 in
/-- C11: evaluation of eleven rounds of `main_loop` from the start of the
process, after which `outlen` of slot 1 is negative.  The first seven rounds
are those of `reuse_script`: slot 1 (client 4, upstream 1) is handshaking in
raw mode and `write_tor` has emptied its `outbuf` although `init` is set.
In round 8 the client sends the byte 5, which is stored at `outbuf[0]`;
`init_client` reads `nauth = outbuf[1] = 0x45`, a byte left from `GET`, and
returns.  In rounds 9 to 11 the upstream answers `5 2`, `1 0` and a valid
ten-byte response.  Every slot satisfies `lengths_ok` after each of the
first ten rounds.  On completion `init_tor` finds `outbuf[0] = 5` and
subtracts `nauth + outbuf[nauth + 6] + 9 = 69 + 0 + 9` from `outlen = 1`:
the slot is left with `init` cleared, `inlen = 10` and `outlen = -77`.  The
whole script is consumed and no call fails. -/
theorem C11_out_len_goes_negative :
    ((underflow_world 7).peers.map fun p => (p.client_s, p.tor_s, p.init, p.inlen, p.outlen)) =
      [(-1, -1, false, 0, 0), (4, 1, true, 0, 0)] ++ List.replicate 7 (-1, -1, false, 0, 0) ∧
    ((underflow_world 8).peers.map fun p => (p.client_s, p.tor_s, p.init, p.inlen, p.outlen)) =
      [(-1, -1, false, 0, 0), (4, 1, true, 0, 1)] ++ List.replicate 7 (-1, -1, false, 0, 0) ∧
    ((underflow_world 10).peers.map fun p => (p.client_s, p.tor_s, p.init, p.inlen, p.outlen)) =
      [(-1, -1, false, 0, 0), (4, 1, true, 4, 1)] ++ List.replicate 7 (-1, -1, false, 0, 0) ∧
    ((underflow_world 11).peers.map fun p => (p.client_s, p.tor_s, p.init, p.inlen, p.outlen)) =
      [(-1, -1, false, 0, 0), (4, 1, false, 10, -77)] ++ List.replicate 7 (-1, -1, false, 0, 0) ∧
    (underflow_world 11).sys.exited = false ∧
    (underflow_world 11).sys.tick = underflow_script.length ∧
    (underflow_world 11).sys.log.take 4 =
      [.send 1 [5, 1, 0, 3, 0, 0, 0] (.ok 7),
       .send 1 [1, 4, 106, 97, 97, 97, 4, 97, 97, 97, 97] (.ok 11),
       .send 1 [0x47, 0x45, 0x54] (.ok 3), .send 1 [5, 1, 2] (.ok 3)] ∧
    (∀ n ∈ List.range 11, ∀ p ∈ (underflow_world n).peers, lengths_ok p) ∧
    ¬ lengths_ok ((underflow_world 11).peers.getD 1 free_slot) ∧
    bytes ((underflow_world 10).peers.getD 1 free_slot).outbuf 3 = [5, 0x45, 0x54] ∧
    ((underflow_world 10).peers.getD 1 free_slot).outbuf 75 = 0 ∧
    bytes ((underflow_world 10).peers.getD 1 free_slot).inbuf 4 = [5, 2, 1, 0] := by
  refine ⟨by decide, by decide, by decide, by decide, by decide, by decide, by decide, by decide, by decide, by decide, by decide, by decide⟩

/-! ## C20: stale buffer bytes -/

theorem bytes_eq_iff (a b : Buf) (n : Nat) :
    bytes a n = bytes b n ↔ ∀ i, i < n → a i = b i := by
  unfold bytes
  rw [List.map_inj_left]
  constructor
  · intro h i hi
    exact h i (List.mem_range.mpr hi)
  · intro h i hi
    exact h i (List.mem_range.mp hi)

theorem agree_intro (p q : peer) (h1 : p.client_s = q.client_s) (h2 : p.tor_s = q.tor_s)
    (h3 : p.inlen = q.inlen) (h4 : p.outlen = q.outlen) (h5 : p.inend = q.inend)
    (h6 : p.outend = q.outend) (h7 : p.init = q.init)
    (ha : ∀ i : Nat, (i : Int) < p.inlen → p.inbuf i = q.inbuf i)
    (hb : ∀ i : Nat, (i : Int) < p.outlen → p.outbuf i = q.outbuf i) : agree p q := by
  refine ⟨h1, h2, h3, h4, h5, h6, h7, ?_, ?_⟩
  · rw [← h3, bytes_eq_iff]
    intro i hi
    exact ha i (by omega)
  · rw [← h4, bytes_eq_iff]
    intro i hi
    exact hb i (by omega)

theorem agree_elim (p q : peer) (h : agree p q) :
    q = { p with inbuf := q.inbuf, outbuf := q.outbuf } ∧
    (∀ i : Nat, (i : Int) < p.inlen → p.inbuf i = q.inbuf i) ∧
    (∀ i : Nat, (i : Int) < p.outlen → p.outbuf i = q.outbuf i) := by
  obtain ⟨h1, h2, h3, h4, h5, h6, h7, ha, hb⟩ := h
  refine ⟨?_, ?_, ?_⟩
  · cases p
    cases q
    simp only at h1 h2 h3 h4 h5 h6 h7
    simp [h1, h2, h3, h4, h5, h6, h7]
  · rw [← h3, bytes_eq_iff] at ha
    intro i hi
    exact ha i (by omega)
  · rw [← h4, bytes_eq_iff] at hb
    intro i hi
    exact hb i (by omega)

theorem same_refl_sys (p q : peer) (s : Sys) (h : agree p q) : same (p, s) (q, s) := ⟨rfl, h⟩

theorem same_shutdown_all (p q : peer) (s : Sys) (h : agree p q) :
    same (shutdown_all p s) (shutdown_all q s) := by
  obtain ⟨hq, ha, hb⟩ := agree_elim p q h
  rw [hq]
  refine ⟨rfl, ?_⟩
  apply agree_intro <;> first | rfl | (intro i hi; simp [shutdown_all] at hi ⊢; first | exact ha i hi | exact hb i hi)

theorem toSize_le (x : Int) (h : 0 ≤ x) : (toSize x : Int) ≤ x := by
  unfold toSize
  have e : (2 : Int) ^ 64 = 18446744073709551616 := by norm_num
  rw [e]
  omega

theorem reslen_domain (a : Buf) (h : a 7 = 3) : reslen a = ((a 8).val : Int) + 7 := by
  unfold reslen
  rw [if_neg (by rw [h]; decide), if_neg (by rw [h]; decide), if_pos h]

theorem reslen_stale (a b : Buf) (n : Int) (h : ∀ i : Nat, (i : Int) < n → a i = b i) :
    (n < 4 + reslen a ∧ n < 4 + reslen b) ∨ (reslen a = reslen b ∧ 4 + reslen a ≤ n) := by
  have ga := reslen_ge a
  have gb := reslen_ge b
  by_cases h8 : n < 8
  · left; omega
  · have e7 : a 7 = b 7 := h 7 (by omega)
    by_cases h3 : a 7 = 3 ∧ n < 9
    · left
      have r1 := reslen_domain a h3.1
      have r2 := reslen_domain b (e7 ▸ h3.1)
      omega
    · have hr : reslen a = reslen b :=
        reslen_congr a b e7 (fun h7 => h 8 (by
          have : ¬ n < 9 := fun hn => h3 ⟨h7, hn⟩
          omega))
      by_cases hle : 4 + reslen a ≤ n
      · right; exact ⟨hr, hle⟩
      · left; omega

theorem memmove_congr (a b : Buf) (dst src n i : Nat)
    (h1 : dst ≤ i ∧ i < dst + n → a (i - dst + src) = b (i - dst + src))
    (h2 : ¬ (dst ≤ i ∧ i < dst + n) → a i = b i) :
    memmove a dst src n i = memmove b dst src n i := by
  unfold memmove
  split
  · rename_i h
    exact h1 h
  · rename_i h
    exact h2 h

theorem store_congr (a b : Buf) (off : Nat) (data : List Byte) (i : Nat)
    (h : ¬ (off ≤ i ∧ i - off < data.length) → a i = b i) :
    store a off data i = store b off data i := by
  unfold store
  split
  · rfl
  · rename_i hc
    exact h hc

theorem same_init_tor_response (p : peer) (a b : Buf) (s : Sys)
    (ha : ∀ i : Nat, (i : Int) < p.inlen → p.inbuf i = a i)
    (hb : ∀ i : Nat, (i : Int) < p.outlen → p.outbuf i = b i) (ho : out_ok p) :
    same (init_tor_response p s) (init_tor_response { p with inbuf := a, outbuf := b } s) := by
  rcases reslen_stale p.inbuf a p.inlen ha with ⟨h1, h2⟩ | ⟨hr, hle⟩
  · have e1 : init_tor_response p s = (p, s) := by
      unfold init_tor_response
      simp only []
      rw [if_pos h1]
    have e2 : init_tor_response { p with inbuf := a, outbuf := b } s =
        ({ p with inbuf := a, outbuf := b }, s) := by
      unfold init_tor_response
      simp only []
      rw [if_pos h2]
    rw [e1, e2]
    exact ⟨rfl, agree_intro _ _ rfl rfl rfl rfl rfl rfl rfl ha hb⟩
  · have g := reslen_ge p.inbuf
    have e4 : a 4 = p.inbuf 4 := (ha 4 (by omega)).symm
    have e5 : a 5 = p.inbuf 5 := (ha 5 (by omega)).symm
    have e6 : a 6 = p.inbuf 6 := (ha 6 (by omega)).symm
    have o0 : b 0 = p.outbuf 0 := (hb 0 (by have := ho.1; omega)).symm
    unfold init_tor_response
    simp only [← hr, e4, e5, e6, o0]
    have hg1 : ¬ p.inlen < 4 + reslen p.inbuf := by omega
    simp only [if_neg hg1]
    by_cases hg2 : p.inbuf 4 ≠ 5 ∨ p.inbuf 5 ≠ 0 ∨ p.inbuf 6 ≠ 0 ∨ reslen p.inbuf < 6
    · simp only [if_pos hg2]
      exact same_shutdown_all _ _ _ (agree_intro _ _ rfl rfl rfl rfl rfl rfl rfl ha hb)
    · simp only [if_neg hg2]
      have h6 : 6 ≤ reslen p.inbuf := by
        by_contra hc
        exact hg2 (Or.inr (Or.inr (Or.inr (by omega))))
      have hres : (toSize (p.inlen - (4 + reslen p.inbuf)) : Int) ≤ p.inlen - (4 + reslen p.inbuf) :=
        toSize_le _ (by omega)
      by_cases h5 : p.outbuf 0 = 5
      · simp only [if_pos h5]
        have hlen := ho.2 h5
        have o1 : b 1 = p.outbuf 1 := (hb 1 (by omega)).symm
        have oL : b ((p.outbuf 1).val + 6) = p.outbuf ((p.outbuf 1).val + 6) :=
          (hb _ (by push_cast; omega)).symm
        simp only [o1, oL]
        by_cases h10 : 4 + reslen p.inbuf < 10
        · simp only [if_pos h10]
          apply same_shutdown_all
          refine agree_intro _ _ rfl rfl rfl rfl rfl rfl rfl ?_ ?_
          · intro i hi
            simp only [store]
            split
            · rfl
            · exact ha i hi
          · exact hb
        · simp only [if_neg h10]
          refine ⟨rfl, ?_⟩
          refine agree_intro _ _ rfl rfl rfl rfl rfl rfl rfl ?_ ?_
          · intro i hi
            simp only [] at hi ⊢
            apply memmove_congr
            · intro hc
              apply store_congr
              intro _
              exact ha _ (by push_cast at hi ⊢; omega)
            · intro hc
              apply store_congr
              intro hs
              exfalso
              apply hs
              have : reply.length = 10 := rfl
              push_cast at hi
              omega
          · intro i hi
            simp only [] at hi ⊢
            apply memmove_congr
            · intro hc
              exact hb _ (by push_cast at hi ⊢; omega)
            · intro hc
              exact hb _ (by omega)
      · simp only [if_neg h5]
        refine ⟨rfl, ?_⟩
        refine agree_intro _ _ rfl rfl rfl rfl rfl rfl rfl ?_ ?_
        · intro i hi
          simp only [] at hi ⊢
          apply memmove_congr
          · intro hc
            exact ha _ (by push_cast at hi ⊢; omega)
          · intro hc
            exfalso
            apply hc
            omega
        · exact hb

theorem same_ite (c : Prop) [Decidable c] (x y x2 y2 : peer × Sys)
    (h1 : c → same x x2) (h2 : ¬ c → same y y2) :
    same (if c then x else y) (if c then x2 else y2) := by
  split
  · rename_i h
    exact h1 h
  · rename_i h
    exact h2 h

theorem write_address_stale (p : peer) (a b : Buf) (tran : Bool)
    (hb : ∀ i : Nat, (i : Int) < p.outlen → p.outbuf i = b i) (ho : out_ok p) :
    write_address { p with inbuf := a, outbuf := b } tran = write_address p tran := by
  have o0 : b 0 = p.outbuf 0 := (hb 0 (by have := ho.1; omega)).symm
  unfold write_address
  simp only [o0]
  by_cases h5 : p.outbuf 0 ≠ 5
  · simp only [if_pos h5]
  · simp only [if_neg h5]
    have hlen := ho.2 (not_not.mp h5)
    have o1 : b 1 = p.outbuf 1 := (hb 1 (by omega)).symm
    have oL : b ((p.outbuf 1).val + 6) = p.outbuf ((p.outbuf 1).val + 6) :=
      (hb _ (by push_cast; omega)).symm
    simp only [o1, oL]
    have hs1 : slice b ((p.outbuf 1).val + 6 + 1) (p.outbuf ((p.outbuf 1).val + 6)).val =
        slice p.outbuf ((p.outbuf 1).val + 6 + 1) (p.outbuf ((p.outbuf 1).val + 6)).val :=
      slice_ext _ _ _ _ _ (fun i hi => (hb _ (by push_cast; omega)).symm)
    have hs2 : slice b ((p.outbuf 1).val + 6 + (p.outbuf ((p.outbuf 1).val + 6)).val + 1) 2 =
        slice p.outbuf ((p.outbuf 1).val + 6 + (p.outbuf ((p.outbuf 1).val + 6)).val + 1) 2 :=
      slice_ext _ _ _ _ _ (fun i hi => (hb _ (by push_cast; omega)).symm)
    have hs3 : slice b ((p.outbuf 1).val + 6) ((p.outbuf ((p.outbuf 1).val + 6)).val + 3) =
        slice p.outbuf ((p.outbuf 1).val + 6) ((p.outbuf ((p.outbuf 1).val + 6)).val + 3) :=
      slice_ext _ _ _ _ _ (fun i hi => (hb _ (by push_cast; omega)).symm)
    simp only [hs1, hs2, hs3]

theorem same_init_tor_auth (env : Env) (p : peer) (a b : Buf) (nread : Nat) (s : Sys)
    (ha : ∀ i : Nat, (i : Int) < p.inlen → p.inbuf i = a i)
    (hb : ∀ i : Nat, (i : Int) < p.outlen → p.outbuf i = b i) (ho : out_ok p) :
    same (init_tor_auth env p nread s)
      (init_tor_auth env { p with inbuf := a, outbuf := b } nread s) := by
  have hw := write_address_stale p a b true hb ho
  have hag : agree p { p with inbuf := a, outbuf := b } :=
    agree_intro _ _ rfl rfl rfl rfl rfl rfl rfl ha hb
  unfold init_tor_auth
  simp only [hw]
  apply same_ite
  · intro _
    exact ⟨rfl, hag⟩
  · intro h4
    have e2 : a 2 = p.inbuf 2 := (ha 2 (by omega)).symm
    have e3 : a 3 = p.inbuf 3 := (ha 3 (by omega)).symm
    simp only [e2, e3]
    apply same_ite
    · intro _
      apply same_ite
      · intro _
        exact same_shutdown_all _ _ _ hag
      · intro _
        apply same_ite
        · intro _
          exact same_shutdown_all _ _ _ hag
        · intro _
          exact same_init_tor_response p a b _ ha hb ho
    · intro _
      exact same_init_tor_response p a b _ ha hb ho

theorem same_init_tor_stale (env : Env) (p : peer) (a b : Buf) (nread : Nat) (s : Sys)
    (ha : ∀ i : Nat, (i : Int) < p.inlen → p.inbuf i = a i)
    (hb : ∀ i : Nat, (i : Int) < p.outlen → p.outbuf i = b i) (ho : out_ok p) :
    same (init_tor env p nread s) (init_tor env { p with inbuf := a, outbuf := b } nread s) := by
  have hag : agree p { p with inbuf := a, outbuf := b } :=
    agree_intro _ _ rfl rfl rfl rfl rfl rfl rfl ha hb
  have hfd : ∀ fd : Int, agree { p with tor_s := fd }
      { client_s := p.client_s, tor_s := fd, inlen := p.inlen, outlen := p.outlen,
        inend := p.inend, outend := p.outend, init := p.init, inbuf := a, outbuf := b } :=
    fun fd => agree_intro _ _ rfl rfl rfl rfl rfl rfl rfl ha hb
  unfold init_tor
  simp only []
  apply same_ite
  · intro _
    apply same_ite
    · intro _
      exact same_shutdown_all _ _ _ (hfd _)
    · intro _
      apply same_ite
      · intro _
        exact same_shutdown_all _ _ _ (hfd _)
      · intro _
        apply same_ite
        · intro _
          exact same_shutdown_all _ _ _ (hfd _)
        · intro _
          exact ⟨rfl, hfd _⟩
  · intro _
    apply same_ite
    · intro _
      exact ⟨rfl, hag⟩
    · intro h2
      have e0 : a 0 = p.inbuf 0 := (ha 0 (by omega)).symm
      have e1 : a 1 = p.inbuf 1 := (ha 1 (by omega)).symm
      simp only [e0, e1]
      apply same_ite
      · intro _
        apply same_ite
        · intro _
          exact same_shutdown_all _ _ _ hag
        · intro _
          apply same_ite
          · intro _
            exact ⟨rfl, hag⟩
          · intro _
            apply same_ite
            · intro _
              exact same_shutdown_all _ _ _ hag
            · intro _
              exact same_init_tor_auth env p a b nread _ ha hb ho
      · intro _
        exact same_init_tor_auth env p a b nread _ ha hb ho

theorem reqlen_ge (a : Buf) (off : Nat) : 4 ≤ reqlen a off := by
  unfold reqlen
  split <;> omega

theorem reqlen_stale (a b : Buf) (off : Nat) (n : Int)
    (h : ∀ i : Nat, (i : Int) < n → a i = b i) :
    (n < (off : Int) + reqlen a off ∧ n < (off : Int) + reqlen b off) ∨
    (reqlen a off = reqlen b off ∧ (off : Int) + reqlen a off ≤ n) := by
  have ga := reqlen_ge a off
  have gb := reqlen_ge b off
  by_cases h4 : n < (off : Int) + 4
  · left; omega
  · have e3 : a (off + 3) = b (off + 3) := h _ (by push_cast; omega)
    by_cases h3 : a (off + 3) = 3 ∧ n < (off : Int) + 5
    · left
      have r1 : reqlen a off = ((a (off + 4)).val : Int) + 7 := by
        unfold reqlen
        rw [if_pos h3.1]
      have r2 : reqlen b off = ((b (off + 4)).val : Int) + 7 := by
        unfold reqlen
        rw [if_pos (e3 ▸ h3.1)]
      omega
    · have hr : reqlen a off = reqlen b off := by
        unfold reqlen
        rw [← e3]
        split
        · rename_i h7
          have : ¬ n < (off : Int) + 5 := fun hn => h3 ⟨h7, hn⟩
          rw [h (off + 4) (by push_cast; omega)]
        · rfl
      by_cases hle : (off : Int) + reqlen a off ≤ n
      · right; exact ⟨hr, hle⟩
      · left; omega

theorem same_init_client_request (env : Env) (p : peer) (a b : Buf) (nread : Nat) (s : Sys)
    (ha : ∀ i : Nat, (i : Int) < p.inlen → p.inbuf i = a i)
    (hb : ∀ i : Nat, (i : Int) < p.outlen → p.outbuf i = b i)
    (hn : ((p.outbuf 1).val : Int) + 2 ≤ p.outlen) :
    same (init_client_request env p nread s)
      (init_client_request env { p with inbuf := a, outbuf := b } nread s) := by
  have hag : agree p { p with inbuf := a, outbuf := b } :=
    agree_intro _ _ rfl rfl rfl rfl rfl rfl rfl ha hb
  have o1 : b 1 = p.outbuf 1 := (hb 1 (by omega)).symm
  rcases reqlen_stale p.outbuf b ((p.outbuf 1).val + 2) p.outlen hb with ⟨h1, h2⟩ | ⟨hr, hle⟩
  · have e1 : init_client_request env p nread s = (p, s) := by
      unfold init_client_request
      simp only []
      rw [if_pos (by push_cast at h1 ⊢; exact h1)]
    have e2 : init_client_request env { p with inbuf := a, outbuf := b } nread s =
        ({ p with inbuf := a, outbuf := b }, s) := by
      unfold init_client_request
      simp only [o1]
      rw [if_pos (by push_cast at h2 ⊢; exact h2)]
    rw [e1, e2]
    exact ⟨rfl, hag⟩
  · have g := reqlen_ge p.outbuf ((p.outbuf 1).val + 2)
    have f0 : b ((p.outbuf 1).val + 2) = p.outbuf ((p.outbuf 1).val + 2) :=
      (hb _ (by push_cast at hle ⊢; omega)).symm
    have f1 : b ((p.outbuf 1).val + 2 + 1) = p.outbuf ((p.outbuf 1).val + 2 + 1) :=
      (hb _ (by push_cast at hle ⊢; omega)).symm
    have f2 : b ((p.outbuf 1).val + 2 + 2) = p.outbuf ((p.outbuf 1).val + 2 + 2) :=
      (hb _ (by push_cast at hle ⊢; omega)).symm
    unfold init_client_request
    simp only [o1, ← hr, f0, f1, f2]
    apply same_ite
    · intro _
      exact ⟨rfl, hag⟩
    · intro _
      apply same_ite
      · intro _
        apply same_ite
        · intro _
          exact same_shutdown_all _ _ _ hag
        · intro hok
          apply same_init_tor_stale env p a b 0 _ ha hb
          refine ⟨by omega, fun _ => ?_⟩
          have h6 : 6 ≤ reqlen p.outbuf ((p.outbuf 1).val + 2) := by
            by_contra hc
            exact hok (Or.inr (Or.inr (Or.inr (by omega))))
          have h3 : p.outbuf ((p.outbuf 1).val + 2 + 3) = 3 := by
            by_contra hc
            have : reqlen p.outbuf ((p.outbuf 1).val + 2) = 4 := by
              unfold reqlen
              rw [if_neg hc]
            omega
          have hq : reqlen p.outbuf ((p.outbuf 1).val + 2) =
              ((p.outbuf ((p.outbuf 1).val + 2 + 4)).val : Int) + 7 := by
            unfold reqlen
            rw [if_pos h3]
          have hidx : (p.outbuf 1).val + 2 + 4 = (p.outbuf 1).val + 6 := by omega
          rw [hidx] at hq
          push_cast at hle
          omega
      · intro _
        exact ⟨rfl, hag⟩

theorem any_stale (a b : Buf) (n : Nat) (h : ∀ i, i < n → a (i + 2) = b (i + 2)) :
    (List.range n).any (fun i => decide (a (i + 2) = 0)) =
      (List.range n).any (fun i => decide (b (i + 2) = 0)) := by
  apply Bool.eq_iff_iff.mpr
  simp only [List.any_eq_true, List.mem_range, decide_eq_true_eq]
  constructor
  · rintro ⟨i, hi, h0⟩
    exact ⟨i, hi, by rw [← h i hi]; exact h0⟩
  · rintro ⟨i, hi, h0⟩
    exact ⟨i, hi, by rw [h i hi]; exact h0⟩

theorem same_init_client_stale (env : Env) (p : peer) (a b : Buf) (nread : Nat) (s : Sys)
    (ha : ∀ i : Nat, (i : Int) < p.inlen → p.inbuf i = a i)
    (hb : ∀ i : Nat, (i : Int) < p.outlen → p.outbuf i = b i) :
    same (init_client env p nread s)
      (init_client env { p with inbuf := a, outbuf := b } nread s) := by
  have hag : agree p { p with inbuf := a, outbuf := b } :=
    agree_intro _ _ rfl rfl rfl rfl rfl rfl rfl ha hb
  by_cases hpos : p.outlen < 2 ∧ (p.outlen < 1 ∨ p.outbuf 0 = 5)
  · have e1 : init_client env p nread s = (p, s) := by
      unfold init_client
      simp only []
      have : ¬ (0 < p.outlen ∧ p.outbuf 0 ≠ 5) := by
        rintro ⟨h1, h2⟩
        rcases hpos.2 with h | h
        · omega
        · exact h2 h
      rw [if_neg this, if_pos (by omega)]
    have e2 : init_client env { p with inbuf := a, outbuf := b } nread s =
        ({ p with inbuf := a, outbuf := b }, s) := by
      unfold init_client
      simp only []
      have : ¬ (0 < p.outlen ∧ b 0 ≠ 5) := by
        rintro ⟨h1, h2⟩
        apply h2
        rw [← hb 0 (by omega)]
        rcases hpos.2 with h | h
        · omega
        · exact h
      rw [if_neg this, if_pos (by omega)]
    rw [e1, e2]
    exact ⟨rfl, hag⟩
  · have h1 : 1 ≤ p.outlen := by
      by_contra hc
      exact hpos ⟨by omega, Or.inl (by omega)⟩
    have o0 : b 0 = p.outbuf 0 := (hb 0 (by omega)).symm
    unfold init_client
    simp only [o0]
    apply same_ite
    · intro hraw
      apply same_ite
      · intro _
        exact same_init_tor_stale env p a b 0 s ha hb ⟨h1, fun h5 => absurd h5 hraw.2⟩
      · intro _
        exact ⟨rfl, hag⟩
    · intro hsocks
      have h5 : p.outbuf 0 = 5 := by
        by_contra hc
        exact hsocks ⟨by omega, hc⟩
      have h2 : 2 ≤ p.outlen := by
        by_contra hc
        exact hpos ⟨by omega, Or.inr h5⟩
      have o1 : b 1 = p.outbuf 1 := (hb 1 (by omega)).symm
      simp only [o1]
      apply same_ite
      · intro _
        exact ⟨rfl, hag⟩
      · intro hn
        have hany := any_stale b p.outbuf (p.outbuf 1).val
          (fun i hi => (hb _ (by push_cast; omega)).symm)
        simp only [hany]
        apply same_ite
        · intro _
          apply same_ite
          · intro _
            exact same_shutdown_all _ _ _ hag
          · intro _
            apply same_ite
            · intro _
              exact same_shutdown_all _ _ _ hag
            · intro _
              exact same_init_client_request env p a b nread _ ha hb (by omega)
        · intro _
          exact same_init_client_request env p a b nread _ ha hb (by omega)

theorem out_ok_congr (p r : peer) (h1 : r.outbuf = p.outbuf) (h2 : r.outlen = p.outlen)
    (h : out_ok p) : out_ok r := by
  unfold out_ok at *
  rw [h1, h2]
  exact h

theorem init_tor_first (env : Env) (p : peer) (nread : Nat) (s : Sys) (ht : p.tor_s = -1) :
    (init_tor env p nread s).1.tor_s = -1 ∨
    ((init_tor env p nread s).1.outbuf = p.outbuf ∧
      (init_tor env p nread s).1.outlen = p.outlen) := by
  unfold init_tor
  rw [if_pos ht]
  simp only []
  split
  · left; rfl
  · split
    · left; rfl
    · split
      · left; rfl
      · right; exact ⟨rfl, rfl⟩

theorem init_client_request_out_ok (env : Env) (p : peer) (nread : Nat) (s : Sys)
    (ht : p.tor_s = -1) :
    (init_client_request env p nread s).1.tor_s = -1 ∨
      out_ok (init_client_request env p nread s).1 := by
  unfold init_client_request
  simp only []
  split
  · left; exact ht
  · rename_i hle
    split
    · split
      · left; rfl
      · rename_i hok
        rcases init_tor_first env p 0 s ht with h | ⟨e1, e2⟩
        · left; exact h
        · right
          apply out_ok_congr p _ e1 e2
          have g := reqlen_ge p.outbuf ((p.outbuf 1).val + 2)
          refine ⟨by omega, fun _ => ?_⟩
          have h6 : 6 ≤ reqlen p.outbuf ((p.outbuf 1).val + 2) := by
            by_contra hc
            exact hok (Or.inr (Or.inr (Or.inr (by omega))))
          have h3 : p.outbuf ((p.outbuf 1).val + 2 + 3) = 3 := by
            by_contra hc
            have : reqlen p.outbuf ((p.outbuf 1).val + 2) = 4 := by
              unfold reqlen
              rw [if_neg hc]
            omega
          have hq : reqlen p.outbuf ((p.outbuf 1).val + 2) =
              ((p.outbuf ((p.outbuf 1).val + 2 + 4)).val : Int) + 7 := by
            unfold reqlen
            rw [if_pos h3]
          have hidx : (p.outbuf 1).val + 2 + 4 = (p.outbuf 1).val + 6 := by omega
          rw [hidx] at hq
          push_cast at hle
          omega
    · left; exact ht

theorem init_client_out_ok (env : Env) (p : peer) (nread : Nat) (s : Sys)
    (ht : p.tor_s = -1) :
    (init_client env p nread s).1.tor_s = -1 ∨ out_ok (init_client env p nread s).1 := by
  unfold init_client
  simp only []
  split
  · rename_i hraw
    split
    · rcases init_tor_first env p 0 s ht with h | ⟨e1, e2⟩
      · left; exact h
      · right
        exact out_ok_congr p _ e1 e2 ⟨by omega, fun h5 => absurd h5 hraw.2⟩
    · left; exact ht
  · split
    · left; exact ht
    · split
      · split
        · left; rfl
        · split
          · left; rfl
          · exact init_client_request_out_ok env p nread _ ht
      · exact init_client_request_out_ok env p nread _ ht

/-- C20, as the code has it: stale bytes and the handshake.  For two slot
states that agree on the sockets, the flags, both lengths and the buffer
contents below the lengths, and for every `nread`, `init_client` has the
same outcome on both: the same system calls with the same bytes, and
resulting states that agree again.  `init_tor` has the same outcome on both
when `outbuf` holds what `init_client` requires before it starts the
upstream handshake (`out_ok`: at least one byte and, if that byte is 5, the
whole greeting and request); `init_tor` itself reads `outbuf[0]`,
`outbuf[1]` and the request without looking at `outlen`.  A call of
`init_client` that takes a slot from no upstream socket to an upstream
socket leaves it with `out_ok`. -/
theorem C20_stale_bytes (env : Env) (p q : peer) (nread : Nat) (s : Sys) (h : agree p q) :
    same (init_client env p nread s) (init_client env q nread s) ∧
    (out_ok p → same (init_tor env p nread s) (init_tor env q nread s)) ∧
    (p.tor_s = -1 → (init_client env p nread s).1.tor_s ≠ -1 →
      out_ok (init_client env p nread s).1) := by
  obtain ⟨hq, ha, hb⟩ := agree_elim p q h
  rw [hq]
  refine ⟨same_init_client_stale env p _ _ nread s ha hb,
    fun ho => same_init_tor_stale env p _ _ nread s ha hb ho, fun ht hne => ?_⟩
  rcases init_client_out_ok env p nread s ht with h1 | h1
  · exact absurd h1 hne
  · exact h1

set_option maxRecDepth 100000 in
/-- C20, a stale byte that matters: evaluation of `init_tor` on two states
that agree, with `outlen = 0`, and differ only in `outbuf[0]`, which is 0 in
the first and 5 in the second.  When `1 0` arrives the first is sent the
request for the default address, the second a request with an empty name;
when a whole response arrives the first completes as a raw session with
`outlen = 0`, the second as a SOCKS session with `inlen = 10` and
`outlen = -9`. -/
theorem C20_init_tor_reads_beyond_out_len :
    agree (empty_a []) (empty_b []) ∧
    (empty_a []).outlen = 0 ∧ (empty_a []).inlen = 4 ∧
    (empty_a []).outbuf 0 = 0 ∧ (empty_b []).outbuf 0 = 5 ∧
    offered 5 (init_tor (happy 100 7 []) (empty_a []) 2 Sys.start).2.log =
      [[5, 1, 0, 3, 62] ++ default_address ++ [1, 0xD1]] ∧
    offered 5 (init_tor (happy 100 7 []) (empty_b []) 2 Sys.start).2.log =
      [[5, 1, 0, 3, 0, 0, 0]] ∧
    agree (empty_a reply) (empty_b reply) ∧
    ((init_tor (happy 100 7 []) (empty_a reply) 10 Sys.start).1.init,
      (init_tor (happy 100 7 []) (empty_a reply) 10 Sys.start).1.inlen,
      (init_tor (happy 100 7 []) (empty_a reply) 10 Sys.start).1.outlen) = (false, 0, 0) ∧
    ((init_tor (happy 100 7 []) (empty_b reply) 10 Sys.start).1.init,
      (init_tor (happy 100 7 []) (empty_b reply) 10 Sys.start).1.inlen,
      (init_tor (happy 100 7 []) (empty_b reply) 10 Sys.start).1.outlen) = (false, 10, -9) := by
  decide

set_option maxRecDepth 100000 in
theorem C20_stale_bytes_witness :
    agree stale_a stale_b ∧ out_ok stale_a ∧
    stale_a.inbuf 7 ≠ stale_b.inbuf 7 ∧
    same (init_client (happy 100 7 []) stale_a 1 Sys.start)
      (init_client (happy 100 7 []) stale_b 1 Sys.start) ∧
    same (init_tor (happy 100 7 []) stale_a 2 Sys.start)
      (init_tor (happy 100 7 []) stale_b 2 Sys.start) :=
  ⟨by decide, by decide, by decide,
    (C20_stale_bytes (happy 100 7 []) stale_a stale_b 1 Sys.start (by decide)).1,
    (C20_stale_bytes (happy 100 7 []) stale_a stale_b 2 Sys.start (by decide)).2.1 (by decide)⟩

/-! ## C18: fragmentation -/

theorem shift_warnx (d : Nat) (m : String) (s : Sys) : warnx m (s.shift d) = (warnx m s).shift d :=
  rfl

theorem init_client_recv (env : Env) (f : Nat → RecvRet) (p : peer) (nread : Nat) (s : Sys) :
    init_client { env with recv := f } p nread s = init_client env p nread s := rfl

theorem out_ok_agree (p q : peer) (h : agree p q) (ho : out_ok p) : out_ok q := by
  obtain ⟨hq, -, hb⟩ := agree_elim p q h
  rw [hq]
  unfold out_ok at ho ⊢
  simp only []
  have o0 : q.outbuf 0 = p.outbuf 0 := (hb 0 (by have := ho.1; omega)).symm
  refine ⟨ho.1, fun h5 => ?_⟩
  rw [o0] at h5
  have hl := ho.2 h5
  have o1 : q.outbuf 1 = p.outbuf 1 := (hb 1 (by omega)).symm
  rw [o1]
  have oL : q.outbuf ((p.outbuf 1).val + 6) = p.outbuf ((p.outbuf 1).val + 6) :=
    (hb _ (by push_cast; omega)).symm
  rw [oL]
  exact hl

theorem lengths_shutdown_all (p : peer) (s : Sys) (h : lengths_ok p) :
    lengths_ok (shutdown_all p s).1 := h

theorem lengths_shutdown_in (p : peer) (s : Sys) (h : lengths_ok p) :
    lengths_ok (shutdown_in p s).1 := by
  unfold shutdown_in
  simp only []
  split
  · split
    · exact h
    · exact h
  · exact h

theorem lengths_shutdown_out (p : peer) (s : Sys) (h : lengths_ok p) :
    lengths_ok (shutdown_out p s).1 := by
  unfold shutdown_out
  simp only []
  split
  · split
    · exact h
    · exact h
  · exact h

theorem lengths_init_tor_response (p : peer) (s : Sys) (h : lengths_ok p)
    (ho : p.outbuf 0 = 5 →
      ((p.outbuf 1).val : Int) + ((p.outbuf ((p.outbuf 1).val + 6)).val : Int) + 9 ≤ p.outlen) :
    lengths_ok (init_tor_response p s).1 := by
  obtain ⟨h1, h2, h3, h4⟩ := h
  unfold init_tor_response
  simp only []
  split
  · exact ⟨h1, h2, h3, h4⟩
  · rename_i hle
    split
    · exact ⟨h1, h2, h3, h4⟩
    · have hres := toSize_le (p.inlen - (4 + reslen p.inbuf)) (by omega)
      have g := reslen_ge p.inbuf
      split
      · rename_i h5
        have hl := ho h5
        split
        · exact ⟨h1, h2, h3, h4⟩
        · refine ⟨?_, ?_, ?_, ?_⟩ <;> simp only [] <;> push_cast <;> omega
      · refine ⟨?_, ?_, ?_, ?_⟩ <;> simp only [] <;> omega

theorem lengths_init_tor_auth (env : Env) (p : peer) (n : Nat) (s : Sys) (h : lengths_ok p)
    (ho : p.outbuf 0 = 5 →
      ((p.outbuf 1).val : Int) + ((p.outbuf ((p.outbuf 1).val + 6)).val : Int) + 9 ≤ p.outlen) :
    lengths_ok (init_tor_auth env p n s).1 := by
  unfold init_tor_auth
  simp only []
  split
  · exact h
  · split
    · split
      · exact h
      · split
        · exact h
        · exact lengths_init_tor_response p _ h ho
    · exact lengths_init_tor_response p _ h ho

theorem lengths_init_tor (env : Env) (p : peer) (n : Nat) (s : Sys) (h : lengths_ok p)
    (ho : p.outbuf 0 = 5 →
      ((p.outbuf 1).val : Int) + ((p.outbuf ((p.outbuf 1).val + 6)).val : Int) + 9 ≤ p.outlen) :
    lengths_ok (init_tor env p n s).1 := by
  unfold init_tor
  simp only []
  split
  · split
    · exact h
    · split
      · exact h
      · split
        · exact h
        · exact h
  · split
    · exact h
    · split
      · split
        · exact h
        · split
          · exact h
          · split
            · exact h
            · exact lengths_init_tor_auth env p n _ h ho
      · exact lengths_init_tor_auth env p n s h ho

theorem lengths_init_client_request (env : Env) (p : peer) (n : Nat) (s : Sys)
    (h : lengths_ok p) : lengths_ok (init_client_request env p n s).1 := by
  unfold init_client_request
  simp only []
  split
  · exact h
  · rename_i hle
    split
    · split
      · exact h
      · rename_i hok
        apply lengths_init_tor env p 0 s h
        intro _
        have g := reqlen_ge p.outbuf ((p.outbuf 1).val + 2)
        have h6 : 6 ≤ reqlen p.outbuf ((p.outbuf 1).val + 2) := by
          by_contra hc
          exact hok (Or.inr (Or.inr (Or.inr (by omega))))
        have h3 : p.outbuf ((p.outbuf 1).val + 2 + 3) = 3 := by
          by_contra hc
          have : reqlen p.outbuf ((p.outbuf 1).val + 2) = 4 := by
            unfold reqlen
            rw [if_neg hc]
          omega
        have hq : reqlen p.outbuf ((p.outbuf 1).val + 2) =
            ((p.outbuf ((p.outbuf 1).val + 2 + 4)).val : Int) + 7 := by
          unfold reqlen
          rw [if_pos h3]
        have hidx : (p.outbuf 1).val + 2 + 4 = (p.outbuf 1).val + 6 := by omega
        rw [hidx] at hq
        push_cast at hle
        omega
    · exact h

theorem lengths_init_client (env : Env) (p : peer) (n : Nat) (s : Sys) (h : lengths_ok p) :
    lengths_ok (init_client env p n s).1 := by
  unfold init_client
  simp only []
  split
  · rename_i hraw
    split
    · exact lengths_init_tor env p 0 s h (fun h5 => absurd h5 hraw.2)
    · exact h
  · split
    · exact h
    · split
      · split
        · exact h
        · split
          · exact h
          · exact lengths_init_client_request env p n _ h
      · exact lengths_init_client_request env p n s h

theorem lengths_read_client (env : Env) (p : peer) (s : Sys) (h : lengths_ok p) :
    lengths_ok (read_client env p s).1 := by
  obtain ⟨h1, h2, h3, h4⟩ := h
  have hsz : toSize ((BufSize : Int) - p.outlen) = (BufSize - p.outlen.toNat : Nat) := by
    rw [← toSize_free p.outlen.toNat (by omega)]
    congr 1
    omega
  unfold read_client
  simp only [hsz]
  split
  · split
    · exact ⟨h1, h2, h3, h4⟩
    · exact lengths_shutdown_out _ _ ⟨h1, h2, h3, h4⟩
  · rename_i hle
    split
    · exact lengths_shutdown_out _ _ ⟨h1, h2, h3, h4⟩
    · have hok : lengths_ok { p with
          outbuf := store p.outbuf p.outlen.toNat (sys_recv env (BufSize - p.outlen.toNat) s).2.2.1,
          outlen := p.outlen + ((sys_recv env (BufSize - p.outlen.toNat) s).1 : Int) } := by
        refine ⟨h1, h2, ?_, ?_⟩ <;> simp only [] <;> omega
      split
      · exact lengths_init_client env _ _ _ hok
      · exact hok

theorem lengths_read_tor (env : Env) (p : peer) (s : Sys) (h : lengths_ok p)
    (ho : p.init = true → p.outbuf 0 = 5 →
      ((p.outbuf 1).val : Int) + ((p.outbuf ((p.outbuf 1).val + 6)).val : Int) + 9 ≤ p.outlen) :
    lengths_ok (read_tor env p s).1 := by
  obtain ⟨h1, h2, h3, h4⟩ := h
  have hsz : toSize ((BufSize : Int) - p.inlen) = (BufSize - p.inlen.toNat : Nat) := by
    rw [← toSize_free p.inlen.toNat (by omega)]
    congr 1
    omega
  unfold read_tor
  simp only [hsz]
  split
  · split
    · exact ⟨h1, h2, h3, h4⟩
    · exact lengths_shutdown_in _ _ ⟨h1, h2, h3, h4⟩
  · rename_i hle
    split
    · exact lengths_shutdown_in _ _ ⟨h1, h2, h3, h4⟩
    · have hok : lengths_ok { p with
          inbuf := store p.inbuf p.inlen.toNat (sys_recv env (BufSize - p.inlen.toNat) s).2.2.1,
          inlen := p.inlen + ((sys_recv env (BufSize - p.inlen.toNat) s).1 : Int) } := by
        refine ⟨?_, ?_, h3, h4⟩ <;> simp only [] <;> omega
      split
      · rename_i hinit
        exact lengths_init_tor env _ _ _ hok (ho hinit)
      · exact hok

theorem lengths_write_client (env : Env) (p : peer) (s : Sys) (h : lengths_ok p) :
    lengths_ok (write_client env p s).1 := by
  obtain ⟨h1, h2, h3, h4⟩ := h
  have hsz : toSize p.inlen = p.inlen.toNat := by
    obtain ⟨k, hk⟩ : ∃ k : Nat, p.inlen = (k : Int) := ⟨p.inlen.toNat, by omega⟩
    rw [hk, toSize_of_nat _ (by simp only [BufSize] at h2; omega), Int.toNat_ofNat]
  unfold write_client
  simp only [hsz]
  split
  · split
    · split
      · exact ⟨h1, h2, h3, h4⟩
      · apply lengths_shutdown_in
        refine ⟨?_, ?_, h3, h4⟩ <;> simp only [BufSize] <;> omega
    · rename_i hle
      have hok : lengths_ok { p with
          inlen := p.inlen - ((sys_send env p.client_s (bytes p.inbuf p.inlen.toNat) s).1 : Int) } := by
        refine ⟨?_, ?_, h3, h4⟩ <;> simp only [] <;> omega
      split
      · exact lengths_shutdown_in _ _ hok
      · exact hok
  · split
    · exact lengths_shutdown_in _ _ ⟨h1, h2, h3, h4⟩
    · exact ⟨h1, h2, h3, h4⟩

theorem lengths_write_tor (env : Env) (p : peer) (s : Sys) (h : lengths_ok p) :
    lengths_ok (write_tor env p s).1 := by
  obtain ⟨h1, h2, h3, h4⟩ := h
  have hsz : toSize p.outlen = p.outlen.toNat := by
    obtain ⟨k, hk⟩ : ∃ k : Nat, p.outlen = (k : Int) := ⟨p.outlen.toNat, by omega⟩
    rw [hk, toSize_of_nat _ (by simp only [BufSize] at h4; omega), Int.toNat_ofNat]
  unfold write_tor
  simp only [hsz]
  split
  · split
    · split
      · exact ⟨h1, h2, h3, h4⟩
      · apply lengths_shutdown_out
        refine ⟨h1, h2, ?_, ?_⟩ <;> simp only [BufSize] <;> omega
    · rename_i hle
      have hok : lengths_ok { p with
          outlen := p.outlen - ((sys_send env p.tor_s (bytes p.outbuf p.outlen.toNat) s).1 : Int) } := by
        refine ⟨h1, h2, ?_, ?_⟩ <;> simp only [] <;> omega
      split
      · exact lengths_shutdown_out _ _ hok
      · exact hok
  · split
    · exact lengths_shutdown_out _ _ ⟨h1, h2, h3, h4⟩
    · exact ⟨h1, h2, h3, h4⟩

/-- What keeps the lengths within `0 .. BufSize`.  From a slot that satisfies
`lengths_ok`, the install, the three shutdown functions, `read_client`,
`write_client`, `write_tor` and `init_client` lead to a slot that satisfies
it; so do `init_tor` and `read_tor` when a SOCKS greeting and request, if
`outbuf` starts one, lie below `outlen`, and `read_tor` after the
handshake.  The slots of the initial table satisfy it. -/
theorem lengths_kept (env : Env) (p : peer) (s : Sys) (n : Nat) (fd : Int) (h : lengths_ok p) :
    lengths_ok (accepted p fd) ∧ lengths_ok (shutdown_in p s).1 ∧
    lengths_ok (shutdown_out p s).1 ∧ lengths_ok (shutdown_all p s).1 ∧
    lengths_ok (read_client env p s).1 ∧ lengths_ok (write_client env p s).1 ∧
    lengths_ok (write_tor env p s).1 ∧ lengths_ok (init_client env p n s).1 ∧
    (p.init = false → lengths_ok (read_tor env p s).1) ∧
    ((p.outbuf 0 = 5 →
        ((p.outbuf 1).val : Int) + ((p.outbuf ((p.outbuf 1).val + 6)).val : Int) + 9 ≤ p.outlen) →
      lengths_ok (init_tor env p n s).1 ∧ lengths_ok (read_tor env p s).1) ∧
    (∀ q ∈ World.start.peers, lengths_ok q) := by
  have hacc : lengths_ok (accepted p fd) := by
    unfold lengths_ok accepted
    simp only [BufSize]
    omega
  refine ⟨hacc, lengths_shutdown_in p s h, lengths_shutdown_out p s h,
    lengths_shutdown_all p s h, lengths_read_client env p s h, lengths_write_client env p s h,
    lengths_write_tor env p s h, lengths_init_client env p n s h, ?_, ?_, ?_⟩
  · intro hi
    exact lengths_read_tor env p s h (fun h1 => by rw [hi] at h1; cases h1)
  · intro ho
    exact ⟨lengths_init_tor env p n s h ho, lengths_read_tor env p s h (fun _ => ho)⟩
  · intro q hq
    simp only [World.start, List.mem_replicate] at hq
    rw [hq.2]
    decide

end TorForwarder
